import Mathlib

/-!
# The pod-fingerprint status recorder (`pkg/pfpstatus/record`)

A shallow embedding of `recorder.go` and `options.go`, and the properties of the
bounded per-node history (`NodeRecorder`) and of the node-indexed store
(`Recorder`) built on it. The store is embedded twice: with its entries as a list,
which is what the recorder itself holds, and in `Mem` with Go's slices, which is what
a caller of `Content()` holds. The bearer-token middleware of `pfpstatus_http.go`
follows in the namespace `pfpstatus`.

Modelling conventions

* Go `int` values (capacity, maxSize, the size accumulator, lengths) are `Int`.
  The only arithmetic is adding and subtracting byte counts of entries that are
  held in memory, far below `2^63`, so no wrap-around is modelled.
* A method with a pointer receiver becomes a function that returns the new
  receiver next to the returned `error` (`none` is Go's `nil`).
* A call can also fail to return: `Run.panics` is a Go run-time panic (index out
  of range), `Run.diverges` a loop that never exits.
* The `timestamper` callback is the environment: `Push` receives as `ts` the
  value the callback yields for this call, and the callback itself is not part
  of the state (so `WithTimestamper` has no counterpart).
* `RecordedStatus.Size` is the byte count of
  `fmt.Sprintf("%+v\n%+v", rs.Pods, rs.RecordTime)`; the formatter belongs to the
  Go standard library and is taken as the parameter `fmtLen`.
* `map[string]*NodeRecorder` is a `Finmap`; mutating the pointed-to
  `NodeRecorder` re-binds its key.
-/

namespace record

/-! ## Data model -/

/-- Go `podfingerprint.NamespacedName`: one pod of a status. -/
structure NamespacedName where
  Namespace : String
  Name : String
deriving DecidableEq

/-- Go `podfingerprint.Status`, the value pushed into the recorders. -/
structure Status where
  FingerprintExpected : String
  FingerprintComputed : String
  Pods : List NamespacedName
  NodeName : String
deriving DecidableEq

/-- Go `podfingerprint.Status.Equal` (external package): all four fields agree. -/
def Status.Equal (st x : Status) : Bool :=
  st.NodeName == x.NodeName && st.FingerprintExpected == x.FingerprintExpected &&
    st.FingerprintComputed == x.FingerprintComputed && st.Pods == x.Pods

/-- Go `time.Time`, only stored and handed to the formatter; `0` is the zero time. -/
abbrev Time := Nat

/-- Byte count of `fmt.Sprintf("%+v\n%+v", pods, recordTime)`. -/
abbrev Formatter := List NamespacedName → Time → Nat

/-- The sentinel errors of `recorder.go`. -/
inductive Error where
  | ErrInvalidCapacity
  | ErrInvalidNodeCount
  | ErrMissingNode
  | ErrMismatchingNode
  | ErrTooManyNodes
deriving DecidableEq

/-- How a call ends: it returns a value, panics, or never returns. -/
inductive Run (α : Type) where
  | ret (a : α)
  | panics
  | diverges
deriving DecidableEq

/-- Go `RecordedStatus`: the embedded `Status`, the record time and the cached size. -/
structure RecordedStatus extends Status where
  RecordTime : Time
  statusSize : Int
deriving DecidableEq

/-- The zero value of `RecordedStatus`, which `make([]RecordedStatus, 1)` fills in. -/
def RecordedStatus.zero : RecordedStatus :=
  { FingerprintExpected := "", FingerprintComputed := "", Pods := [], NodeName := "",
    RecordTime := 0, statusSize := 0 }

/-- Go `RecordedStatus.Size`. -/
def RecordedStatus.Size (fmtLen : Formatter) (rs : RecordedStatus) : Int :=
  (fmtLen rs.Pods rs.RecordTime : Nat)

/-- Go `RecordedStatus.Equal`: equality of the embedded statuses only. -/
def RecordedStatus.Equal (rs x : RecordedStatus) : Bool :=
  rs.toStatus.Equal x.toStatus

/-- Go `NodeRecorder` (without the `timestamper` callback). -/
structure NodeRecorder where
  nodeName : String
  capacity : Int
  maxSize : Int
  size : Int
  statuses : List RecordedStatus
  coalesceLast : Bool
deriving DecidableEq

/-- Go `NodeOption`: the functional options of `NewNodeRecorder`. -/
inductive NodeOption where
  | WithCapacity (capacity : Int)
  | WithCoalescing (val : Bool)
  | WithMaxSize (maxSize : Int)
deriving DecidableEq

/-- Running one `NodeOption` on the recorder under construction. -/
def NodeOption.apply (nr : NodeRecorder) : NodeOption → NodeRecorder
  | .WithCapacity capacity => { nr with capacity := capacity }
  | .WithCoalescing val => { nr with coalesceLast := val }
  | .WithMaxSize maxSize => { nr with maxSize := maxSize }

/-! ## NodeRecorder -/

/-- Go `NewNodeRecorder`. -/
def NewNodeRecorder (nodeName : String) (opts : List NodeOption) : Except Error NodeRecorder :=
  if nodeName = "" then .error .ErrMissingNode
  else
    let nr0 : NodeRecorder :=
      { nodeName := nodeName, capacity := 0, maxSize := 0, size := 0, statuses := [],
        coalesceLast := false }
    let nr := opts.foldl NodeOption.apply nr0
    if nr.capacity < 1 then .error .ErrInvalidCapacity
    else if nr.capacity = 1 then .ok { nr with statuses := [RecordedStatus.zero] }
    else .ok nr

/-- Go `NodeRecorder.Len`. -/
def NodeRecorder.Len (nr : NodeRecorder) : Int := (nr.statuses.length : Nat)

/-- Go `NodeRecorder.Cap`. -/
def NodeRecorder.Cap (nr : NodeRecorder) : Int := nr.capacity

/-- Go `NodeRecorder.Content`. -/
def NodeRecorder.Content (nr : NodeRecorder) : List RecordedStatus := nr.statuses

/-- Go `NodeRecorder.IsCoalescing`. -/
def NodeRecorder.IsCoalescing (nr : NodeRecorder) : Bool := nr.coalesceLast

/-- Go `NodeRecorder.MaxSize`. -/
def NodeRecorder.MaxSize (nr : NodeRecorder) : Int := nr.maxSize

/-- Go `NodeRecorder.dropOldest`: nothing happens on an empty store (`Len() < 1`). -/
def NodeRecorder.dropOldest (fmtLen : Formatter) (nr : NodeRecorder) : NodeRecorder :=
  match nr.statuses with
  | [] => nr
  | oldest :: rest => { nr with size := nr.size - oldest.Size fmtLen, statuses := rest }

/-- The `for (nr.size + size) > nr.maxSize { nr.dropOldest() }` loop of `makeRoom`,
with a bound on the number of condition checks; running out of it is reported as
`diverges`. -/
def NodeRecorder.makeRoomLoop (fmtLen : Formatter) (size : Int) :
    Nat → NodeRecorder → Run NodeRecorder
  | 0, _ => .diverges
  | fuel + 1, nr =>
    if nr.size + size > nr.maxSize then makeRoomLoop fmtLen size fuel (nr.dropOldest fmtLen)
    else .ret nr

/-- Go `NodeRecorder.makeRoom`. The loop gets one check more than there are entries:
once the store is empty `dropOldest` changes nothing, so a condition that still
holds then holds forever (see `makeRoomLoop_fuel_stable`). -/
def NodeRecorder.makeRoom (fmtLen : Formatter) (nr : NodeRecorder) (size : Int) :
    Run NodeRecorder :=
  let nr1 := if nr.capacity > 1 ∧ nr.Len = nr.Cap then nr.dropOldest fmtLen else nr
  if nr1.maxSize = 0 then .ret nr1
  else if size ≥ nr1.maxSize then .ret { nr1 with size := 0, statuses := [] }
  else NodeRecorder.makeRoomLoop fmtLen size (nr1.statuses.length + 1) nr1

/-- The coalescing test of `Push`: the recorder coalesces, is not empty, and its
newest entry has the fingerprints of the incoming status. -/
def NodeRecorder.coalesces (nr : NodeRecorder) (st : Status) : Bool :=
  nr.IsCoalescing && nr.Len != 0 &&
    match nr.statuses.getLast? with
    | some lastItem =>
      lastItem.FingerprintComputed == st.FingerprintComputed &&
        lastItem.FingerprintExpected == st.FingerprintExpected
    | none => false

/-- The entry `Push` builds: `item := RecordedStatus{Status: st, RecordTime: ts}`
followed by `item.statusSize = item.Size()`. -/
def newItem (fmtLen : Formatter) (st : Status) (ts : Time) : RecordedStatus :=
  let item : RecordedStatus := { toStatus := st, RecordTime := ts, statusSize := 0 }
  { item with statusSize := item.Size fmtLen }

/-- Go `NodeRecorder.Push`; `ts` is what `nr.timestamper()` yields. The call itself,
which panics on a `nil` callback, is part of `Timed.NodeRecorder.Push`. -/
def NodeRecorder.Push (fmtLen : Formatter) (nr : NodeRecorder) (st : Status) (ts : Time) :
    Run (NodeRecorder × Option Error) :=
  if st.NodeName = "" then .ret (nr, some .ErrMissingNode)
  else if st.NodeName ≠ nr.nodeName then .ret (nr, some .ErrMismatchingNode)
  else if nr.coalesces st then .ret (nr, none)
  else
    let item := newItem fmtLen st ts
    if nr.capacity = 1 then
      match nr.statuses with
      | [] => .panics
      | _ :: rest => .ret ({ nr with statuses := item :: rest, size := item.Size fmtLen }, none)
    else
      match nr.makeRoom fmtLen item.statusSize with
      | .ret nr1 =>
        .ret ({ nr1 with statuses := nr1.statuses ++ [item],
                         size := nr1.size + item.Size fmtLen }, none)
      | .panics => .panics
      | .diverges => .diverges

/-! ## Recorder -/

/-- Go `DefaultMaxNodes`. -/
def DefaultMaxNodes : Int := 1023

/-- Go `Recorder` (without the `timestamper` callback). -/
structure Recorder where
  nodes : Finmap (fun _ : String => NodeRecorder)
  nodeCapacity : Int
  maxNodes : Int
  maxSize : Int
  coalesceLast : Bool
deriving DecidableEq

/-- Go `Option`: the functional options of `NewRecorder`. -/
inductive RecorderOption where
  | WithNodeCapacity (nodeCapacity : Int)
  | WithMaxNodes (maxNodes : Int)
  | WithPFPCoalescing (val : Bool)
  | WithMaxSizePerNode (maxSize : Int)
deriving DecidableEq

/-- Running one `RecorderOption` on the recorder under construction. -/
def RecorderOption.apply (rr : Recorder) : RecorderOption → Recorder
  | .WithNodeCapacity nodeCapacity => { rr with nodeCapacity := nodeCapacity }
  | .WithMaxNodes maxNodes => { rr with maxNodes := maxNodes }
  | .WithPFPCoalescing val => { rr with coalesceLast := val }
  | .WithMaxSizePerNode maxSize => { rr with maxSize := maxSize }

/-- Go `NewRecorder`. -/
def NewRecorder (opts : List RecorderOption) : Except Error Recorder :=
  let rr0 : Recorder :=
    { nodes := ∅, nodeCapacity := 1, maxNodes := DefaultMaxNodes, maxSize := 0,
      coalesceLast := false }
  let rr := opts.foldl RecorderOption.apply rr0
  if rr.maxNodes < 1 then .error .ErrInvalidNodeCount
  else if rr.nodeCapacity < 1 then .error .ErrInvalidCapacity
  else .ok rr

/-- Go `Recorder.MaxNodes`. -/
def Recorder.MaxNodes (rr : Recorder) : Int := rr.maxNodes

/-- Go `Recorder.Cap`. -/
def Recorder.Cap (rr : Recorder) : Int := rr.nodeCapacity

/-- Go `Recorder.CountNodes`: `len(rr.nodes)`. -/
def Recorder.CountNodes (rr : Recorder) : Int := (rr.nodes.keys.card : Nat)

/-- Go `Recorder.CountRecords`. -/
def Recorder.CountRecords (rr : Recorder) (nodeName : String) : Int :=
  match rr.nodes.lookup nodeName with
  | none => 0
  | some nr => nr.Len

/-- Go `Recorder.Len`: the entry counts of all nodes, added up. -/
def Recorder.Len (rr : Recorder) : Int :=
  rr.nodes.foldl (fun tot _ nr => tot + nr.Len) (fun _ _ _ _ _ => add_right_comm _ _ _) 0

/-- Go `Recorder.IsCoalescing`. -/
def Recorder.IsCoalescing (rr : Recorder) : Bool := rr.coalesceLast

/-- Go `Recorder.MaxSize`. -/
def Recorder.MaxSize (rr : Recorder) : Int := rr.maxSize

/-- Go `Recorder.ContentForNode`. -/
def Recorder.ContentForNode (rr : Recorder) (nodeName : String) : List RecordedStatus × Bool :=
  match rr.nodes.lookup nodeName with
  | none => ([], false)
  | some nr => (nr.Content, true)

/-- Go `Recorder.maxCapacityReached`. -/
def Recorder.maxCapacityReached (rr : Recorder) : Bool :=
  decide (rr.CountNodes ≥ rr.maxNodes)

/-- The tail of `Recorder.Push`, `return nr.Push(st)`, for the per-node store `nr`
bound (already, or just now) to the status's node name. -/
def Recorder.pushInto (fmtLen : Formatter) (rr : Recorder) (nr : NodeRecorder) (st : Status)
    (ts : Time) : Run (Recorder × Option Error) :=
  match nr.Push fmtLen st ts with
  | .ret (nr1, err) => .ret ({ rr with nodes := rr.nodes.insert st.NodeName nr1 }, err)
  | .panics => .panics
  | .diverges => .diverges

/-- Go `Recorder.Push`; `ts` is what the shared timestamper yields. The call itself is
part of `Timed.Recorder.Push`. -/
def Recorder.Push (fmtLen : Formatter) (rr : Recorder) (st : Status) (ts : Time) :
    Run (Recorder × Option Error) :=
  if st.NodeName = "" then .ret (rr, some .ErrMissingNode)
  else
    match rr.nodes.lookup st.NodeName with
    | some nr => rr.pushInto fmtLen nr st ts
    | none =>
      if rr.maxCapacityReached then .ret (rr, some .ErrTooManyNodes)
      else
        match NewNodeRecorder st.NodeName
            [.WithCapacity rr.nodeCapacity, .WithMaxSize rr.maxSize,
              .WithCoalescing rr.coalesceLast] with
        | .error err => .ret (rr, some err)
        | .ok nr => rr.pushInto fmtLen nr st ts

/-! ## Reachable states -/

/-- The states of a `NodeRecorder` that `NewNodeRecorder` and `Push` calls produce. -/
inductive NodeRecorder.Reachable (fmtLen : Formatter) : NodeRecorder → Prop where
  | init (nodeName : String) (opts : List NodeOption) (nr : NodeRecorder) :
      NewNodeRecorder nodeName opts = .ok nr → Reachable fmtLen nr
  | push (nr nr1 : NodeRecorder) (st : Status) (ts : Time) (err : Option Error) :
      Reachable fmtLen nr → nr.Push fmtLen st ts = .ret (nr1, err) → Reachable fmtLen nr1

/-- The states of a `Recorder` that `NewRecorder` and `Push` calls produce. -/
inductive Recorder.Reachable (fmtLen : Formatter) : Recorder → Prop where
  | init (opts : List RecorderOption) (rr : Recorder) :
      NewRecorder opts = .ok rr → Reachable fmtLen rr
  | push (rr rr1 : Recorder) (st : Status) (ts : Time) (err : Option Error) :
      Reachable fmtLen rr → rr.Push fmtLen st ts = .ret (rr1, err) → Reachable fmtLen rr1

/-- Pushing a list of timestamped statuses in order, stopping at the first call that
does not return; the returned errors are dropped, as the collect loop does. -/
def NodeRecorder.pushAll (fmtLen : Formatter) (nr : NodeRecorder) :
    List (Status × Time) → Run NodeRecorder
  | [] => .ret nr
  | (st, ts) :: rest =>
    match nr.Push fmtLen st ts with
    | .ret (nr1, _) => pushAll fmtLen nr1 rest
    | .panics => .panics
    | .diverges => .diverges

/-- Pushing a list of timestamped statuses into a `Recorder` in order, stopping at the
first call that does not return; the `error` of each call is kept, in order. -/
def Recorder.pushAll (fmtLen : Formatter) (rr : Recorder) :
    List (Status × Time) → Run (Recorder × List (Option Error))
  | [] => .ret (rr, [])
  | (st, ts) :: rest =>
    match rr.Push fmtLen st ts with
    | .ret (rr1, err) =>
      match pushAll fmtLen rr1 rest with
      | .ret (rr2, errs) => .ret (rr2, err :: errs)
      | .panics => .panics
      | .diverges => .diverges
    | .panics => .panics
    | .diverges => .diverges

/-- Whether one of the pushes carried the node name `name` and returned `nil`. -/
def pushedOk (name : String) (pushes : List (Status × Time)) (errs : List (Option Error)) :
    Bool :=
  (pushes.zip errs).any fun p => decide (p.1.1.NodeName = name) && p.2.isNone

/-- A formatter for examples: two bytes per pod name and a 32-byte time stamp. -/
def sampleFmtLen : Formatter := fun pods _ => 2 * pods.length + 32

/-! ## Slices

`Content()` returns `nr.statuses` itself. To follow what a caller sees through such a
value after later pushes, the store is modelled once more, in `Mem`, with the slice
semantics of Go: a slice is a window of a backing array, and slices can share an array.
The operations are those of `recorder.go` again, with the heap of backing arrays passed
along. -/

/-- A Go slice value: the window `[off, off + len)` of the backing array `arr`, which
can grow in place up to `off + cap`. -/
structure Slice where
  arr : Nat
  off : Nat
  len : Nat
  cap : Nat
deriving DecidableEq

/-- The empty slice (`nil`, or `[]RecordedStatus{}`): no entries, no capacity. -/
def Slice.empty : Slice := { arr := 0, off := 0, len := 0, cap := 0 }

/-- Go `s[1:]`. -/
def Slice.tail (s : Slice) : Slice :=
  { s with off := s.off + 1, len := s.len - 1, cap := s.cap - 1 }

/-- The backing arrays allocated so far, by address. -/
abbrev Heap := List (List RecordedStatus)

/-- The entries seen through a slice. -/
def Heap.view (h : Heap) (s : Slice) : List RecordedStatus :=
  ((h.getD s.arr []).drop s.off).take s.len

/-- Go `s[i]`, read (slices made by the operations below lie within their arrays). -/
def Heap.read (h : Heap) (s : Slice) (i : Nat) : RecordedStatus :=
  (h.view s).getD i RecordedStatus.zero

/-- Go `s[i] = v`: the entry `off + i` of the backing array is overwritten. -/
def Heap.store (h : Heap) (s : Slice) (i : Nat) (v : RecordedStatus) : Heap :=
  h.set s.arr ((h.getD s.arr []).set (s.off + i) v)

/-- Go `make([]RecordedStatus, n)`: a new backing array of `n` zero entries. -/
def Heap.make (h : Heap) (n : Nat) : Heap × Slice :=
  (h ++ [List.replicate n RecordedStatus.zero], { arr := h.length, off := 0, len := n, cap := n })

/-- Go `append(s, v)`: within the capacity the entry is written after the window, in
the same backing array; beyond it, the window and the entry are copied to a new array
whose capacity the run time chooses (`grow`, at least the length needed). -/
def Heap.append (grow : Nat → Nat) (h : Heap) (s : Slice) (v : RecordedStatus) : Heap × Slice :=
  if s.len < s.cap then (h.store s s.len v, { s with len := s.len + 1 })
  else
    let newCap := max (grow (s.len + 1)) (s.len + 1)
    (h ++ [h.view s ++ [v] ++ List.replicate (newCap - (s.len + 1)) RecordedStatus.zero],
      { arr := h.length, off := 0, len := s.len + 1, cap := newCap })

namespace Mem

/-- Go `NodeRecorder`, with `statuses` as a slice value. -/
structure NodeRecorder where
  nodeName : String
  capacity : Int
  maxSize : Int
  size : Int
  statuses : Slice
  coalesceLast : Bool
deriving DecidableEq

/-- Running one `NodeOption` on the recorder under construction. -/
def applyOption (nr : NodeRecorder) : NodeOption → NodeRecorder
  | .WithCapacity capacity => { nr with capacity := capacity }
  | .WithCoalescing val => { nr with coalesceLast := val }
  | .WithMaxSize maxSize => { nr with maxSize := maxSize }

/-- Go `NewNodeRecorder`. -/
def NewNodeRecorder (h : Heap) (nodeName : String) (opts : List NodeOption) :
    Except Error (Heap × NodeRecorder) :=
  if nodeName = "" then .error .ErrMissingNode
  else
    let nr0 : NodeRecorder :=
      { nodeName := nodeName, capacity := 0, maxSize := 0, size := 0, statuses := Slice.empty,
        coalesceLast := false }
    let nr := opts.foldl applyOption nr0
    if nr.capacity < 1 then .error .ErrInvalidCapacity
    else if nr.capacity = 1 then
      let made := h.make 1
      .ok (made.1, { nr with statuses := made.2 })
    else .ok (h, nr)

/-- Go `NodeRecorder.Len`. -/
def NodeRecorder.Len (nr : NodeRecorder) : Int := (nr.statuses.len : Nat)

/-- Go `NodeRecorder.Cap`. -/
def NodeRecorder.Cap (nr : NodeRecorder) : Int := nr.capacity

/-- Go `NodeRecorder.Content`: the slice value `nr.statuses`, not a copy of its
entries. -/
def NodeRecorder.Content (nr : NodeRecorder) : Slice := nr.statuses

/-- Go `NodeRecorder.dropOldest`. -/
def NodeRecorder.dropOldest (fmtLen : Formatter) (h : Heap) (nr : NodeRecorder) :
    NodeRecorder :=
  if nr.Len < 1 then nr
  else { nr with size := nr.size - (h.read nr.statuses 0).Size fmtLen,
                 statuses := nr.statuses.tail }

/-- The eviction loop of `makeRoom`, with a bound on the number of condition checks. -/
def NodeRecorder.makeRoomLoop (fmtLen : Formatter) (h : Heap) (size : Int) :
    Nat → NodeRecorder → Run NodeRecorder
  | 0, _ => .diverges
  | fuel + 1, nr =>
    if nr.size + size > nr.maxSize then makeRoomLoop fmtLen h size fuel (nr.dropOldest fmtLen h)
    else .ret nr

/-- Go `NodeRecorder.makeRoom`. -/
def NodeRecorder.makeRoom (fmtLen : Formatter) (h : Heap) (nr : NodeRecorder) (size : Int) :
    Run NodeRecorder :=
  let nr1 := if nr.capacity > 1 ∧ nr.Len = nr.Cap then nr.dropOldest fmtLen h else nr
  if nr1.maxSize = 0 then .ret nr1
  else if size ≥ nr1.maxSize then .ret { nr1 with size := 0, statuses := Slice.empty }
  else NodeRecorder.makeRoomLoop fmtLen h size (nr1.statuses.len + 1) nr1

/-- The coalescing test of `Push`. -/
def NodeRecorder.coalesces (h : Heap) (nr : NodeRecorder) (st : Status) : Bool :=
  nr.coalesceLast && nr.Len != 0 &&
    ((h.read nr.statuses (nr.statuses.len - 1)).FingerprintComputed == st.FingerprintComputed &&
      (h.read nr.statuses (nr.statuses.len - 1)).FingerprintExpected == st.FingerprintExpected)

/-- Go `NodeRecorder.Push`. -/
def NodeRecorder.Push (fmtLen : Formatter) (grow : Nat → Nat) (h : Heap) (nr : NodeRecorder)
    (st : Status) (ts : Time) : Run (Heap × NodeRecorder × Option Error) :=
  if st.NodeName = "" then .ret (h, nr, some .ErrMissingNode)
  else if st.NodeName ≠ nr.nodeName then .ret (h, nr, some .ErrMismatchingNode)
  else if nr.coalesces h st then .ret (h, nr, none)
  else
    let item := newItem fmtLen st ts
    if nr.capacity = 1 then
      if nr.statuses.len = 0 then .panics
      else .ret (h.store nr.statuses 0 item, { nr with size := item.Size fmtLen }, none)
    else
      match nr.makeRoom fmtLen h item.statusSize with
      | .ret nr1 =>
        let grown := h.append grow nr1.statuses item
        .ret (grown.1, { nr1 with statuses := grown.2, size := nr1.size + item.Size fmtLen },
          none)
      | .panics => .panics
      | .diverges => .diverges

end Mem

/-- Applying a function to the value a call returns. -/
def Run.map {α β : Type} (f : α → β) : Run α → Run β
  | .ret a => .ret (f a)
  | .panics => .panics
  | .diverges => .diverges

/-- A slice lies within its backing array. -/
def Slice.Valid (h : Heap) (s : Slice) : Prop :=
  s.len ≤ s.cap ∧ s.off + s.cap ≤ (h.getD s.arr []).length

/-- The recorder of the list model that a slice-level recorder stands for: its entries
are those seen through its slice. -/
def Mem.NodeRecorder.toList (h : Heap) (nr : Mem.NodeRecorder) : record.NodeRecorder :=
  { nodeName := nr.nodeName, capacity := nr.capacity, maxSize := nr.maxSize, size := nr.size,
    statuses := h.view nr.statuses, coalesceLast := nr.coalesceLast }

/-- A growth policy for examples: twice the length needed. -/
def sampleGrow : Nat → Nat := fun n => 2 * n

/-- The last `c` elements of a list. -/
def keepLast {α : Type} (c : Nat) (l : List α) : List α := l.drop (l.length - c)

/-- The cumulative byte size of a list of entries: the sum of their `Size()`. -/
def sumSizes (fmtLen : Formatter) (l : List RecordedStatus) : Int :=
  (l.map (RecordedStatus.Size fmtLen)).sum

/-- The facts about a `NodeRecorder` that `NewNodeRecorder` establishes and every
`Push` keeps. -/
structure NodeRecorder.WellFormed (fmtLen : Formatter) (nr : NodeRecorder) : Prop where
  name_ne : nr.nodeName ≠ ""
  cap_pos : 1 ≤ nr.capacity
  len_le : nr.Len ≤ nr.Cap
  slot : nr.capacity = 1 → nr.statuses.length = 1
  acc : 1 < nr.capacity → nr.size = sumSizes fmtLen nr.statuses
  bound : 0 < nr.maxSize →
    (sumSizes fmtLen nr.statuses ≤ nr.maxSize ∧ nr.size ≤ nr.maxSize) ∨ nr.Len = 1

/-- The facts about a `Recorder` that `NewRecorder` establishes and every `Push`
keeps. -/
structure Recorder.WellFormed (fmtLen : Formatter) (rr : Recorder) : Prop where
  maxNodes_pos : 1 ≤ rr.maxNodes
  cap_pos : 1 ≤ rr.nodeCapacity
  count_le : rr.CountNodes ≤ rr.MaxNodes
  nodes_wf : ∀ (name : String) (nr : NodeRecorder), rr.nodes.lookup name = some nr →
    nr.nodeName = name ∧ nr.WellFormed fmtLen

/-- The state of a `Recorder` with per-node capacity `c`, no size limit and no
coalescing, in which exactly the node names `hist` were pushed, each push stored: a
node holds as many entries as it was pushed, up to `c`. -/
structure Recorder.Counted (fmtLen : Formatter) (rr : Recorder) (c : Nat)
    (hist : List String) : Prop where
  wf : rr.WellFormed fmtLen
  cap : rr.nodeCapacity = (c : Int)
  unlimited : rr.maxSize = 0
  plain : rr.coalesceLast = false
  keys : rr.nodes.keys = hist.toFinset
  nodes : ∀ (n : String) (nr : NodeRecorder), rr.nodes.lookup n = some nr →
    nr.capacity = (c : Int) ∧ nr.maxSize = 0 ∧ nr.coalesceLast = false ∧
      nr.statuses.length = min c (hist.count n)

/-! ## Configured values

What a list of functional options asks for, read off the list itself: an option given
several times counts with its last value, an option not given leaves the default. -/

/-- The last element of `l`, or `dflt` for an empty list. -/
def lastOr {α : Type} (dflt : α) (l : List α) : α := l.getLast?.getD dflt

/-- The capacity a node option list asks for (0 when none is given). -/
def configuredCapacity (opts : List NodeOption) : Int :=
  lastOr 0 (opts.filterMap fun o => match o with | .WithCapacity c => some c | _ => none)

/-- The size limit a node option list asks for (0, no limit, when none is given). -/
def configuredMaxSize (opts : List NodeOption) : Int :=
  lastOr 0 (opts.filterMap fun o => match o with | .WithMaxSize m => some m | _ => none)

/-- The coalescing flag a node option list asks for (off when none is given). -/
def configuredCoalescing (opts : List NodeOption) : Bool :=
  lastOr false (opts.filterMap fun o => match o with | .WithCoalescing b => some b | _ => none)

/-- The node cap a recorder option list asks for (`DefaultMaxNodes` when none is given). -/
def configuredMaxNodes (opts : List RecorderOption) : Int :=
  lastOr DefaultMaxNodes
    (opts.filterMap fun o => match o with | .WithMaxNodes n => some n | _ => none)

/-- The per-node capacity a recorder option list asks for (1 when none is given). -/
def configuredNodeCapacity (opts : List RecorderOption) : Int :=
  lastOr 1 (opts.filterMap fun o => match o with | .WithNodeCapacity c => some c | _ => none)

/-! ## Concrete inputs -/

/-- A status of node `nodeName` with expected fingerprint `expected` and no pods. -/
def statusOf (nodeName expected : String) : Status :=
  { FingerprintExpected := expected, FingerprintComputed := "", Pods := [],
    NodeName := nodeName }

/-- A fresh recorder of capacity 3 for `test-node`, as in
`TestNodeRecorderMultiEntryPushContentEvict`. -/
def evictRecorder : NodeRecorder :=
  { nodeName := "test-node", capacity := 3, maxSize := 0, size := 0, statuses := [],
    coalesceLast := false }

/-- Seven pushes tagged `v0` .. `v6`, stamped 1 .. 7. -/
def evictPushes : List (Status × Time) :=
  [(statusOf "test-node" "v0", 1), (statusOf "test-node" "v1", 2),
   (statusOf "test-node" "v2", 3), (statusOf "test-node" "v3", 4),
   (statusOf "test-node" "v4", 5), (statusOf "test-node" "v5", 6),
   (statusOf "test-node" "v6", 7)]

/-- The state of `evictRecorder` after the first of `evictPushes`. -/
def evictRecorder1 : NodeRecorder :=
  { evictRecorder with statuses := [newItem sampleFmtLen (statusOf "test-node" "v0") 1],
                       size := 32 }

/-- A fresh recorder of capacity 2 whose `maxSize`, 10 bytes, is below the size of any
entry (an entry without pods already takes 32 bytes). -/
def tightRecorder : NodeRecorder :=
  { nodeName := "test-node", capacity := 2, maxSize := 10, size := 0, statuses := [],
    coalesceLast := false }

/-- The state of `tightRecorder` after one push. -/
def tightRecorder1 : NodeRecorder :=
  { tightRecorder with statuses := [newItem sampleFmtLen (statusOf "test-node" "v0") 1],
                       size := 32 }

/-- A fresh recorder for at most one node, 16 entries per node, as in
`TestRecorderPushTooManyNodes`. -/
def oneNodeRecorder : Recorder :=
  { nodes := ∅, nodeCapacity := 16, maxNodes := 1, maxSize := 0, coalesceLast := false }

/-- The state of `oneNodeRecorder` after a push for `node-0`: the node cap is reached. -/
def oneNodeRecorder1 : Recorder :=
  { oneNodeRecorder with
    nodes := Finmap.singleton "node-0"
      { nodeName := "node-0", capacity := 16, maxSize := 0, size := 32,
        statuses := [newItem sampleFmtLen (statusOf "node-0" "") 1], coalesceLast := false } }

/-- A coalescing recorder of capacity 4 that holds one entry tagged `v0`. -/
def coalescingRecorder1 : NodeRecorder :=
  { nodeName := "test-node", capacity := 4, maxSize := 0, size := 32,
    statuses := [newItem sampleFmtLen (statusOf "test-node" "v0") 1], coalesceLast := true }

/-- A status tagged `v0` like the one stored in `coalescingRecorder1`, with a pod. -/
def sameFingerprints : Status :=
  { FingerprintExpected := "v0", FingerprintComputed := "",
    Pods := [{ Namespace := "ns", Name := "pod" }], NodeName := "test-node" }

/-- A fresh recorder of capacity 1 with a `maxSize` of 10 bytes. -/
def singleSlotRecorder : NodeRecorder :=
  { nodeName := "test-node", capacity := 1, maxSize := 10, size := 0,
    statuses := [RecordedStatus.zero], coalesceLast := false }

/-- A fresh recorder of capacity 1 without size limit: what
`NewNodeRecorder("test-node", WithCapacity(1))` returns. -/
def freshSingleSlot : NodeRecorder :=
  { nodeName := "test-node", capacity := 1, maxSize := 0, size := 0,
    statuses := [RecordedStatus.zero], coalesceLast := false }

/-- A fresh recorder for at most 8 nodes, 16 entries per node, as in
`TestRecorderPushMultipleNodes`. -/
def eightNodeRecorder : Recorder :=
  { nodes := ∅, nodeCapacity := 16, maxNodes := 8, maxSize := 0, coalesceLast := false }

/-- The pushes of `TestRecorderPushMultipleNodes`: `node-0` twice, with gaps. -/
def multiNodePushes : List (Status × Time) :=
  [(statusOf "node-0" "", 1), (statusOf "node-1" "", 2), (statusOf "node-3" "", 3),
   (statusOf "node-0" "", 4)]

/-- The heap after `NewNodeRecorder("test-node", WithCapacity(1))`: one backing array
with the zero entry. -/
def slotHeap0 : Heap := [[RecordedStatus.zero]]

/-- The capacity-1 recorder on `slotHeap0`; its slice is the whole of array 0. -/
def slotRecorder0 : Mem.NodeRecorder :=
  { nodeName := "test-node", capacity := 1, maxSize := 0, size := 0,
    statuses := { arr := 0, off := 0, len := 1, cap := 1 }, coalesceLast := false }

/-- The heap after the push of `v0`. -/
def slotHeap1 : Heap := [[newItem sampleFmtLen (statusOf "test-node" "v0") 1]]

/-- The recorder after the push of `v0`. -/
def slotRecorder1 : Mem.NodeRecorder := { slotRecorder0 with size := 32 }

/-- The heap after the push of `v1`. -/
def slotHeap2 : Heap := [[newItem sampleFmtLen (statusOf "test-node" "v1") 2]]

end record

/-! # The HTTP side (`pkg/pfpstatus`)

The bearer-token middleware of `pfpstatus_http.go`. The cluster client, the network
address functions and the wrapped handler belong to other packages and are parameters.
A call of the cluster client that fails yields the message of its `error`. -/

namespace pfpstatus

/-- Go `http.StatusOK`. -/
def StatusOK : Nat := 200

/-- Go `http.StatusUnauthorized`. -/
def StatusUnauthorized : Nat := 401

/-- Go `http.StatusForbidden`. -/
def StatusForbidden : Nat := 403

/-- Go `http.StatusInternalServerError`. -/
def StatusInternalServerError : Nat := 500

/-- Go `strings.HasPrefix`. -/
def HasPrefix (s lead : String) : Bool := lead.data.isPrefixOf s.data

/-- Go `strings.TrimPrefix`. -/
def TrimPrefix (s lead : String) : String :=
  if HasPrefix s lead then String.mk (s.data.drop lead.length) else s

/-- Go `authnv1.UserInfo` and `authzv1` extra values, as far as they are passed on. -/
structure UserInfo where
  Username : String
  Groups : List String
  Extra : List (String × List String)
deriving DecidableEq

/-- Go `authnv1.TokenReviewStatus`: the answer of the authentication authority. -/
structure TokenReviewStatus where
  Authenticated : Bool
  User : UserInfo
deriving DecidableEq

/-- Go `authzv1.ResourceAttributes`. -/
structure ResourceAttributes where
  Group : String
  Resource : String
  Verb : String
deriving DecidableEq

/-- Go `authzv1.SubjectAccessReviewSpec`: the question put to the authorization
authority. -/
structure SubjectAccessReviewSpec where
  ResourceAttributes : ResourceAttributes
  User : String
  Groups : List String
  Extra : List (String × List String)
deriving DecidableEq

/-- Go `authzv1.SubjectAccessReviewStatus`: the answer of the authorization authority. -/
structure SubjectAccessReviewStatus where
  Allowed : Bool
  Reason : String
deriving DecidableEq

/-- Go `kubernetes.Interface`, as far as the middleware uses it:
`AuthenticationV1().TokenReviews().Create` with the token of the review, and
`AuthorizationV1().SubjectAccessReviews().Create`. -/
structure Clientset where
  CreateTokenReview : String → Except String TokenReviewStatus
  CreateSubjectAccessReview : SubjectAccessReviewSpec → Except String SubjectAccessReviewStatus

/-- A call made to the cluster client. -/
inductive ApiCall where
  | TokenReview (token : String)
  | SubjectAccessReview (spec : SubjectAccessReviewSpec)
deriving DecidableEq

/-- Go `convertExtra`: the same keys and values under the other type. -/
def convertExtra (extra : List (String × List String)) : List (String × List String) := extra

/-- The `SubjectAccessReview` that `canTokenBearerDebugPFPs` builds for an authenticated
user. -/
def debugAccessReview (user : UserInfo) : SubjectAccessReviewSpec :=
  { ResourceAttributes :=
      { Group := "topology.node.k8s.io", Resource := "noderesourcetopologies",
        Verb := "sched.openshift-kni.io/debug" },
    User := user.Username, Groups := user.Groups, Extra := convertExtra user.Extra }

/-- What `canTokenBearerDebugPFPs` returns, and the cluster calls it made, in order. -/
structure AuthResult where
  err : Option String
  code : Nat
  calls : List ApiCall
deriving DecidableEq

/-- Go `canTokenBearerDebugPFPs`. -/
def canTokenBearerDebugPFPs (cs : Clientset) (authHeader : String) : AuthResult :=
  if authHeader = "" ∨ ¬ HasPrefix authHeader "Bearer " then
    { err := some "Unauthorized: Missing Authorization Header", code := StatusUnauthorized,
      calls := [] }
  else
    let token := TrimPrefix authHeader "Bearer "
    match cs.CreateTokenReview token with
    | .error err =>
      { err := some ("Internal Server Error: " ++ err), code := StatusInternalServerError,
        calls := [.TokenReview token] }
    | .ok tr =>
      if ¬ tr.Authenticated then
        { err := some "Unauthorized: Invalid token", code := StatusUnauthorized,
          calls := [.TokenReview token] }
      else
        let sar := debugAccessReview tr.User
        match cs.CreateSubjectAccessReview sar with
        | .error err =>
          { err := some ("Internal Server Error: " ++ err),
            code := StatusInternalServerError,
            calls := [.TokenReview token, .SubjectAccessReview sar] }
        | .ok sarResult =>
          if ¬ sarResult.Allowed then
            { err := some ("Forbidden: " ++ sarResult.Reason), code := StatusForbidden,
              calls := [.TokenReview token, .SubjectAccessReview sar] }
          else
            { err := none, code := StatusOK,
              calls := [.TokenReview token, .SubjectAccessReview sar] }

/-- Go `net.SplitHostPort`, `net.ParseIP` and `IP.IsLoopback`, on addresses given as
their bytes. -/
structure NetLib where
  SplitHostPort : String → Option (String × String)
  ParseIP : String → Option (List Nat)
  IsLoopback : List Nat → Bool

/-- Go `isRequestFromLoopback`. -/
def isRequestFromLoopback (net : NetLib) (remoteAddr : String) : Bool :=
  match net.SplitHostPort remoteAddr with
  | none => false
  | some (host, _) =>
    match net.ParseIP host with
    | none => false
    | some ip => net.IsLoopback ip

/-- Go `http.Request`, as far as the middleware reads it; `Authorization` is
`r.Header.Get("Authorization")`, empty when the header is absent. -/
structure Request where
  RemoteAddr : String
  Authorization : String
deriving DecidableEq

/-- What was written to the `http.ResponseWriter`: status code and body. -/
structure Response where
  code : Nat
  body : String
deriving DecidableEq

/-- Go `http.Error`: the message and a newline, under the given code. -/
def httpError (msg : String) (code : Nat) : Response := { code := code, body := msg ++ "\n" }

/-- Go `TokenBearerAuthenticator` (without the logger). -/
structure TokenBearerAuthenticator where
  cs : Clientset
  next : Request → Response

/-- What `ServeHTTP` did: the response written, whether the wrapped handler ran, and the
cluster calls made. -/
structure Served where
  response : Response
  nextRan : Bool
  calls : List ApiCall
deriving DecidableEq

/-- Go `TokenBearerAuthenticator.ServeHTTP`. -/
def TokenBearerAuthenticator.ServeHTTP (net : NetLib) (tba : TokenBearerAuthenticator)
    (r : Request) : Served :=
  if isRequestFromLoopback net r.RemoteAddr then
    { response := tba.next r, nextRan := true, calls := [] }
  else
    let res := canTokenBearerDebugPFPs tba.cs r.Authorization
    match res.err with
    | some msg => { response := httpError msg res.code, nextRan := false, calls := res.calls }
    | none => { response := tba.next r, nextRan := true, calls := res.calls }

/-- A cluster client for examples: the token `good` belongs to `alice`, who may debug;
the token `guest` belongs to `bob`, who may not; any other token is not authenticated. -/
def sampleClientset : Clientset :=
  { CreateTokenReview := fun token =>
      if token = "good" then
        .ok { Authenticated := true, User := { Username := "alice", Groups := [], Extra := [] } }
      else if token = "guest" then
        .ok { Authenticated := true, User := { Username := "bob", Groups := [], Extra := [] } }
      else
        .ok { Authenticated := false, User := { Username := "", Groups := [], Extra := [] } },
    CreateSubjectAccessReview := fun spec =>
      if spec.User = "alice" then .ok { Allowed := true, Reason := "" }
      else .ok { Allowed := false, Reason := "no rule for " ++ spec.User } }

/-- Network functions for examples: two addresses split and parse, `127.0.0.1:4000`
(loopback) and `10.0.0.7:4000`; loopback is the 127 net. -/
def sampleNet : NetLib :=
  { SplitHostPort := fun addr =>
      if addr = "127.0.0.1:4000" then some ("127.0.0.1", "4000")
      else if addr = "10.0.0.7:4000" then some ("10.0.0.7", "4000")
      else none,
    ParseIP := fun host =>
      if host = "127.0.0.1" then some [127, 0, 0, 1]
      else if host = "10.0.0.7" then some [10, 0, 0, 7]
      else none,
    IsLoopback := fun ip => ip.head? == some 127 }

/-- A cluster client whose token review call fails with the given message. -/
def brokenClientset (msg : String) : Clientset :=
  { CreateTokenReview := fun _ => .error msg,
    CreateSubjectAccessReview := fun _ => .error msg }

/-- A wrapped handler for examples: always 200 with the body `ok`. -/
def okHandler : Request → Response := fun _ => { code := 200, body := "ok" }

/-- A cluster client that authenticates every token as `bob` and denies access with the
given reason. -/
def denyingClientset (reason : String) : Clientset :=
  { CreateTokenReview := fun _ =>
      .ok { Authenticated := true, User := { Username := "bob", Groups := [], Extra := [] } },
    CreateSubjectAccessReview := fun _ => .ok { Allowed := false, Reason := reason } }

/-- A request from `10.0.0.7:4000` with the given `Authorization` header. -/
def remoteRequest (authHeader : String) : Request :=
  { RemoteAddr := "10.0.0.7:4000", Authorization := authHeader }

/-! ## Handlers and middlewares -/

/-- Go `http.StatusUnprocessableEntity`. -/
def StatusUnprocessableEntity : Nat := 422

/-- Go `sendContent`: the header with status 200 is written first, then what
`json.NewEncoder(w).Encode(content)` writes; `encode` is that encoder, and when it
fails nothing follows the header (the error is only logged). -/
def sendContent {α : Type} (encode : α → Except String String) (content : α) : Response :=
  { code := StatusOK,
    body := match encode content with
      | .ok text => text
      | .error _ => "" }

/-- Go `pfpstatusNodeHandler`; `rr` is `env.rec`, read under the lock, and `nodeName` is
`r.PathValue("nodeName")`. -/
def pfpstatusNodeHandler (encode : List record.RecordedStatus → Except String String)
    (rr : record.Recorder) (nodeName : String) : Response :=
  if nodeName = "" then httpError "missing node name" StatusUnprocessableEntity
  else
    let found := rr.ContentForNode nodeName
    if !found.2 then httpError "unknown node name" StatusUnprocessableEntity
    else sendContent encode found.1

/-- Go `http.Handler`, as what it answers to a request. -/
abbrev Handler := Request → Response

/-- Go `Middleware`. -/
structure Middleware where
  Name : String
  Link : Handler → Handler

/-- The handler that `serveLoop` hands to `http.ListenAndServe`: `handle` starts as the
mux and each middleware of `params.Middlewares`, in order, is linked around it. -/
def serveLoopHandler (mux : Handler) (middlewares : List Middleware) : Handler :=
  middlewares.foldl (fun handle mw => mw.Link handle) mux

/-- The nesting `m.Link(...)` of a list of middlewares that is given outermost first,
around the mux. -/
def nestedLinks (mux : Handler) : List Middleware → Handler
  | [] => mux
  | outer :: inner => outer.Link (nestedLinks mux inner)

/-- An encoder for examples, standing for `json.NewEncoder(w).Encode`: the node names
and expected fingerprints of the entries, in brackets, and a newline. -/
def sampleEncode (content : List record.RecordedStatus) : Except String String :=
  .ok ("[" ++ String.intercalate ","
    (content.map fun rs => rs.NodeName ++ ":" ++ rs.FingerprintExpected) ++ "]\n")

/-- A middleware for examples that marks the body of what the wrapped handler answers
with its own name. -/
def tagMiddleware (name : String) : Middleware :=
  { Name := name,
    Link := fun next r => { code := (next r).code, body := name ++ "(" ++ (next r).body ++ ")" } }

/-- A middleware for examples that answers 403 itself and never runs the wrapped
handler. -/
def denyMiddleware : Middleware :=
  { Name := "deny", Link := fun _ _ => { code := 403, body := "denied" } }

/-! ## Configuration from the environment -/

/-- Go `HTTPParams`. -/
structure HTTPParams where
  Enabled : Bool
  Host : String
  Port : Int
  Middlewares : List Middleware

/-- Go `StorageParams`; `Period` is a `time.Duration`. -/
structure StorageParams where
  Enabled : Bool
  Directory : String
  Period : Int

/-- Go `Params`. -/
structure Params where
  HTTP : HTTPParams
  Storage : StorageParams

/-- Go `PFPStatusDumpEnvVar`. -/
def PFPStatusDumpEnvVar : String := "PFP_STATUS_DUMP"

/-- Go `PFPStatusHostEnvVar`. -/
def PFPStatusHostEnvVar : String := "PFP_STATUS_HOST"

/-- Go `PFPStatusPortEnvVar`. -/
def PFPStatusPortEnvVar : String := "PFP_STATUS_PORT"

/-- What `ParamsFromEnv` asks of its surroundings: `os.LookupEnv` (`none` when the
variable is not set), `strconv.Atoi` (`none` when it returns an error), and
`existsBaseDirectory`, a function of this package that probes the file system. -/
structure Sys where
  LookupEnv : String → Option String
  Atoi : String → Option Int
  existsBaseDirectory : String → Bool

/-- Go `ParamsFromEnv`; the updated `*params` is returned. -/
def ParamsFromEnv (sys : Sys) (params : Params) : Params :=
  let dumpDir := (sys.LookupEnv PFPStatusDumpEnvVar).getD ""
  let p1 : Params :=
    if (sys.LookupEnv PFPStatusDumpEnvVar).isNone ∨ dumpDir = "" then
      { params with Storage := { params.Storage with Enabled := false } }
    else
      { params with Storage := { params.Storage with Enabled := true, Directory := dumpDir } }
  let p2 : Params :=
    if !sys.existsBaseDirectory dumpDir then
      { p1 with Storage := { p1.Storage with Enabled := false } }
    else p1
  let dumpPort := (sys.LookupEnv PFPStatusPortEnvVar).getD ""
  let p3 : Params :=
    if (sys.LookupEnv PFPStatusPortEnvVar).isNone ∨ dumpPort = "" then
      { p2 with HTTP := { p2.HTTP with Enabled := false } }
    else
      match sys.Atoi dumpPort with
      | none => { p2 with HTTP := { p2.HTTP with Enabled := false } }
      | some port => { p2 with HTTP := { p2.HTTP with Enabled := true, Port := port } }
  match sys.LookupEnv PFPStatusHostEnvVar with
  | some dumpHost =>
    if p3.HTTP.Enabled then { p3 with HTTP := { p3.HTTP with Host := dumpHost } } else p3
  | none => p3

/-- Go `DefaultHTTPServePort`. -/
def DefaultHTTPServePort : Int := 33445

/-- Go `DefaultParams` (no middlewares, dump period of 10 seconds in nanoseconds). -/
def DefaultParams : Params :=
  { HTTP := { Enabled := true, Host := "", Port := DefaultHTTPServePort, Middlewares := [] },
    Storage := { Enabled := false, Directory := "/run/pfpstatus", Period := 10000000000 } }

/-- An environment for examples in which `PFP_STATUS_PORT` is set to `port` and nothing
else; `strconv.Atoi` knows the decimal `33445` and rejects the rest. -/
def sysWithPort (port : String) : Sys :=
  { LookupEnv := fun name => if name = "PFP_STATUS_PORT" then some port else none,
    Atoi := fun text => if text = "33445" then some 33445 else none,
    existsBaseDirectory := fun _ => false }

end pfpstatus

namespace record

/-! ## The eviction loop, counted

The loop of `makeRoom` once more, returning also how often its body, `nr.dropOldest()`,
ran. -/

/-- The `for (nr.size + size) > nr.maxSize { nr.dropOldest() }` loop of `makeRoom` with
the number of iterations made; the bound is on the number of condition checks, as in
`NodeRecorder.makeRoomLoop`. -/
def NodeRecorder.makeRoomLoopCount (fmtLen : Formatter) (size : Int) :
    Nat → NodeRecorder → Run (NodeRecorder × Nat)
  | 0, _ => .diverges
  | fuel + 1, nr =>
    if nr.size + size > nr.maxSize then
      (makeRoomLoopCount fmtLen size fuel (nr.dropOldest fmtLen)).map
        fun res => (res.1, res.2 + 1)
    else .ret (nr, 0)

/-- The state in which `makeRoom` reaches its size checks: after
`if nr.capacity > 1 && nr.Len() == nr.Cap() { nr.dropOldest() }`. -/
def NodeRecorder.afterCapacityCheck (fmtLen : Formatter) (nr : NodeRecorder) : NodeRecorder :=
  if nr.capacity > 1 ∧ nr.Len = nr.Cap then nr.dropOldest fmtLen else nr

/-! ## The eviction count in the words of the specification -/

/-- The requirement on the number `k` of evicted entries, for a new entry of size `z`:
`len(S) - k < capacity`, and `maxSize = 0` or the sizes of the remaining entries plus
`z` sum to at most `maxSize`. -/
def NodeRecorder.roomAfter (fmtLen : Formatter) (nr : NodeRecorder) (z : Int) (k : Nat) :
    Prop :=
  (nr.statuses.length : Int) - (k : Int) < nr.capacity ∧
    (nr.maxSize = 0 ∨ sumSizes fmtLen (nr.statuses.drop k) + z ≤ nr.maxSize)

instance NodeRecorder.decidableRoomAfter (fmtLen : Formatter) (nr : NodeRecorder) (z : Int)
    (k : Nat) : Decidable (nr.roomAfter fmtLen z k) := by
  unfold NodeRecorder.roomAfter
  infer_instance

/-- The least `k` with `roomAfter`. -/
def NodeRecorder.leastRoom (fmtLen : Formatter) (nr : NodeRecorder) (z : Int) (k : Nat) :
    Prop :=
  nr.roomAfter fmtLen z k ∧ ∀ j : Nat, j < k → ¬ nr.roomAfter fmtLen z j

/-! ## A recorder with a negative size limit -/

/-- What `NewNodeRecorder("test-node", WithCapacity(2), WithMaxSize(-1))` returns: no
option is checked against a negative `maxSize`. -/
def negativeLimitRecorder : NodeRecorder :=
  { nodeName := "test-node", capacity := 2, maxSize := -1, size := 0, statuses := [],
    coalesceLast := false }

/-- The state of `negativeLimitRecorder` after a push tagged `v0` at time 1. -/
def negativeLimitRecorder1 : NodeRecorder :=
  { negativeLimitRecorder with
    statuses := [newItem sampleFmtLen (statusOf "test-node" "v0") 1], size := 32 }

/-- The state of `negativeLimitRecorder1` after a push tagged `v1` at time 2. -/
def negativeLimitRecorder2 : NodeRecorder :=
  { negativeLimitRecorder with
    statuses := [newItem sampleFmtLen (statusOf "test-node" "v1") 2], size := 32 }

/-- A recorder of capacity 3 and a limit of 70 bytes that holds two entries of 32
bytes. -/
def limitedRecorder2 : NodeRecorder :=
  { nodeName := "test-node", capacity := 3, maxSize := 70, size := 64,
    statuses := [newItem sampleFmtLen (statusOf "test-node" "v0") 1,
      newItem sampleFmtLen (statusOf "test-node" "v1") 2],
    coalesceLast := false }

/-- The state of `oneNodeRecorder1` after a second push for `node-0`, tagged `v1`, at
time 2. -/
def oneNodeRecorder2 : Recorder :=
  { oneNodeRecorder with
    nodes := Finmap.singleton "node-0"
      { nodeName := "node-0", capacity := 16, maxSize := 0, size := 64,
        statuses := [newItem sampleFmtLen (statusOf "node-0" "") 1,
          newItem sampleFmtLen (statusOf "node-0" "v1") 2],
        coalesceLast := false } }

/-! ## The timestamper

`Push` takes its time from the callback `nr.timestamper`, and the options
`WithTimestamper` and `WithNodeTimestamper` store whatever callback they are given. For
what a `Push` computes the time is an input like the status. For the question whether a
`Push` returns, the callback itself counts: the recorders are modelled once more, in
`Timed`, with the `timestamper` field and the call `ts := nr.timestamper()`. -/

namespace Timed

/-- Go `Timestamper`, a value of type `func() time.Time`: `nil`, or a function. How a
call of the function ends is an argument of `Push`. -/
inductive Timestamper where
  | nil
  | func
deriving DecidableEq

/-- Go `NodeRecorder`, with the `timestamper` callback. -/
structure NodeRecorder extends record.NodeRecorder where
  timestamper : Timestamper
deriving DecidableEq

/-- Go `NodeOption`: the functional options of `NewNodeRecorder`. -/
inductive NodeOption where
  | WithCapacity (capacity : Int)
  | WithTimestamper (tsr : Timestamper)
  | WithCoalescing (val : Bool)
  | WithMaxSize (maxSize : Int)
deriving DecidableEq

/-- Running one `NodeOption` on the recorder under construction. -/
def NodeOption.apply (nr : NodeRecorder) : NodeOption → NodeRecorder
  | .WithCapacity capacity => { nr with capacity := capacity }
  | .WithTimestamper tsr => { nr with timestamper := tsr }
  | .WithCoalescing val => { nr with coalesceLast := val }
  | .WithMaxSize maxSize => { nr with maxSize := maxSize }

/-- Go `NewNodeRecorder`; the callback starts as `time.Now`. -/
def NewNodeRecorder (nodeName : String) (opts : List NodeOption) : Except Error NodeRecorder :=
  if nodeName = "" then .error .ErrMissingNode
  else
    let nr0 : NodeRecorder :=
      { timestamper := .func, nodeName := nodeName, capacity := 0, maxSize := 0, size := 0,
        statuses := [], coalesceLast := false }
    let nr := opts.foldl NodeOption.apply nr0
    if nr.capacity < 1 then .error .ErrInvalidCapacity
    else if nr.capacity = 1 then .ok { nr with statuses := [RecordedStatus.zero] }
    else .ok nr

/-- Go `NodeRecorder.Push`. The call `nr.timestamper()` panics when the callback is
`nil`; otherwise it ends as `now` says: it returns a time, panics, or never returns. -/
def NodeRecorder.Push (fmtLen : Formatter) (nr : NodeRecorder) (st : Status) (now : Run Time) :
    Run (NodeRecorder × Option Error) :=
  if st.NodeName = "" then .ret (nr, some .ErrMissingNode)
  else if st.NodeName ≠ nr.nodeName then .ret (nr, some .ErrMismatchingNode)
  else
    match nr.timestamper with
    | .nil => .panics
    | .func =>
      match now with
      | .panics => .panics
      | .diverges => .diverges
      | .ret ts =>
        if nr.toNodeRecorder.coalesces st then .ret (nr, none)
        else
          let item := newItem fmtLen st ts
          if nr.capacity = 1 then
            match nr.statuses with
            | [] => .panics
            | _ :: rest =>
              .ret ({ nr with statuses := item :: rest, size := item.Size fmtLen }, none)
          else
            match nr.toNodeRecorder.makeRoom fmtLen item.statusSize with
            | .ret nr1 =>
              .ret ({ nr with
                toNodeRecorder :=
                  { nr1 with statuses := nr1.statuses ++ [item],
                             size := nr1.size + item.Size fmtLen } }, none)
            | .panics => .panics
            | .diverges => .diverges

/-- Go `Recorder`, with the `timestamper` callback. -/
structure Recorder where
  nodes : Finmap (fun _ : String => NodeRecorder)
  nodeCapacity : Int
  maxNodes : Int
  maxSize : Int
  timestamper : Timestamper
  coalesceLast : Bool
deriving DecidableEq

/-- Go `Option`: the functional options of `NewRecorder`. -/
inductive RecorderOption where
  | WithNodeCapacity (nodeCapacity : Int)
  | WithNodeTimestamper (tsr : Timestamper)
  | WithMaxNodes (maxNodes : Int)
  | WithPFPCoalescing (val : Bool)
  | WithMaxSizePerNode (maxSize : Int)
deriving DecidableEq

/-- Running one `RecorderOption` on the recorder under construction. -/
def RecorderOption.apply (rr : Recorder) : RecorderOption → Recorder
  | .WithNodeCapacity nodeCapacity => { rr with nodeCapacity := nodeCapacity }
  | .WithNodeTimestamper tsr => { rr with timestamper := tsr }
  | .WithMaxNodes maxNodes => { rr with maxNodes := maxNodes }
  | .WithPFPCoalescing val => { rr with coalesceLast := val }
  | .WithMaxSizePerNode maxSize => { rr with maxSize := maxSize }

/-- Go `NewRecorder`; the callback starts as `time.Now`. -/
def NewRecorder (opts : List RecorderOption) : Except Error Recorder :=
  let rr0 : Recorder :=
    { nodes := ∅, timestamper := .func, maxNodes := DefaultMaxNodes, nodeCapacity := 1,
      maxSize := 0, coalesceLast := false }
  let rr := opts.foldl RecorderOption.apply rr0
  if rr.maxNodes < 1 then .error .ErrInvalidNodeCount
  else if rr.nodeCapacity < 1 then .error .ErrInvalidCapacity
  else .ok rr

/-- Go `Recorder.CountNodes`: `len(rr.nodes)`. -/
def Recorder.CountNodes (rr : Recorder) : Int := (rr.nodes.keys.card : Nat)

/-- Go `Recorder.maxCapacityReached`. -/
def Recorder.maxCapacityReached (rr : Recorder) : Bool :=
  decide (rr.CountNodes ≥ rr.maxNodes)

/-- The tail of `Recorder.Push`, `return nr.Push(st)`, for the per-node store `nr`
bound (already, or just now) to the status's node name. -/
def Recorder.pushInto (fmtLen : Formatter) (rr : Recorder) (nr : NodeRecorder) (st : Status)
    (now : Run Time) : Run (Recorder × Option Error) :=
  match nr.Push fmtLen st now with
  | .ret (nr1, err) => .ret ({ rr with nodes := rr.nodes.insert st.NodeName nr1 }, err)
  | .panics => .panics
  | .diverges => .diverges

/-- Go `Recorder.Push`: a new per-node store gets the callback of the `Recorder`. -/
def Recorder.Push (fmtLen : Formatter) (rr : Recorder) (st : Status) (now : Run Time) :
    Run (Recorder × Option Error) :=
  if st.NodeName = "" then .ret (rr, some .ErrMissingNode)
  else
    match rr.nodes.lookup st.NodeName with
    | some nr => rr.pushInto fmtLen nr st now
    | none =>
      if rr.maxCapacityReached then .ret (rr, some .ErrTooManyNodes)
      else
        match NewNodeRecorder st.NodeName
            [.WithTimestamper rr.timestamper, .WithCapacity rr.nodeCapacity,
              .WithMaxSize rr.maxSize, .WithCoalescing rr.coalesceLast] with
        | .error err => .ret (rr, some err)
        | .ok nr => rr.pushInto fmtLen nr st now

/-- The states of a `NodeRecorder` that `NewNodeRecorder` and `Push` calls produce. -/
inductive NodeRecorder.Reachable (fmtLen : Formatter) : NodeRecorder → Prop where
  | init (nodeName : String) (opts : List NodeOption) (nr : NodeRecorder) :
      NewNodeRecorder nodeName opts = .ok nr → Reachable fmtLen nr
  | push (nr nr1 : NodeRecorder) (st : Status) (now : Run Time) (err : Option Error) :
      Reachable fmtLen nr → nr.Push fmtLen st now = .ret (nr1, err) → Reachable fmtLen nr1

/-- The states of a `Recorder` that `NewRecorder` and `Push` calls produce. -/
inductive Recorder.Reachable (fmtLen : Formatter) : Recorder → Prop where
  | init (opts : List RecorderOption) (rr : Recorder) :
      NewRecorder opts = .ok rr → Reachable fmtLen rr
  | push (rr rr1 : Recorder) (st : Status) (now : Run Time) (err : Option Error) :
      Reachable fmtLen rr → rr.Push fmtLen st now = .ret (rr1, err) → Reachable fmtLen rr1

/-- The option of the model without callback that an option stands for; the callback
option stands for none. -/
def NodeOption.untimed : NodeOption → Option record.NodeOption
  | .WithCapacity capacity => some (.WithCapacity capacity)
  | .WithTimestamper _ => none
  | .WithCoalescing val => some (.WithCoalescing val)
  | .WithMaxSize maxSize => some (.WithMaxSize maxSize)

/-- The facts about a `Recorder` with callback that `NewRecorder` establishes and every
`Push` keeps: each per-node store is bound to its own name, is well formed, and has the
callback of the `Recorder`. -/
structure Recorder.WellFormed (fmtLen : Formatter) (rr : Recorder) : Prop where
  cap_pos : 1 ≤ rr.nodeCapacity
  nodes_wf : ∀ (name : String) (nr : NodeRecorder), rr.nodes.lookup name = some nr →
    nr.nodeName = name ∧ nr.toNodeRecorder.WellFormed fmtLen ∧
      nr.timestamper = rr.timestamper

end Timed

/-! ## Recorders with callback, for examples -/

/-- What `NewNodeRecorder("test-node", WithCapacity(3), WithTimestamper(nil))` returns:
the callback is not checked. -/
def nilTimestamperRecorder : Timed.NodeRecorder :=
  { timestamper := .nil, nodeName := "test-node", capacity := 3, maxSize := 0, size := 0,
    statuses := [], coalesceLast := false }

/-- What `NewRecorder(WithNodeTimestamper(nil))` returns. -/
def nilTimestamperNodes : Timed.Recorder :=
  { nodes := ∅, nodeCapacity := 1, maxNodes := DefaultMaxNodes, maxSize := 0,
    timestamper := .nil, coalesceLast := false }

/-- What `NewNodeRecorder("test-node", WithCapacity(1))` returns, with its callback. -/
def timedSingleSlot : Timed.NodeRecorder :=
  { timestamper := .func, nodeName := "test-node", capacity := 1, maxSize := 0, size := 0,
    statuses := [RecordedStatus.zero], coalesceLast := false }

/-- What `NewNodeRecorder("test-node", WithCapacity(2), WithCoalescing(true))` returns,
with its callback. -/
def timedPair : Timed.NodeRecorder :=
  { timestamper := .func, nodeName := "test-node", capacity := 2, maxSize := 0, size := 0,
    statuses := [], coalesceLast := true }

/-- The state of `timedPair` after pushes tagged `v0` at time 1 and `v1` at time 2: the
store is full. -/
def timedPair2 : Timed.NodeRecorder :=
  { timedPair with
    statuses := [newItem sampleFmtLen (statusOf "test-node" "v0") 1,
      newItem sampleFmtLen (statusOf "test-node" "v1") 2],
    size := 64 }

/-- What `NewRecorder()` returns, with its callback. -/
def timedDefaultRecorder : Timed.Recorder :=
  { nodes := ∅, nodeCapacity := 1, maxNodes := DefaultMaxNodes, maxSize := 0,
    timestamper := .func, coalesceLast := false }

/-! ## Auxiliary facts -/

theorem keepLast_length {α : Type} (c : Nat) (l : List α) :
    (keepLast c l).length = min c l.length := by
  unfold keepLast
  simp only [List.length_drop]
  omega

theorem keepLast_of_le {α : Type} (c : Nat) (l : List α) (h : l.length ≤ c) :
    keepLast c l = l := by
  unfold keepLast
  have : l.length - c = 0 := by omega
  simp [this]

theorem keepLast_append {α : Type} (c : Nat) (x l : List α) :
    keepLast c (keepLast c x ++ l) = keepLast c (x ++ l) := by
  by_cases h : x.length ≤ c
  · rw [keepLast_of_le c x h]
  · have hk : (keepLast c x).length = c := by rw [keepLast_length]; omega
    unfold keepLast at hk ⊢
    simp only [List.length_append, hk]
    have e1 : c + l.length - c = l.length := by omega
    have e2 : x.length + l.length - c = l.length + (x.length - c) := by omega
    have e3 : List.drop (x.length - c) (x ++ l) = List.drop (x.length - c) x ++ l :=
      List.drop_append_of_le_length (by omega)
    rw [e1, e2, ← e3, List.drop_drop, Nat.add_comm]

theorem newItem_Size (fmtLen : Formatter) (st : Status) (ts : Time) :
    (newItem fmtLen st ts).Size fmtLen = (fmtLen st.Pods ts : Nat) := rfl

theorem newItem_toStatus (fmtLen : Formatter) (st : Status) (ts : Time) :
    (newItem fmtLen st ts).toStatus = st := rfl

theorem coalesces_of_not_coalescing (nr : NodeRecorder) (st : Status)
    (hco : nr.coalesceLast = false) : nr.coalesces st = false := by
  simp [NodeRecorder.coalesces, NodeRecorder.IsCoalescing, hco]

/-- An accepted push into a recorder without size limit and without coalescing keeps
the last `capacity` entries of the old content followed by the new entry. -/
theorem Push_unlimited (fmtLen : Formatter) (nr : NodeRecorder) (st : Status) (ts : Time)
    (c : Nat) (hname : st.NodeName = nr.nodeName) (hne : st.NodeName ≠ "")
    (hco : nr.coalesceLast = false) (hmax : nr.maxSize = 0)
    (hcap : nr.capacity = (c : Int)) (hlen : nr.statuses.length ≤ c)
    (hone : c = 1 → nr.statuses.length = 1) (hc : 1 ≤ c) :
    ∃ sz : Int, nr.Push fmtLen st ts =
      .ret ({ nr with statuses := keepLast c (nr.statuses ++ [newItem fmtLen st ts]),
                      size := sz }, none) := by
  obtain ⟨nodeName, capacity, maxSize, size, statuses, coalesceLast⟩ := nr
  simp only at hname hco hmax hcap hlen hone
  subst hcap hmax hco
  unfold NodeRecorder.Push
  rw [if_neg hne, if_neg (by simpa using hname), coalesces_of_not_coalescing _ _ rfl]
  simp only [Bool.false_eq_true, if_false]
  by_cases h1 : c = 1
  · subst h1
    have hl := hone rfl
    match statuses, hl with
    | [x], _ =>
      refine ⟨(newItem fmtLen st ts).Size fmtLen, ?_⟩
      simp [keepLast]
  · have hc1 : ¬ ((c : Int) = 1) := by omega
    rw [if_neg hc1]
    unfold NodeRecorder.makeRoom
    by_cases hfull : statuses.length = c
    · match statuses, hfull with
      | x :: rest, hfull =>
        refine ⟨size - x.Size fmtLen + (newItem fmtLen st ts).Size fmtLen, ?_⟩
        have hcond : ((c : Int) > 1 ∧ ((List.length (x :: rest) : Nat) : Int) = (c : Int)) := by
          constructor
          · omega
          · exact_mod_cast hfull
        simp only [NodeRecorder.Len, NodeRecorder.Cap, hcond, and_self, if_true,
          NodeRecorder.dropOldest]
        simp only [keepLast, List.length_append, List.length_cons, List.length_nil]
        simp only [List.length_cons] at hfull
        have e : rest.length + 1 + (0 + 1) - c = 1 := by omega
        simp [e]
      | [], hfull => simp at hfull; omega
    · refine ⟨size + (newItem fmtLen st ts).Size fmtLen, ?_⟩
      have hcond : ¬ ((c : Int) > 1 ∧ ((List.length statuses : Nat) : Int) = (c : Int)) := by
        rintro ⟨_, h⟩
        exact hfull (by exact_mod_cast h)
      simp only [NodeRecorder.Len, NodeRecorder.Cap, hcond, if_false]
      rw [keepLast_of_le]
      · simp
      · simp; omega

theorem pushAll_unlimited (fmtLen : Formatter) (c : Nat) (hc : 1 ≤ c)
    (pushes : List (Status × Time)) :
    ∀ nr : NodeRecorder, nr.nodeName ≠ "" → (∀ p ∈ pushes, p.1.NodeName = nr.nodeName) →
      nr.coalesceLast = false → nr.maxSize = 0 → nr.capacity = (c : Int) →
      nr.statuses.length ≤ c → (c = 1 → nr.statuses.length = 1) →
      ∃ sz : Int, nr.pushAll fmtLen pushes =
        .ret { nr with
          statuses := keepLast c (nr.statuses ++ pushes.map (fun p => newItem fmtLen p.1 p.2)),
          size := sz } := by
  induction pushes with
  | nil =>
    intro nr _ _ _ _ _ hlen _
    refine ⟨nr.size, ?_⟩
    simp [NodeRecorder.pushAll, keepLast_of_le c nr.statuses hlen]
  | cons p rest ih =>
    intro nr hnn hnames hco hmax hcap hlen hone
    obtain ⟨st, ts⟩ := p
    have hst : st.NodeName = nr.nodeName := hnames (st, ts) (List.mem_cons_self _ _)
    obtain ⟨sz, hpush⟩ := Push_unlimited fmtLen nr st ts c hst (hst ▸ hnn) hco hmax hcap hlen
      hone hc
    have hl1 : (keepLast c (nr.statuses ++ [newItem fmtLen st ts])).length
        = min c (nr.statuses.length + 1) := by
      rw [keepLast_length]; simp
    obtain ⟨sz2, hrest⟩ := ih
      { nr with statuses := keepLast c (nr.statuses ++ [newItem fmtLen st ts]), size := sz }
      hnn (fun q hq => hnames q (List.mem_cons_of_mem _ hq)) hco hmax hcap
      (by simp only [hl1]; omega) (by intro h; simp only [hl1]; omega)
    refine ⟨sz2, ?_⟩
    simp only [NodeRecorder.pushAll, hpush, hrest]
    simp only [keepLast_append, List.map_cons, List.append_assoc, List.singleton_append]

theorem foldl_apply_fields (opts : List NodeOption) :
    ∀ nr : NodeRecorder, (opts.foldl NodeOption.apply nr).nodeName = nr.nodeName ∧
      (opts.foldl NodeOption.apply nr).size = nr.size ∧
      (opts.foldl NodeOption.apply nr).statuses = nr.statuses := by
  induction opts with
  | nil => intro nr; simp
  | cons o rest ih =>
    intro nr
    obtain ⟨h1, h2, h3⟩ := ih (NodeOption.apply nr o)
    simp only [List.foldl_cons, h1, h2, h3]
    cases o <;> simp [NodeOption.apply]

/-- What a successful `NewNodeRecorder` returns. -/
theorem NewNodeRecorder_ok (nodeName : String) (opts : List NodeOption) (nr : NodeRecorder)
    (h : NewNodeRecorder nodeName opts = .ok nr) :
    nodeName ≠ "" ∧ nr.nodeName = nodeName ∧ 1 ≤ nr.capacity ∧ nr.size = 0 ∧
      (nr.capacity = 1 → nr.statuses = [RecordedStatus.zero]) ∧
      (nr.capacity ≠ 1 → nr.statuses = []) := by
  unfold NewNodeRecorder at h
  by_cases hn : nodeName = ""
  · simp [hn] at h
  · rw [if_neg hn] at h
    obtain ⟨f1, f2, f3⟩ := foldl_apply_fields opts
      { nodeName := nodeName, capacity := 0, maxSize := 0, size := 0, statuses := [],
        coalesceLast := false }
    simp only at h f1 f2 f3
    split_ifs at h with hc1 hc2
    · injection h with h
      subst h
      simp [hn, f1, f2, hc2]
    · injection h with h
      subst h
      refine ⟨hn, f1, by omega, f2, fun h => absurd h hc2, fun _ => f3⟩

/-! ## C1: the ring buffer keeps the most recent entries -/

/-- C1. A `NodeRecorder` created with capacity `C ≥ 1`, `maxSize` 0 and coalescing
disabled, after `N > C` pushes that all carry its node name, holds exactly `C`
entries, and they are the entries built from the last `C` pushes, oldest first: entry
`i` is the one of push number `N - C + i`. -/
theorem C1_keeps_most_recent (fmtLen : Formatter) (nodeName : String) (opts : List NodeOption)
    (nr : NodeRecorder) (pushes : List (Status × Time))
    (hnew : NewNodeRecorder nodeName opts = .ok nr)
    (hmax : nr.MaxSize = 0) (hco : nr.IsCoalescing = false)
    (hnames : ∀ p ∈ pushes, p.1.NodeName = nodeName)
    (hN : nr.Cap < (pushes.length : Nat)) :
    ∃ nr1 : NodeRecorder, nr.pushAll fmtLen pushes = .ret nr1 ∧ nr1.Len = nr.Cap ∧
      nr1.Content = (pushes.drop (pushes.length - nr.Cap.toNat)).map
        (fun p => newItem fmtLen p.1 p.2) ∧
      ∀ i : Nat, (i : Int) < nr.Cap →
        nr1.Content[i]? = (pushes[pushes.length - nr.Cap.toNat + i]?).map
          (fun p => newItem fmtLen p.1 p.2) := by
  obtain ⟨hne, hname, hcap1, _, hst1, hst0⟩ := NewNodeRecorder_ok nodeName opts nr hnew
  simp only [NodeRecorder.MaxSize, NodeRecorder.IsCoalescing, NodeRecorder.Cap] at hmax hco hN ⊢
  obtain ⟨c, hc⟩ : ∃ c : Nat, nr.capacity = (c : Int) := ⟨nr.capacity.toNat, by omega⟩
  have hc1 : 1 ≤ c := by omega
  have hlt : c < pushes.length := by omega
  have hlen : nr.statuses.length ≤ c := by
    by_cases h : nr.capacity = 1
    · rw [hst1 h]; simpa using hc1
    · rw [hst0 h]; simp
  have hone : c = 1 → nr.statuses.length = 1 := by
    intro h
    rw [hst1 (by omega)]; rfl
  obtain ⟨sz, hall⟩ := pushAll_unlimited fmtLen c hc1 pushes nr (hname ▸ hne)
    (fun p hp => by rw [hname]; exact hnames p hp) hco hmax hc hlen hone
  have hkeep : keepLast c (nr.statuses ++ pushes.map (fun p => newItem fmtLen p.1 p.2))
      = (pushes.drop (pushes.length - c)).map (fun p => newItem fmtLen p.1 p.2) := by
    by_cases h : nr.capacity = 1
    · have hc' : c = 1 := by omega
      subst hc'
      rw [hst1 h]
      simp only [keepLast, List.length_append, List.length_map, List.length_singleton,
        List.map_drop]
      have e : 1 + pushes.length - 1 = (pushes.length - 1) + 1 := by omega
      rw [e]
      simp
    · rw [hst0 h]
      simp [keepLast, List.map_drop]
  have htoNat : nr.capacity.toNat = c := by omega
  refine ⟨_, hall, ?_, ?_, ?_⟩
  · simp only [NodeRecorder.Len, keepLast_length, List.length_append, List.length_map, hc]
    have : min c (nr.statuses.length + pushes.length) = c := by omega
    rw [this]
  · simp only [NodeRecorder.Content, hkeep, htoNat]
  · intro i _
    simp only [NodeRecorder.Content, hkeep, htoNat, List.getElem?_map, List.getElem?_drop]

/-- C1 at the example of the specification: capacity 3, seven pushes `v0` .. `v6`. -/
theorem C1_keeps_most_recent_witness :
    NewNodeRecorder "test-node" [.WithCapacity 3] = .ok evictRecorder ∧
    ∃ nr1 : NodeRecorder, evictRecorder.pushAll sampleFmtLen evictPushes = .ret nr1 ∧
      nr1.Len = 3 ∧
      nr1.Content = [newItem sampleFmtLen (statusOf "test-node" "v4") 5,
        newItem sampleFmtLen (statusOf "test-node" "v5") 6,
        newItem sampleFmtLen (statusOf "test-node" "v6") 7] := by
  refine ⟨rfl, ?_⟩
  obtain ⟨nr1, h1, h2, h3, _⟩ := C1_keeps_most_recent sampleFmtLen "test-node"
    [.WithCapacity 3] evictRecorder evictPushes rfl rfl rfl (by decide) (by decide)
  exact ⟨nr1, h1, h2, h3⟩

/-! ## The eviction loop and `makeRoom` -/

theorem sumSizes_nil (fmtLen : Formatter) : sumSizes fmtLen [] = 0 := rfl

theorem sumSizes_cons (fmtLen : Formatter) (x : RecordedStatus) (l : List RecordedStatus) :
    sumSizes fmtLen (x :: l) = x.Size fmtLen + sumSizes fmtLen l := by
  simp [sumSizes]

theorem sumSizes_append (fmtLen : Formatter) (l m : List RecordedStatus) :
    sumSizes fmtLen (l ++ m) = sumSizes fmtLen l + sumSizes fmtLen m := by
  simp [sumSizes]

theorem Size_nonneg (fmtLen : Formatter) (x : RecordedStatus) : 0 ≤ x.Size fmtLen := by
  simp [RecordedStatus.Size]

theorem sumSizes_nonneg (fmtLen : Formatter) (l : List RecordedStatus) :
    0 ≤ sumSizes fmtLen l := by
  induction l with
  | nil => simp [sumSizes_nil]
  | cons x l ih =>
    rw [sumSizes_cons]
    have := Size_nonneg fmtLen x
    omega

/-- On an empty store whose loop condition holds, the loop never exits. -/
theorem makeRoomLoop_empty_diverges (fmtLen : Formatter) (size : Int) (nr : NodeRecorder)
    (hempty : nr.statuses = []) (hcond : nr.size + size > nr.maxSize) (fuel : Nat) :
    NodeRecorder.makeRoomLoop fmtLen size fuel nr = .diverges := by
  induction fuel with
  | zero => rfl
  | succ f ih =>
    have hdrop : nr.dropOldest fmtLen = nr := by
      simp [NodeRecorder.dropOldest, hempty]
    rw [NodeRecorder.makeRoomLoop, if_pos hcond, hdrop, ih]

/-- The outcome of the loop does not depend on the bound once the bound exceeds the
number of entries: `makeRoom` models the unbounded Go loop exactly. -/
theorem makeRoomLoop_fuel_stable (fmtLen : Formatter) (size : Int) (l : List RecordedStatus) :
    ∀ (nr : NodeRecorder) (fuel : Nat), nr.statuses = l → l.length + 1 ≤ fuel →
      NodeRecorder.makeRoomLoop fmtLen size fuel nr
        = NodeRecorder.makeRoomLoop fmtLen size (l.length + 1) nr := by
  induction l with
  | nil =>
    intro nr fuel hl hfuel
    by_cases hcond : nr.size + size > nr.maxSize
    · rw [makeRoomLoop_empty_diverges fmtLen size nr hl hcond,
        makeRoomLoop_empty_diverges fmtLen size nr hl hcond]
    · obtain ⟨f, rfl⟩ : ∃ f, fuel = f + 1 := ⟨fuel - 1, by omega⟩
      simp [NodeRecorder.makeRoomLoop, hcond]
  | cons x rest ih =>
    intro nr fuel hl hfuel
    obtain ⟨f, rfl⟩ : ∃ f, fuel = f + 1 := ⟨fuel - 1, by omega⟩
    by_cases hcond : nr.size + size > nr.maxSize
    · have hdrop : (nr.dropOldest fmtLen).statuses = rest := by
        simp [NodeRecorder.dropOldest, hl]
      simp only [List.length_cons] at hfuel ⊢
      rw [NodeRecorder.makeRoomLoop, if_pos hcond, NodeRecorder.makeRoomLoop, if_pos hcond]
      exact ih _ f hdrop (by omega)
    · simp [NodeRecorder.makeRoomLoop, hcond]

/-- When the accumulator is the sum of the stored sizes and the new entry alone fits,
the loop exits, having removed some oldest entries so that the new entry fits. -/
theorem makeRoomLoop_spec (fmtLen : Formatter) (size : Int) (l : List RecordedStatus) :
    ∀ (nr : NodeRecorder) (fuel : Nat), nr.statuses = l → nr.size = sumSizes fmtLen l →
      size ≤ nr.maxSize → l.length + 1 ≤ fuel →
      ∃ l1 : List RecordedStatus, l1 <:+ l ∧ sumSizes fmtLen l1 + size ≤ nr.maxSize ∧
        NodeRecorder.makeRoomLoop fmtLen size fuel nr
          = .ret { nr with statuses := l1, size := sumSizes fmtLen l1 } := by
  induction l with
  | nil =>
    intro nr fuel hl hacc hsz hfuel
    obtain ⟨f, rfl⟩ : ∃ f, fuel = f + 1 := ⟨fuel - 1, by omega⟩
    rw [sumSizes_nil] at hacc
    have hcond : ¬ (nr.size + size > nr.maxSize) := by omega
    refine ⟨[], List.suffix_refl _, by rw [sumSizes_nil]; omega, ?_⟩
    rw [NodeRecorder.makeRoomLoop, if_neg hcond, sumSizes_nil, ← hl, ← hacc]
  | cons x rest ih =>
    intro nr fuel hl hacc hsz hfuel
    obtain ⟨f, rfl⟩ : ∃ f, fuel = f + 1 := ⟨fuel - 1, by omega⟩
    by_cases hcond : nr.size + size > nr.maxSize
    · have hdrop : nr.dropOldest fmtLen
          = { nr with size := nr.size - x.Size fmtLen, statuses := rest } := by
        simp [NodeRecorder.dropOldest, hl]
      simp only [List.length_cons] at hfuel
      obtain ⟨l1, hsuf, hfit, hrun⟩ := ih
        { nr with size := nr.size - x.Size fmtLen, statuses := rest } f rfl
        (by simp only [hacc, sumSizes_cons]; omega) hsz (by omega)
      refine ⟨l1, hsuf.trans (List.suffix_cons x rest), hfit, ?_⟩
      rw [NodeRecorder.makeRoomLoop, if_pos hcond, hdrop, hrun]
    · refine ⟨x :: rest, List.suffix_refl _, by rw [← hacc]; omega, ?_⟩
      rw [NodeRecorder.makeRoomLoop, if_neg hcond, ← hacc, ← hl]

/-- The first step of `makeRoom`: a full multi-entry store loses its oldest entry. -/
theorem makeRoom_first_step (fmtLen : Formatter) (nr : NodeRecorder)
    (hcap : 1 < nr.capacity) (hlen : nr.Len ≤ nr.Cap)
    (hacc : nr.size = sumSizes fmtLen nr.statuses) :
    ∃ l0 : List RecordedStatus, l0 <:+ nr.statuses ∧ (l0.length : Int) < nr.capacity ∧
      (if nr.capacity > 1 ∧ nr.Len = nr.Cap then nr.dropOldest fmtLen else nr)
        = { nr with statuses := l0, size := sumSizes fmtLen l0 } := by
  obtain ⟨nodeName, capacity, maxSize, size, statuses, coalesceLast⟩ := nr
  simp only [NodeRecorder.Len, NodeRecorder.Cap] at hcap hlen hacc ⊢
  by_cases hfull : ((statuses.length : Nat) : Int) = capacity
  · rw [if_pos ⟨hcap, hfull⟩]
    match statuses, hfull, hacc with
    | [], hfull, _ => simp at hfull; omega
    | x :: rest, hfull, hacc =>
      refine ⟨rest, List.suffix_cons x rest, ?_, ?_⟩
      · simp only [List.length_cons] at hfull; omega
      · simp only [NodeRecorder.dropOldest, hacc, sumSizes_cons]
        congr 1
        omega
  · rw [if_neg (fun h => hfull h.2)]
    refine ⟨statuses, List.suffix_refl _, by omega, ?_⟩
    rw [hacc]

/-- Go `makeRoom` on a multi-entry store whose accumulator is exact: it returns,
having removed some oldest entries; fewer than `capacity` entries are left; all are
removed when the new entry alone reaches `maxSize`, otherwise the rest plus the new
entry fits into `maxSize`. -/
theorem makeRoom_spec (fmtLen : Formatter) (nr : NodeRecorder) (size : Int)
    (hcap : 1 < nr.capacity) (hlen : nr.Len ≤ nr.Cap)
    (hacc : nr.size = sumSizes fmtLen nr.statuses) :
    ∃ l1 : List RecordedStatus, l1 <:+ nr.statuses ∧ (l1.length : Int) < nr.capacity ∧
      (nr.maxSize ≠ 0 → nr.maxSize ≤ size → l1 = []) ∧
      (nr.maxSize ≠ 0 → size < nr.maxSize → sumSizes fmtLen l1 + size ≤ nr.maxSize) ∧
      nr.makeRoom fmtLen size = .ret { nr with statuses := l1, size := sumSizes fmtLen l1 } := by
  obtain ⟨l0, hsuf0, hlen0, hstep⟩ := makeRoom_first_step fmtLen nr hcap hlen hacc
  unfold NodeRecorder.makeRoom
  simp only [hstep]
  by_cases hmax : nr.maxSize = 0
  · refine ⟨l0, hsuf0, hlen0, fun h => absurd hmax h, fun h => absurd hmax h, ?_⟩
    rw [if_pos hmax]
  · rw [if_neg hmax]
    by_cases hbig : size ≥ nr.maxSize
    · refine ⟨[], List.nil_suffix, by simp only [List.length_nil]; omega, fun _ _ => rfl, fun _ h => by omega, ?_⟩
      rw [if_pos hbig, sumSizes_nil]
    · rw [if_neg hbig]
      obtain ⟨l1, hsuf1, hfit, hrun⟩ := makeRoomLoop_spec fmtLen size l0
        { nr with statuses := l0, size := sumSizes fmtLen l0 } (l0.length + 1) rfl rfl
        (by simp only; omega) (le_refl _)
      have hl1 : l1.length ≤ l0.length := hsuf1.length_le
      refine ⟨l1, hsuf1.trans hsuf0, by omega, fun _ h => by omega, fun _ _ => hfit, ?_⟩
      rw [hrun]

/-! ## One `Push` on a well-formed `NodeRecorder` -/

theorem newItem_statusSize (fmtLen : Formatter) (st : Status) (ts : Time) :
    (newItem fmtLen st ts).statusSize = (newItem fmtLen st ts).Size fmtLen := rfl

/-- An accepted push that is not coalesced returns `nil`; the new content is a tail of
the old content followed by the new entry. -/
theorem Push_accepted (fmtLen : Formatter) (nr : NodeRecorder) (st : Status) (ts : Time)
    (wf : nr.WellFormed fmtLen) (hne : st.NodeName ≠ "") (hname : st.NodeName = nr.nodeName)
    (hco : nr.coalesces st = false) :
    ∃ (l1 : List RecordedStatus) (sz : Int),
      nr.Push fmtLen st ts
        = .ret ({ nr with statuses := l1 ++ [newItem fmtLen st ts], size := sz }, none) ∧
      l1 <:+ nr.statuses ∧ (l1.length : Int) < nr.capacity ∧
      (nr.capacity = 1 → l1 = [] ∧ sz = (newItem fmtLen st ts).Size fmtLen) ∧
      (1 < nr.capacity → sz = sumSizes fmtLen (l1 ++ [newItem fmtLen st ts]) ∧
        (nr.maxSize ≠ 0 → nr.maxSize ≤ (newItem fmtLen st ts).Size fmtLen → l1 = []) ∧
        (nr.maxSize ≠ 0 → (newItem fmtLen st ts).Size fmtLen < nr.maxSize →
          sumSizes fmtLen (l1 ++ [newItem fmtLen st ts]) ≤ nr.maxSize)) := by
  unfold NodeRecorder.Push
  rw [if_neg hne, if_neg (by simpa using hname), hco]
  simp only [Bool.false_eq_true, if_false]
  by_cases h1 : nr.capacity = 1
  · rw [if_pos h1]
    have hl := wf.slot h1
    match hs : nr.statuses, hl with
    | [x], _ =>
      refine ⟨[], (newItem fmtLen st ts).Size fmtLen, ?_, List.nil_suffix, ?_, ?_, ?_⟩
      · simp
      · simp only [List.length_nil]; omega
      · intro _; exact ⟨rfl, rfl⟩
      · intro h; omega
  · rw [if_neg h1]
    have hcap : 1 < nr.capacity := by have := wf.cap_pos; omega
    obtain ⟨l1, hsuf, hlen, hbig, hfit, hrun⟩ := makeRoom_spec fmtLen nr
      (newItem fmtLen st ts).statusSize hcap wf.len_le (wf.acc hcap)
    rw [hrun]
    refine ⟨l1, sumSizes fmtLen l1 + (newItem fmtLen st ts).Size fmtLen, rfl, hsuf, hlen,
      fun h => absurd h h1, fun _ => ⟨?_, hbig, ?_⟩⟩
    · rw [sumSizes_append, sumSizes_cons, sumSizes_nil]; omega
    · intro hm hlt
      have := hfit hm hlt
      rw [sumSizes_append, sumSizes_cons, sumSizes_nil]
      rw [newItem_statusSize] at this
      omega

/-- Every `Push` on a well-formed recorder returns, and the recorder stays well
formed. -/
theorem Push_wellFormed (fmtLen : Formatter) (nr : NodeRecorder) (st : Status) (ts : Time)
    (wf : nr.WellFormed fmtLen) :
    ∃ (nr1 : NodeRecorder) (err : Option Error),
      nr.Push fmtLen st ts = .ret (nr1, err) ∧ nr1.WellFormed fmtLen ∧
      nr1.nodeName = nr.nodeName ∧ nr1.capacity = nr.capacity ∧ nr1.maxSize = nr.maxSize ∧
      nr1.coalesceLast = nr.coalesceLast ∧
      (err = none ↔ st.NodeName = nr.nodeName) := by
  by_cases hne : st.NodeName = ""
  · refine ⟨nr, some .ErrMissingNode, ?_, wf, rfl, rfl, rfl, rfl, ?_⟩
    · simp [NodeRecorder.Push, hne]
    · have := wf.name_ne
      constructor
      · intro h; cases h
      · intro h; exact absurd (hne ▸ h).symm this
  by_cases hname : st.NodeName = nr.nodeName
  swap
  · refine ⟨nr, some .ErrMismatchingNode, ?_, wf, rfl, rfl, rfl, rfl, ?_⟩
    · simp [NodeRecorder.Push, hne, hname]
    · simp [hname]
  by_cases hco : nr.coalesces st = true
  · refine ⟨nr, none, ?_, wf, rfl, rfl, rfl, rfl, ?_⟩
    · simp [NodeRecorder.Push, hne, hname, hco, wf.name_ne]
    · simp [hname]
  obtain ⟨l1, sz, hpush, hsuf, hlen, hone, hmulti⟩ := Push_accepted fmtLen nr st ts wf hne hname
    (by simpa using hco)
  refine ⟨_, none, hpush, ?_, rfl, rfl, rfl, rfl, by simp [hname]⟩
  constructor
  · exact wf.name_ne
  · exact wf.cap_pos
  · simp only [NodeRecorder.Len, NodeRecorder.Cap, List.length_append, List.length_singleton]
    push_cast
    omega
  · intro h
    simp only at h
    simp [(hone h).1]
  · intro h
    exact (hmulti h).1
  · intro hpos
    simp only at hpos ⊢
    by_cases h1 : nr.capacity = 1
    · right
      simp [NodeRecorder.Len, (hone h1).1]
    · have hcap : 1 < nr.capacity := by have := wf.cap_pos; omega
      obtain ⟨hsz, hbig, hfit⟩ := hmulti hcap
      by_cases hlt : (newItem fmtLen st ts).Size fmtLen < nr.maxSize
      · left
        have := hfit (by omega) hlt
        exact ⟨this, by rw [hsz]; exact this⟩
      · right
        simp [NodeRecorder.Len, hbig (by omega) (by omega)]

/-- What `NewNodeRecorder` returns is well formed. -/
theorem NewNodeRecorder_wellFormed (fmtLen : Formatter) (nodeName : String)
    (opts : List NodeOption) (nr : NodeRecorder) (h : NewNodeRecorder nodeName opts = .ok nr) :
    nr.WellFormed fmtLen := by
  obtain ⟨hne, hname, hcap, hsize, hst1, hst0⟩ := NewNodeRecorder_ok nodeName opts nr h
  constructor
  · rw [hname]; exact hne
  · exact hcap
  · simp only [NodeRecorder.Len, NodeRecorder.Cap]
    by_cases h1 : nr.capacity = 1
    · rw [hst1 h1, h1]; simp
    · rw [hst0 h1]; simp; omega
  · intro h1; rw [hst1 h1]; rfl
  · intro h1
    rw [hst0 (by omega), hsize, sumSizes_nil]
  · intro _
    by_cases h1 : nr.capacity = 1
    · right; simp [NodeRecorder.Len, hst1 h1]
    · left
      rw [hst0 h1, hsize, sumSizes_nil]
      omega

/-- Every reachable `NodeRecorder` state is well formed. -/
theorem Reachable_wellFormed (fmtLen : Formatter) (nr : NodeRecorder)
    (h : nr.Reachable fmtLen) : nr.WellFormed fmtLen := by
  induction h with
  | init nodeName opts nr hnew => exact NewNodeRecorder_wellFormed fmtLen nodeName opts nr hnew
  | push nr nr1 st ts err _ hpush ih =>
    obtain ⟨nr2, err2, hp, wf, _⟩ := Push_wellFormed fmtLen nr st ts ih
    rw [hp] at hpush
    injection hpush with hpush
    injection hpush with h1 _
    exact h1 ▸ wf

/-! ## C2, C3: the bounds of a `NodeRecorder` -/

/-- C2. In every state reachable from a successful `NewNodeRecorder` by `Push` calls,
whatever they return and whatever the capacity, `maxSize` and coalescing setting are,
`Len() ≤ Cap()`. -/
theorem C2_len_le_cap (fmtLen : Formatter) (nr : NodeRecorder) (h : nr.Reachable fmtLen) :
    nr.Len ≤ nr.Cap :=
  (Reachable_wellFormed fmtLen nr h).len_le

/-- C2 at the capacity-3 recorder after its first push. -/
theorem C2_len_le_cap_witness :
    evictRecorder1.Reachable sampleFmtLen ∧ evictRecorder1.Len ≤ evictRecorder1.Cap :=
  have hreach : evictRecorder1.Reachable sampleFmtLen :=
    .push evictRecorder evictRecorder1 (statusOf "test-node" "v0") 1 none
      (.init "test-node" [.WithCapacity 3] evictRecorder rfl) (by decide)
  ⟨hreach, C2_len_le_cap sampleFmtLen evictRecorder1 hreach⟩

/-- C3 as stated fails: a recorder of capacity 2 with `maxSize` 10 holds, after one push
of a 32-byte entry, 32 bytes, and its accumulator says so. -/
theorem C3_size_le_maxSize_counterexample :
    NewNodeRecorder "test-node" [.WithCapacity 2, .WithMaxSize 10] = .ok tightRecorder ∧
    tightRecorder.Push sampleFmtLen (statusOf "test-node" "v0") 1
      = .ret (tightRecorder1, none) ∧
    0 < tightRecorder1.MaxSize ∧
    ¬ (sumSizes sampleFmtLen tightRecorder1.Content ≤ tightRecorder1.MaxSize) ∧
    ¬ (tightRecorder1.size ≤ tightRecorder1.MaxSize) := by
  refine ⟨rfl, by decide, by decide, by decide, by decide⟩

/-- C3, amended. In every reachable state of a `NodeRecorder` with `maxSize > 0`, the
cumulative size of the stored entries and the size accumulator are at most `maxSize`,
unless the store holds exactly one entry and either the capacity is 1 (where no size
limit is applied) or that entry alone exceeds `maxSize`. -/
theorem C3_size_le_maxSize_or_single (fmtLen : Formatter) (nr : NodeRecorder)
    (h : nr.Reachable fmtLen) (hmax : 0 < nr.MaxSize) :
    (sumSizes fmtLen nr.Content ≤ nr.MaxSize ∧ nr.size ≤ nr.MaxSize) ∨
      (nr.Len = 1 ∧ (nr.Cap = 1 ∨ nr.MaxSize < sumSizes fmtLen nr.Content)) := by
  have wf := Reachable_wellFormed fmtLen nr h
  simp only [NodeRecorder.MaxSize, NodeRecorder.Content, NodeRecorder.Cap] at hmax ⊢
  rcases wf.bound hmax with hle | hone
  · exact Or.inl hle
  · by_cases h1 : nr.capacity = 1
    · exact Or.inr ⟨hone, Or.inl h1⟩
    · have hcap : 1 < nr.capacity := by have := wf.cap_pos; omega
      have hacc := wf.acc hcap
      by_cases hle : sumSizes fmtLen nr.statuses ≤ nr.maxSize
      · exact Or.inl ⟨hle, by rw [hacc]; exact hle⟩
      · exact Or.inr ⟨hone, Or.inr (by omega)⟩

/-- C3, amended, at the recorder whose only entry exceeds `maxSize`. -/
theorem C3_size_le_maxSize_or_single_witness :
    tightRecorder1.Reachable sampleFmtLen ∧ 0 < tightRecorder1.MaxSize ∧
    ((sumSizes sampleFmtLen tightRecorder1.Content ≤ tightRecorder1.MaxSize ∧
        tightRecorder1.size ≤ tightRecorder1.MaxSize) ∨
      (tightRecorder1.Len = 1 ∧
        (tightRecorder1.Cap = 1 ∨
          tightRecorder1.MaxSize < sumSizes sampleFmtLen tightRecorder1.Content))) :=
  have hreach : tightRecorder1.Reachable sampleFmtLen :=
    .push tightRecorder tightRecorder1 (statusOf "test-node" "v0") 1 none
      (.init "test-node" [.WithCapacity 2, .WithMaxSize 10] tightRecorder rfl) (by decide)
  ⟨hreach, by decide,
    C3_size_le_maxSize_or_single sampleFmtLen tightRecorder1 hreach (by decide)⟩

/-! ## C7, C8: rejected pushes -/

/-- C7. A status with a non-empty node name that differs from the recorder's is
rejected with `ErrMismatchingNode`, and the recorder is unchanged: same `Len()`, same
`Content()`, same accumulated size. -/
theorem C7_mismatching_node (fmtLen : Formatter) (nr : NodeRecorder) (st : Status) (ts : Time)
    (hne : st.NodeName ≠ "") (hdiff : st.NodeName ≠ nr.nodeName) :
    ∃ nr1 : NodeRecorder, nr.Push fmtLen st ts = .ret (nr1, some .ErrMismatchingNode) ∧
      nr1 = nr ∧ nr1.Len = nr.Len ∧ nr1.Content = nr.Content ∧ nr1.size = nr.size := by
  refine ⟨nr, ?_, rfl, rfl, rfl, rfl⟩
  unfold NodeRecorder.Push
  rw [if_neg hne, if_pos hdiff]

/-- C7 at `TestNodeRecorderPushMismatchingNodeName`: `FOOBAR` pushed to `test-node`. -/
theorem C7_mismatching_node_witness :
    ∃ nr1 : NodeRecorder,
      evictRecorder1.Push sampleFmtLen (statusOf "FOOBAR" "") 2
        = .ret (nr1, some .ErrMismatchingNode) ∧
      nr1 = evictRecorder1 ∧ nr1.Len = evictRecorder1.Len ∧
      nr1.Content = evictRecorder1.Content ∧ nr1.size = evictRecorder1.size :=
  C7_mismatching_node sampleFmtLen evictRecorder1 (statusOf "FOOBAR" "") 2 (by decide)
    (by decide)

/-! ## One `Push` on a well-formed `Recorder` -/

theorem keys_insert (m : Finmap (fun _ : String => NodeRecorder)) (name : String)
    (nr : NodeRecorder) : (m.insert name nr).keys = insert name m.keys := by
  ext x
  simp [Finmap.mem_keys, Finmap.mem_insert]

theorem lookup_insert_eq (m : Finmap (fun _ : String => NodeRecorder)) (name n : String)
    (nr : NodeRecorder) :
    (m.insert name nr).lookup n = if n = name then some nr else m.lookup n := by
  by_cases h : n = name
  · subst h; simp [Finmap.lookup_insert]
  · simp [h, Finmap.lookup_insert_of_ne]

/-- The per-node store that `Recorder.Push` creates for a new node name. -/
theorem NewNodeRecorder_for_node (fmtLen : Formatter) (rr : Recorder) (name : String)
    (hne : name ≠ "") (hcap : 1 ≤ rr.nodeCapacity) :
    ∃ nr : NodeRecorder,
      NewNodeRecorder name [.WithCapacity rr.nodeCapacity, .WithMaxSize rr.maxSize,
        .WithCoalescing rr.coalesceLast] = .ok nr ∧
      nr.nodeName = name ∧ nr.WellFormed fmtLen := by
  have hnot : ¬ rr.nodeCapacity < 1 := by omega
  have hex : ∃ nr : NodeRecorder,
      NewNodeRecorder name [.WithCapacity rr.nodeCapacity, .WithMaxSize rr.maxSize,
        .WithCoalescing rr.coalesceLast] = .ok nr := by
    simp only [NewNodeRecorder, hne, List.foldl, NodeOption.apply, if_false, hnot]
    split_ifs <;> exact ⟨_, rfl⟩
  obtain ⟨nr, hnr⟩ := hex
  exact ⟨nr, hnr, (NewNodeRecorder_ok _ _ _ hnr).2.1,
    NewNodeRecorder_wellFormed fmtLen _ _ _ hnr⟩

/-- Delegating the push to the per-node store of the status's node always succeeds
and binds the node name. -/
theorem pushInto_wellFormed (fmtLen : Formatter) (rr : Recorder) (nr : NodeRecorder)
    (st : Status) (ts : Time) (wf : rr.WellFormed fmtLen) (hnr : nr.WellFormed fmtLen)
    (hname : nr.nodeName = st.NodeName)
    (hroom : st.NodeName ∈ rr.nodes.keys ∨ rr.CountNodes < rr.MaxNodes) :
    ∃ nr1 : NodeRecorder,
      rr.pushInto fmtLen nr st ts
        = .ret ({ rr with nodes := rr.nodes.insert st.NodeName nr1 }, none) ∧
      Recorder.WellFormed fmtLen { rr with nodes := rr.nodes.insert st.NodeName nr1 } := by
  obtain ⟨nr1, err, hpush, wf1, hn1, _, _, _, herr⟩ := Push_wellFormed fmtLen nr st ts hnr
  have hnone : err = none := herr.mpr hname.symm
  subst hnone
  refine ⟨nr1, ?_, ?_⟩
  · simp only [Recorder.pushInto, hpush]
  · constructor
    · exact wf.maxNodes_pos
    · exact wf.cap_pos
    · have hle := wf.count_le
      simp only [Recorder.CountNodes, Recorder.MaxNodes, keys_insert] at hle hroom ⊢
      rcases hroom with hmem | hlt
      · rw [Finset.insert_eq_of_mem hmem]; exact hle
      · have := Finset.card_insert_le st.NodeName rr.nodes.keys
        omega
    · intro name nr2 hlook
      simp only [lookup_insert_eq] at hlook
      split_ifs at hlook with h
      · injection hlook with hlook
        subst hlook
        exact ⟨by rw [hn1, hname, h], wf1⟩
      · exact wf.nodes_wf name nr2 hlook

theorem known_iff_mem_keys (rr : Recorder) (name : String) :
    (rr.ContentForNode name).2 = true ↔ name ∈ rr.nodes.keys := by
  rw [Finmap.mem_keys, ← Finmap.lookup_isSome]
  unfold Recorder.ContentForNode
  cases rr.nodes.lookup name <;> simp

/-- Every `Push` with a non-empty node name on a well-formed `Recorder` returns; it
succeeds when the node is known or there is room for one more node, and otherwise
fails with `ErrTooManyNodes`, leaving the recorder as it was. -/
theorem Recorder_Push_wellFormed (fmtLen : Formatter) (rr : Recorder) (st : Status) (ts : Time)
    (wf : rr.WellFormed fmtLen) (hne : st.NodeName ≠ "") :
    ∃ (rr1 : Recorder) (err : Option Error),
      rr.Push fmtLen st ts = .ret (rr1, err) ∧ rr1.WellFormed fmtLen ∧
      ((st.NodeName ∈ rr.nodes.keys ∨ rr.CountNodes < rr.MaxNodes) →
        err = none ∧ st.NodeName ∈ rr1.nodes.keys) ∧
      (¬ (st.NodeName ∈ rr.nodes.keys ∨ rr.CountNodes < rr.MaxNodes) →
        err = some .ErrTooManyNodes ∧ rr1 = rr) := by
  unfold Recorder.Push
  rw [if_neg hne]
  cases hlook : rr.nodes.lookup st.NodeName with
  | some nr =>
    have hmem : st.NodeName ∈ rr.nodes.keys := by
      rw [Finmap.mem_keys, ← Finmap.lookup_isSome, hlook]; rfl
    obtain ⟨hname, hnr⟩ := wf.nodes_wf _ _ hlook
    obtain ⟨nr1, hrun, wf1⟩ := pushInto_wellFormed fmtLen rr nr st ts wf hnr hname (Or.inl hmem)
    refine ⟨_, none, hrun, wf1, fun _ => ⟨rfl, ?_⟩, fun h => absurd (Or.inl hmem) h⟩
    simp [keys_insert]
  | none =>
    have hnmem : st.NodeName ∉ rr.nodes.keys := by
      rw [Finmap.mem_keys, ← Finmap.lookup_eq_none]; exact hlook
    simp only
    by_cases hfull : rr.CountNodes ≥ rr.maxNodes
    · have hreached : rr.maxCapacityReached = true := by
        simp [Recorder.maxCapacityReached, hfull]
      rw [if_pos hreached]
      refine ⟨rr, some .ErrTooManyNodes, rfl, wf, ?_, fun _ => ⟨rfl, rfl⟩⟩
      rintro (h | h)
      · exact absurd h hnmem
      · simp only [Recorder.MaxNodes] at h; omega
    · have hreached : ¬ (rr.maxCapacityReached = true) := by
        simp [Recorder.maxCapacityReached, hfull]
      rw [if_neg hreached]
      have hlt : rr.CountNodes < rr.MaxNodes := by
        simp only [Recorder.MaxNodes]; omega
      obtain ⟨nr, hnew, hname, hnr⟩ := NewNodeRecorder_for_node fmtLen rr st.NodeName hne
        wf.cap_pos
      obtain ⟨nr1, hrun, wf1⟩ := pushInto_wellFormed fmtLen rr nr st ts wf hnr hname
        (Or.inr hlt)
      rw [hnew]
      refine ⟨_, none, hrun, wf1, fun _ => ⟨rfl, ?_⟩, fun h => absurd (Or.inr hlt) h⟩
      simp [keys_insert]

theorem foldl_apply_nodes (opts : List RecorderOption) :
    ∀ rr : Recorder, (opts.foldl RecorderOption.apply rr).nodes = rr.nodes := by
  induction opts with
  | nil => intro rr; rfl
  | cons o rest ih =>
    intro rr
    rw [List.foldl_cons, ih]
    cases o <;> rfl

/-- What `NewRecorder` returns is well formed. -/
theorem NewRecorder_wellFormed (fmtLen : Formatter) (opts : List RecorderOption)
    (rr : Recorder) (h : NewRecorder opts = .ok rr) : rr.WellFormed fmtLen := by
  unfold NewRecorder at h
  simp only at h
  split_ifs at h with h1 h2
  injection h with h
  have hnodes : rr.nodes = ∅ := by rw [← h, foldl_apply_nodes]
  rw [h] at h1 h2
  constructor
  · omega
  · omega
  · simp only [Recorder.CountNodes, Recorder.MaxNodes, hnodes, Finmap.keys_empty,
      Finset.card_empty]
    push_cast
    omega
  · intro name nr hlook
    rw [hnodes, Finmap.lookup_empty] at hlook
    cases hlook

/-- Every reachable `Recorder` state is well formed. -/
theorem Recorder_Reachable_wellFormed (fmtLen : Formatter) (rr : Recorder)
    (h : rr.Reachable fmtLen) : rr.WellFormed fmtLen := by
  induction h with
  | init opts rr hnew => exact NewRecorder_wellFormed fmtLen opts rr hnew
  | push rr rr1 st ts err _ hpush ih =>
    by_cases hne : st.NodeName = ""
    · simp only [Recorder.Push, hne, if_true] at hpush
      injection hpush with hpush
      injection hpush with h1 _
      exact h1 ▸ ih
    · obtain ⟨rr2, err2, hp, wf, _⟩ := Recorder_Push_wellFormed fmtLen rr st ts ih hne
      rw [hp] at hpush
      injection hpush with hpush
      injection hpush with h1 _
      exact h1 ▸ wf

/-! ## C4, C5, C6, C8: the node cap of a `Recorder` -/

theorem oneNodeRecorder1_reachable : oneNodeRecorder1.Reachable sampleFmtLen :=
  .push oneNodeRecorder oneNodeRecorder1 (statusOf "node-0" "") 1 none
    (.init [.WithMaxNodes 1, .WithNodeCapacity 16] oneNodeRecorder rfl) (by decide)

/-- C4. In every state reachable from a successful `NewRecorder` by `Push` calls,
`CountNodes() ≤ MaxNodes()`. -/
theorem C4_countNodes_le_maxNodes (fmtLen : Formatter) (rr : Recorder)
    (h : rr.Reachable fmtLen) : rr.CountNodes ≤ rr.MaxNodes :=
  (Recorder_Reachable_wellFormed fmtLen rr h).count_le

/-- C4 at the one-node recorder that holds one node. -/
theorem C4_countNodes_le_maxNodes_witness :
    oneNodeRecorder1.Reachable sampleFmtLen ∧
      oneNodeRecorder1.CountNodes ≤ oneNodeRecorder1.MaxNodes :=
  ⟨oneNodeRecorder1_reachable,
    C4_countNodes_le_maxNodes sampleFmtLen oneNodeRecorder1 oneNodeRecorder1_reachable⟩

/-- C5. A push for a non-empty node name that the `Recorder` does not know, when
`CountNodes() ≥ MaxNodes()`, returns `ErrTooManyNodes` and leaves the `Recorder` as it
was: `CountNodes()`, `Len()`, and `CountRecords` and `ContentForNode` of every name are
the same, and the rejected name stays unknown with 0 records. -/
theorem C5_too_many_nodes (fmtLen : Formatter) (rr : Recorder) (st : Status) (ts : Time)
    (hne : st.NodeName ≠ "") (hunknown : (rr.ContentForNode st.NodeName).2 = false)
    (hfull : rr.CountNodes ≥ rr.MaxNodes) :
    ∃ rr1 : Recorder, rr.Push fmtLen st ts = .ret (rr1, some .ErrTooManyNodes) ∧ rr1 = rr ∧
      rr1.CountNodes = rr.CountNodes ∧ rr1.Len = rr.Len ∧
      (∀ n : String, rr1.CountRecords n = rr.CountRecords n ∧
        rr1.ContentForNode n = rr.ContentForNode n) ∧
      rr1.CountRecords st.NodeName = 0 ∧ rr1.ContentForNode st.NodeName = ([], false) := by
  have hlook : rr.nodes.lookup st.NodeName = none := by
    unfold Recorder.ContentForNode at hunknown
    cases h : rr.nodes.lookup st.NodeName with
    | none => rfl
    | some nr => rw [h] at hunknown; simp at hunknown
  have hreached : rr.maxCapacityReached = true := by
    simp only [Recorder.MaxNodes] at hfull
    simp [Recorder.maxCapacityReached, hfull]
  refine ⟨rr, ?_, rfl, rfl, rfl, fun _ => ⟨rfl, rfl⟩, ?_, ?_⟩
  · unfold Recorder.Push
    rw [if_neg hne, hlook]
    simp only [hreached, if_true]
  · simp only [Recorder.CountRecords, hlook]
  · simp only [Recorder.ContentForNode, hlook]

/-- C5 at `TestRecorderPushTooManyNodes`: `node-1` pushed when `node-0` fills the cap. -/
theorem C5_too_many_nodes_witness :
    ∃ rr1 : Recorder,
      oneNodeRecorder1.Push sampleFmtLen (statusOf "node-1" "") 2
        = .ret (rr1, some .ErrTooManyNodes) ∧ rr1 = oneNodeRecorder1 ∧
      rr1.CountNodes = oneNodeRecorder1.CountNodes ∧ rr1.Len = oneNodeRecorder1.Len ∧
      (∀ n : String, rr1.CountRecords n = oneNodeRecorder1.CountRecords n ∧
        rr1.ContentForNode n = oneNodeRecorder1.ContentForNode n) ∧
      rr1.CountRecords "node-1" = 0 ∧ rr1.ContentForNode "node-1" = ([], false) :=
  C5_too_many_nodes sampleFmtLen oneNodeRecorder1 (statusOf "node-1" "") 2 (by decide)
    (by decide) (by decide)

/-- C6. In every reachable `Recorder` state, a push with a non-empty node name
returns, and it returns `nil` exactly when the node name is already known or
`CountNodes() < MaxNodes()`: a known node is served even when the cap is reached.
After a successful push the node name is known. -/
theorem C6_push_succeeds_iff (fmtLen : Formatter) (rr : Recorder) (st : Status) (ts : Time)
    (h : rr.Reachable fmtLen) (hne : st.NodeName ≠ "") :
    ∃ (rr1 : Recorder) (err : Option Error), rr.Push fmtLen st ts = .ret (rr1, err) ∧
      (err = none ↔
        ((rr.ContentForNode st.NodeName).2 = true ∨ rr.CountNodes < rr.MaxNodes)) ∧
      (err = none → (rr1.ContentForNode st.NodeName).2 = true) ∧
      ((rr.ContentForNode st.NodeName).2 = true → rr.CountNodes ≥ rr.MaxNodes →
        err = none) := by
  have wf := Recorder_Reachable_wellFormed fmtLen rr h
  obtain ⟨rr1, err, hpush, _, hyes, hno⟩ := Recorder_Push_wellFormed fmtLen rr st ts wf hne
  refine ⟨rr1, err, hpush, ?_, ?_, ?_⟩
  · rw [known_iff_mem_keys]
    constructor
    · intro herr
      by_contra hcon
      rw [(hno hcon).1] at herr
      cases herr
    · intro hroom
      exact (hyes hroom).1
  · intro herr
    rw [known_iff_mem_keys]
    by_cases hroom : st.NodeName ∈ rr.nodes.keys ∨ rr.CountNodes < rr.MaxNodes
    · exact (hyes hroom).2
    · rw [(hno hroom).1] at herr
      cases herr
  · intro hknown _
    rw [known_iff_mem_keys] at hknown
    exact (hyes (Or.inl hknown)).1

/-- C6 at the one-node recorder: `node-0` is known and is served although the node cap
is reached. -/
theorem C6_push_succeeds_iff_witness :
    oneNodeRecorder1.CountNodes ≥ oneNodeRecorder1.MaxNodes ∧
    ∃ (rr1 : Recorder) (err : Option Error),
      oneNodeRecorder1.Push sampleFmtLen (statusOf "node-0" "again") 2 = .ret (rr1, err) ∧
      (err = none ↔
        ((oneNodeRecorder1.ContentForNode "node-0").2 = true ∨
          oneNodeRecorder1.CountNodes < oneNodeRecorder1.MaxNodes)) ∧
      (err = none → (rr1.ContentForNode "node-0").2 = true) ∧
      ((oneNodeRecorder1.ContentForNode "node-0").2 = true →
        oneNodeRecorder1.CountNodes ≥ oneNodeRecorder1.MaxNodes → err = none) :=
  ⟨by decide,
    C6_push_succeeds_iff sampleFmtLen oneNodeRecorder1 (statusOf "node-0" "again") 2
      oneNodeRecorder1_reachable (by decide)⟩

/-- C8. A status whose node name is empty is rejected with `ErrMissingNode` by every
`NodeRecorder` and by every `Recorder`, in any state, and the store is unchanged. -/
theorem C8_missing_node (fmtLen : Formatter) (nr : NodeRecorder) (rr : Recorder) (st : Status)
    (ts : Time) (hempty : st.NodeName = "") :
    nr.Push fmtLen st ts = .ret (nr, some .ErrMissingNode) ∧
      rr.Push fmtLen st ts = .ret (rr, some .ErrMissingNode) := by
  constructor
  · unfold NodeRecorder.Push
    rw [if_pos hempty]
  · unfold Recorder.Push
    rw [if_pos hempty]

/-- C8 at a status without node name, pushed to a node store and to a full recorder. -/
theorem C8_missing_node_witness :
    evictRecorder1.Push sampleFmtLen (statusOf "" "v9") 2
        = .ret (evictRecorder1, some .ErrMissingNode) ∧
      oneNodeRecorder1.Push sampleFmtLen (statusOf "" "v9") 2
        = .ret (oneNodeRecorder1, some .ErrMissingNode) :=
  C8_missing_node sampleFmtLen evictRecorder1 oneNodeRecorder1 (statusOf "" "v9") 2 rfl

/-! ## C9: coalescing -/

/-- With coalescing enabled, a status that has the fingerprints of the newest entry is
dropped: `Push` returns `nil` and the recorder is unchanged. -/
theorem Push_coalesced (fmtLen : Formatter) (nr : NodeRecorder) (st : Status) (ts : Time)
    (last : RecordedStatus) (hne : nr.nodeName ≠ "") (hco : nr.coalesceLast = true)
    (hname : st.NodeName = nr.nodeName) (hlast : nr.statuses.getLast? = some last)
    (hfe : last.FingerprintExpected = st.FingerprintExpected)
    (hfc : last.FingerprintComputed = st.FingerprintComputed) :
    nr.Push fmtLen st ts = .ret (nr, none) := by
  have hlen : nr.statuses ≠ [] := by
    intro h; rw [h] at hlast; simp at hlast
  have hcoal : nr.coalesces st = true := by
    simp [NodeRecorder.coalesces, NodeRecorder.IsCoalescing, NodeRecorder.Len, hco, hlast,
      hfe, hfc, hlen]
  unfold NodeRecorder.Push
  rw [if_neg (hname ▸ hne), if_neg (by simpa using hname), if_pos hcoal]

theorem pushAll_coalesced (fmtLen : Formatter) (nr : NodeRecorder) (last : RecordedStatus)
    (hne : nr.nodeName ≠ "") (hco : nr.coalesceLast = true)
    (hlast : nr.statuses.getLast? = some last) (run : List (Status × Time))
    (hrun : ∀ p ∈ run, p.1.NodeName = nr.nodeName ∧
      p.1.FingerprintExpected = last.FingerprintExpected ∧
      p.1.FingerprintComputed = last.FingerprintComputed) :
    nr.pushAll fmtLen run = .ret nr := by
  induction run with
  | nil => rfl
  | cons p rest ih =>
    obtain ⟨st, ts⟩ := p
    obtain ⟨h1, h2, h3⟩ := hrun (st, ts) (List.mem_cons_self _ _)
    simp only [NodeRecorder.pushAll,
      Push_coalesced fmtLen nr st ts last hne hco h1 hlast h2.symm h3.symm]
    exact ih (fun q hq => hrun q (List.mem_cons_of_mem _ hq))

/-- A run of pushes with the same fingerprints adds at most one entry to a well-formed
coalescing recorder. -/
theorem pushAll_same_fingerprints (fmtLen : Formatter) (nr : NodeRecorder)
    (wf : nr.WellFormed fmtLen) (hco : nr.coalesceLast = true) (fe fc : String)
    (run : List (Status × Time))
    (hrun : ∀ p ∈ run, p.1.NodeName = nr.nodeName ∧ p.1.FingerprintExpected = fe ∧
      p.1.FingerprintComputed = fc) :
    ∃ nr1 : NodeRecorder, nr.pushAll fmtLen run = .ret nr1 ∧ nr1.Len ≤ nr.Len + 1 := by
  induction run with
  | nil => exact ⟨nr, rfl, by omega⟩
  | cons p rest ih =>
    obtain ⟨st, ts⟩ := p
    obtain ⟨h1, h2, h3⟩ := hrun (st, ts) (List.mem_cons_self _ _)
    have hrest := fun q hq => hrun q (List.mem_cons_of_mem (st, ts) hq)
    have hne : st.NodeName ≠ "" := h1 ▸ wf.name_ne
    by_cases hcoal : nr.coalesces st = true
    · obtain ⟨nr1, hall, hle⟩ := ih hrest
      refine ⟨nr1, ?_, hle⟩
      have hpush : nr.Push fmtLen st ts = .ret (nr, none) := by
        unfold NodeRecorder.Push
        rw [if_neg hne, if_neg (by simpa using h1), if_pos hcoal]
      simp only [NodeRecorder.pushAll, hpush, hall]
    · obtain ⟨l1, sz, hpush, hsuf, _⟩ := Push_accepted fmtLen nr st ts wf hne h1
        (by simpa using hcoal)
      refine ⟨{ nr with statuses := l1 ++ [newItem fmtLen st ts], size := sz }, ?_, ?_⟩
      · simp only [NodeRecorder.pushAll, hpush]
        have hlast : (l1 ++ [newItem fmtLen st ts]).getLast? = some (newItem fmtLen st ts) := by
          simp
        refine pushAll_coalesced fmtLen
          { nr with statuses := l1 ++ [newItem fmtLen st ts], size := sz }
          (newItem fmtLen st ts) wf.name_ne hco hlast rest ?_
        intro q hq
        obtain ⟨q1, q2, q3⟩ := hrest q hq
        exact ⟨q1, q2.trans h2.symm, q3.trans h3.symm⟩
      · have := hsuf.length_le
        simp only [NodeRecorder.Len, List.length_append, List.length_singleton]
        push_cast
        omega

/-- C9. With coalescing enabled, a push that carries the recorder's node name and the
`FingerprintExpected` and `FingerprintComputed` of the newest stored entry returns
`nil` and leaves `Len()` and `Content()` as they were, whatever the pod lists are.
Hence, from any reachable state, a run of pushes that all carry the same two
fingerprints raises `Len()` by at most 1 in total. -/
theorem C9_coalescing (fmtLen : Formatter) (nr : NodeRecorder) (hne : nr.nodeName ≠ "")
    (hco : nr.IsCoalescing = true) :
    (∀ (st : Status) (ts : Time) (last : RecordedStatus), st.NodeName = nr.nodeName →
      nr.Content.getLast? = some last →
      last.FingerprintExpected = st.FingerprintExpected →
      last.FingerprintComputed = st.FingerprintComputed →
      ∃ nr1 : NodeRecorder, nr.Push fmtLen st ts = .ret (nr1, none) ∧ nr1.Len = nr.Len ∧
        nr1.Content = nr.Content) ∧
    (nr.Reachable fmtLen → ∀ (run : List (Status × Time)) (fe fc : String),
      (∀ p ∈ run, p.1.NodeName = nr.nodeName ∧ p.1.FingerprintExpected = fe ∧
        p.1.FingerprintComputed = fc) →
      ∃ nr1 : NodeRecorder, nr.pushAll fmtLen run = .ret nr1 ∧ nr1.Len ≤ nr.Len + 1) := by
  constructor
  · intro st ts last hname hlast hfe hfc
    exact ⟨nr, Push_coalesced fmtLen nr st ts last hne hco hname hlast hfe hfc, rfl, rfl⟩
  · intro hreach run fe fc hrun
    exact pushAll_same_fingerprints fmtLen nr (Reachable_wellFormed fmtLen nr hreach) hco fe fc
      run hrun

/-- C9 at a coalescing recorder whose newest entry is tagged `v0`: a status tagged `v0`
with a different pod list is absorbed, and so is a run of two such statuses. -/
theorem C9_coalescing_witness :
    (∃ nr1 : NodeRecorder,
      coalescingRecorder1.Push sampleFmtLen sameFingerprints 2 = .ret (nr1, none) ∧
      nr1.Len = coalescingRecorder1.Len ∧ nr1.Content = coalescingRecorder1.Content) ∧
    (∃ nr1 : NodeRecorder,
      coalescingRecorder1.pushAll sampleFmtLen
        [(sameFingerprints, 2), (statusOf "test-node" "v0", 3)] = .ret nr1 ∧
      nr1.Len ≤ coalescingRecorder1.Len + 1) :=
  have hreach : coalescingRecorder1.Reachable sampleFmtLen :=
    .push { coalescingRecorder1 with statuses := [], size := 0 } coalescingRecorder1
      (statusOf "test-node" "v0") 1 none
      (.init "test-node" [.WithCapacity 4, .WithCoalescing true] _ rfl) (by decide)
  have hboth := C9_coalescing sampleFmtLen coalescingRecorder1 (by decide) rfl
  ⟨hboth.1 sameFingerprints 2 (newItem sampleFmtLen (statusOf "test-node" "v0") 1) rfl rfl
      rfl rfl,
    hboth.2 hreach [(sameFingerprints, 2), (statusOf "test-node" "v0", 3)] "v0" ""
      (by decide)⟩


/-! ## C10: the single slot of a capacity-1 recorder -/

theorem Status_Equal_self (st : Status) : st.Equal st = true := by
  simp [Status.Equal]

/-- After a non-empty sequence of accepted pushes, a capacity-1 recorder that does not
coalesce holds exactly the entry of the last push. -/
theorem pushAll_single_slot (fmtLen : Formatter) (before : List (Status × Time)) (st : Status)
    (ts : Time) :
    ∀ nr : NodeRecorder, nr.WellFormed fmtLen → nr.capacity = 1 → nr.coalesceLast = false →
      (∀ p ∈ before ++ [(st, ts)], p.1.NodeName = nr.nodeName) →
      ∃ sz : Int, nr.pushAll fmtLen (before ++ [(st, ts)])
        = .ret { nr with statuses := [newItem fmtLen st ts], size := sz } := by
  induction before with
  | nil =>
    intro nr wf hcap hco hnames
    have hname : st.NodeName = nr.nodeName := hnames (st, ts) (by simp)
    obtain ⟨l1, sz, hpush, _, _, hone, _⟩ := Push_accepted fmtLen nr st ts wf
      (hname ▸ wf.name_ne) hname (coalesces_of_not_coalescing nr st hco)
    refine ⟨sz, ?_⟩
    simp only [List.nil_append, NodeRecorder.pushAll, hpush, (hone hcap).1]
  | cons p rest ih =>
    intro nr wf hcap hco hnames
    obtain ⟨st0, ts0⟩ := p
    have hname : st0.NodeName = nr.nodeName := hnames (st0, ts0) (by simp)
    obtain ⟨l1, sz, hpush, _, _, hone, _⟩ := Push_accepted fmtLen nr st0 ts0 wf
      (hname ▸ wf.name_ne) hname (coalesces_of_not_coalescing nr st0 hco)
    obtain ⟨nr2, err2, hp2, wf2, _⟩ := Push_wellFormed fmtLen nr st0 ts0 wf
    rw [hpush] at hp2
    injection hp2 with hp2
    injection hp2 with hp2 _
    rw [← hp2] at wf2
    obtain ⟨sz2, hrest⟩ := ih _ wf2 hcap hco
      (fun q hq => hnames q (List.mem_cons_of_mem _ hq))
    refine ⟨sz2, ?_⟩
    simp only [List.cons_append, NodeRecorder.pushAll, hpush]
    exact hrest

/-- C10. For a `NodeRecorder` created with capacity exactly 1 and coalescing disabled,
whatever its `maxSize`: after each push of a sequence of statuses that carry its node
name (here the push of `st`, with the pushes `before` made earlier), `Len() = 1` and
the single entry of `Content()` wraps `st`, so it is `Equal` to every `RecordedStatus`
that wraps `st`. -/
theorem C10_single_slot (fmtLen : Formatter) (nodeName : String) (opts : List NodeOption)
    (nr : NodeRecorder) (before : List (Status × Time)) (st : Status) (ts : Time)
    (hnew : NewNodeRecorder nodeName opts = .ok nr) (hcap : nr.Cap = 1)
    (hco : nr.IsCoalescing = false)
    (hnames : ∀ p ∈ before ++ [(st, ts)], p.1.NodeName = nodeName) :
    ∃ (nr1 : NodeRecorder) (e : RecordedStatus),
      nr.pushAll fmtLen (before ++ [(st, ts)]) = .ret nr1 ∧ nr1.Len = 1 ∧
      nr1.Content = [e] ∧ e.toStatus = st ∧ e.RecordTime = ts ∧
      ∀ x : RecordedStatus, x.toStatus = st → x.Equal e = true ∧ e.Equal x = true := by
  have wf := NewNodeRecorder_wellFormed fmtLen nodeName opts nr hnew
  have hname := (NewNodeRecorder_ok nodeName opts nr hnew).2.1
  obtain ⟨sz, hall⟩ := pushAll_single_slot fmtLen before st ts nr wf hcap hco
    (fun p hp => by rw [hname]; exact hnames p hp)
  refine ⟨_, newItem fmtLen st ts, hall, rfl, rfl, rfl, rfl, ?_⟩
  intro x hx
  simp only [RecordedStatus.Equal, hx, newItem_toStatus, Status_Equal_self, and_self]

/-- C10 at a capacity-1 recorder with a 10-byte `maxSize`: after `v0` and `v1` the
single entry is the one of `v1`. -/
theorem C10_single_slot_witness :
    NewNodeRecorder "test-node" [.WithCapacity 1, .WithMaxSize 10] = .ok singleSlotRecorder ∧
    ∃ (nr1 : NodeRecorder) (e : RecordedStatus),
      singleSlotRecorder.pushAll sampleFmtLen
        ([(statusOf "test-node" "v0", 1)] ++ [(statusOf "test-node" "v1", 2)]) = .ret nr1 ∧
      nr1.Len = 1 ∧ nr1.Content = [e] ∧ e.toStatus = statusOf "test-node" "v1" ∧
      e.RecordTime = 2 ∧
      ∀ x : RecordedStatus, x.toStatus = statusOf "test-node" "v1" →
        x.Equal e = true ∧ e.Equal x = true :=
  ⟨rfl, C10_single_slot sampleFmtLen "test-node" [.WithCapacity 1, .WithMaxSize 10]
    singleSlotRecorder [(statusOf "test-node" "v0", 1)] (statusOf "test-node" "v1") 2 rfl rfl
    rfl (by decide)⟩

/-- The two ways a `Push` on a well-formed recorder ends: the recorder is returned as it
was (rejected or coalesced status), or a tail of the old content followed by the new
entry is stored. -/
theorem Push_result (fmtLen : Formatter) (nr : NodeRecorder) (st : Status) (ts : Time)
    (wf : nr.WellFormed fmtLen) :
    (∃ err : Option Error, nr.Push fmtLen st ts = .ret (nr, err)) ∨
    (st.NodeName = nr.nodeName ∧ ∃ (l1 : List RecordedStatus) (sz : Int),
      nr.Push fmtLen st ts
        = .ret ({ nr with statuses := l1 ++ [newItem fmtLen st ts], size := sz }, none) ∧
      l1 <:+ nr.statuses ∧ (nr.capacity = 1 → l1 = [])) := by
  by_cases hne : st.NodeName = ""
  · exact Or.inl ⟨some .ErrMissingNode, by simp [NodeRecorder.Push, hne]⟩
  by_cases hname : st.NodeName = nr.nodeName
  swap
  · exact Or.inl ⟨some .ErrMismatchingNode, by simp [NodeRecorder.Push, hne, hname]⟩
  by_cases hco : nr.coalesces st = true
  · exact Or.inl ⟨none, by simp [NodeRecorder.Push, hne, hname, hco, wf.name_ne]⟩
  obtain ⟨l1, sz, hpush, hsuf, _, hone, _⟩ := Push_accepted fmtLen nr st ts wf hne hname
    (by simpa using hco)
  exact Or.inr ⟨hname, l1, sz, hpush, hsuf, fun h => (hone h).1⟩

/-- In every reachable state each entry of `Content()` carries the recorder's node
name, except the zero entry that a capacity-1 recorder holds until its first stored
push. -/
theorem Reachable_entries_named (fmtLen : Formatter) (nr : NodeRecorder)
    (h : nr.Reachable fmtLen) :
    ∀ e ∈ nr.Content, e.NodeName = nr.nodeName ∨ (nr.Cap = 1 ∧ e = RecordedStatus.zero) := by
  induction h with
  | init nodeName opts nr hnew =>
    obtain ⟨_, _, _, _, hst1, hst0⟩ := NewNodeRecorder_ok nodeName opts nr hnew
    intro e he
    simp only [NodeRecorder.Content, NodeRecorder.Cap] at he ⊢
    by_cases h1 : nr.capacity = 1
    · rw [hst1 h1] at he
      exact Or.inr ⟨h1, by simpa using he⟩
    · rw [hst0 h1] at he
      simp at he
  | push nr nr1 st ts err hreach hpush ih =>
    have wf := Reachable_wellFormed fmtLen nr hreach
    rcases Push_result fmtLen nr st ts wf with ⟨err2, hsame⟩ | ⟨hname, l1, sz, hacc, hsuf, _⟩
    · rw [hsame] at hpush
      injection hpush with hpush
      injection hpush with h1 _
      exact h1 ▸ ih
    · rw [hacc] at hpush
      injection hpush with hpush
      injection hpush with h1 _
      subst h1
      intro e he
      simp only [NodeRecorder.Content, NodeRecorder.Cap, List.mem_append,
        List.mem_singleton] at he ⊢
      rcases he with he | he
      · exact ih e (hsuf.subset he)
      · left
        rw [he]
        exact hname

/-! ## C11: an oversized entry is stored alone -/

/-- C11. In a reachable `NodeRecorder` with `maxSize > 0`, an accepted push (valid node
name, not coalesced) whose new entry has a size `≥ maxSize` leaves exactly that new
entry in `Content()`: every entry stored before is dropped. -/
theorem C11_oversized_push_alone (fmtLen : Formatter) (nr : NodeRecorder) (st : Status)
    (ts : Time) (h : nr.Reachable fmtLen) (hmax : 0 < nr.MaxSize)
    (hne : st.NodeName ≠ "") (hname : st.NodeName = nr.nodeName)
    (hco : nr.coalesces st = false)
    (hbig : nr.MaxSize ≤ (newItem fmtLen st ts).Size fmtLen) :
    ∃ nr1 : NodeRecorder, nr.Push fmtLen st ts = .ret (nr1, none) ∧
      nr1.Content = [newItem fmtLen st ts] ∧ nr1.Len = 1 := by
  have wf := Reachable_wellFormed fmtLen nr h
  simp only [NodeRecorder.MaxSize] at hmax hbig
  obtain ⟨l1, sz, hpush, _, _, hone, hmulti⟩ := Push_accepted fmtLen nr st ts wf hne hname hco
  have hl1 : l1 = [] := by
    by_cases h1 : nr.capacity = 1
    · exact (hone h1).1
    · have hcap : 1 < nr.capacity := by have := wf.cap_pos; omega
      exact (hmulti hcap).2.1 (by omega) hbig
  subst hl1
  exact ⟨_, hpush, rfl, rfl⟩

/-- C11 at the capacity-2 recorder with `maxSize` 10 that holds `v0`: pushing the 32-byte
`v1` leaves `v1` alone. -/
theorem C11_oversized_push_alone_witness :
    ∃ nr1 : NodeRecorder,
      tightRecorder1.Push sampleFmtLen (statusOf "test-node" "v1") 2 = .ret (nr1, none) ∧
      nr1.Content = [newItem sampleFmtLen (statusOf "test-node" "v1") 2] ∧ nr1.Len = 1 :=
  have hreach : tightRecorder1.Reachable sampleFmtLen :=
    .push tightRecorder tightRecorder1 (statusOf "test-node" "v0") 1 none
      (.init "test-node" [.WithCapacity 2, .WithMaxSize 10] tightRecorder rfl) (by decide)
  C11_oversized_push_alone sampleFmtLen tightRecorder1 (statusOf "test-node" "v1") 2 hreach
    (by decide) (by decide) rfl (by decide) (by decide)

/-! ## C12, C13: the placeholder entry of a capacity-1 recorder -/

/-- With a capacity above 1 a new recorder is empty and has the requested capacity. -/
theorem NewNodeRecorder_multi_empty (nodeName : String) (opts : List NodeOption)
    (nr : NodeRecorder) (h : NewNodeRecorder nodeName opts = .ok nr) (hcap : 1 < nr.Cap) :
    nr.Len = 0 ∧ nr.Content = [] := by
  obtain ⟨_, _, _, _, _, hst0⟩ := NewNodeRecorder_ok nodeName opts nr h
  simp only [NodeRecorder.Cap] at hcap
  simp [NodeRecorder.Len, NodeRecorder.Content, hst0 (by omega)]

/-- C12, the failing input. `NewNodeRecorder("test-node", WithCapacity(1))` succeeds and
reports the requested `Cap()` 1, but its `Len()` is 1, not 0: the slot made by
`make([]RecordedStatus, 1)` counts as an entry before anything is pushed. -/
theorem C12_single_slot_len_after_creation :
    NewNodeRecorder "test-node" [.WithCapacity 1] = .ok freshSingleSlot ∧
      freshSingleSlot.Cap = 1 ∧ freshSingleSlot.Len = 1 ∧ freshSingleSlot.Len ≠ 0 :=
  ⟨rfl, rfl, rfl, by decide⟩

/-- C13, the failing input. Right after `NewNodeRecorder("test-node", WithCapacity(1))`
`Content()` holds one entry, the zero `RecordedStatus`, whose node name is empty and so
differs from the recorder's node name. -/
theorem C13_single_slot_placeholder_name :
    NewNodeRecorder "test-node" [.WithCapacity 1] = .ok freshSingleSlot ∧
      freshSingleSlot.Content = [RecordedStatus.zero] ∧
      RecordedStatus.zero.NodeName = "" ∧
      ¬ (∀ e ∈ freshSingleSlot.Content, e.NodeName = freshSingleSlot.nodeName) := by
  refine ⟨rfl, rfl, rfl, ?_⟩
  intro hall
  have := hall RecordedStatus.zero (by simp [NodeRecorder.Content, freshSingleSlot])
  revert this
  decide

/-! ## C14, C15: the constructors -/

theorem lastOr_nil {α : Type} (d : α) : lastOr d [] = d := rfl

theorem lastOr_cons {α : Type} (d a : α) (l : List α) : lastOr d (a :: l) = lastOr a l := by
  cases l with
  | nil => rfl
  | cons b l =>
    simp only [lastOr, List.getLast?_cons_cons]
    rw [List.getLast?_eq_getLast _ (List.cons_ne_nil b l)]
    rfl

/-- The fields that the option loop of `NewNodeRecorder` leaves behind. -/
theorem foldl_apply_configured (opts : List NodeOption) :
    ∀ nr : NodeRecorder,
      (opts.foldl NodeOption.apply nr).capacity = lastOr nr.capacity
        (opts.filterMap fun o => match o with | .WithCapacity c => some c | _ => none) ∧
      (opts.foldl NodeOption.apply nr).maxSize = lastOr nr.maxSize
        (opts.filterMap fun o => match o with | .WithMaxSize m => some m | _ => none) ∧
      (opts.foldl NodeOption.apply nr).coalesceLast = lastOr nr.coalesceLast
        (opts.filterMap fun o => match o with | .WithCoalescing b => some b | _ => none) := by
  induction opts with
  | nil => intro nr; exact ⟨rfl, rfl, rfl⟩
  | cons o rest ih =>
    intro nr
    obtain ⟨h1, h2, h3⟩ := ih (NodeOption.apply nr o)
    simp only [List.foldl_cons, h1, h2, h3]
    cases o <;> simp [NodeOption.apply, List.filterMap_cons, lastOr_cons]

/-- The fields that the option loop of `NewRecorder` leaves behind. -/
theorem foldl_apply_recorder_configured (opts : List RecorderOption) :
    ∀ rr : Recorder,
      (opts.foldl RecorderOption.apply rr).maxNodes = lastOr rr.maxNodes
        (opts.filterMap fun o => match o with | .WithMaxNodes n => some n | _ => none) ∧
      (opts.foldl RecorderOption.apply rr).nodeCapacity = lastOr rr.nodeCapacity
        (opts.filterMap fun o => match o with | .WithNodeCapacity c => some c | _ => none) := by
  induction opts with
  | nil => intro rr; exact ⟨rfl, rfl⟩
  | cons o rest ih =>
    intro rr
    obtain ⟨h1, h2⟩ := ih (RecorderOption.apply rr o)
    simp only [List.foldl_cons, h1, h2]
    cases o <;> simp [RecorderOption.apply, List.filterMap_cons, lastOr_cons]

/-- C14. `NewNodeRecorder` fails with `ErrMissingNode` exactly when the node name is
empty; for a non-empty name it fails with `ErrInvalidCapacity` exactly when the capacity
the options ask for is below 1, as it is when no capacity option is given; in every
other case it succeeds and the recorder reports the `Cap()`, `MaxSize()` and
`IsCoalescing()` the options ask for. -/
theorem C14_NewNodeRecorder_outcome (nodeName : String) (opts : List NodeOption) :
    (NewNodeRecorder nodeName opts = .error .ErrMissingNode ↔ nodeName = "") ∧
    (nodeName ≠ "" →
      (NewNodeRecorder nodeName opts = .error .ErrInvalidCapacity ↔
        configuredCapacity opts < 1)) ∧
    (nodeName ≠ "" → (∀ o ∈ opts, ∀ c : Int, o ≠ .WithCapacity c) →
      NewNodeRecorder nodeName opts = .error .ErrInvalidCapacity) ∧
    (nodeName ≠ "" → ¬ configuredCapacity opts < 1 →
      ∃ nr : NodeRecorder, NewNodeRecorder nodeName opts = .ok nr ∧
        nr.Cap = configuredCapacity opts ∧ nr.MaxSize = configuredMaxSize opts ∧
        nr.IsCoalescing = configuredCoalescing opts) := by
  obtain ⟨hc, hm, hb⟩ := foldl_apply_configured opts
    { nodeName := nodeName, capacity := 0, maxSize := 0, size := 0, statuses := [],
      coalesceLast := false }
  simp only at hc hm hb
  have hcap : ∀ h : nodeName ≠ "",
      (NewNodeRecorder nodeName opts = .error .ErrInvalidCapacity ↔
        configuredCapacity opts < 1) := by
    intro hne
    unfold NewNodeRecorder configuredCapacity
    rw [if_neg hne]
    simp only [hc]
    split_ifs with h1 h2 <;> simp [h1]
  refine ⟨?_, hcap, ?_, ?_⟩
  · unfold NewNodeRecorder
    by_cases hne : nodeName = ""
    · simp [hne]
    · simp only [hne, if_false, iff_false]
      split_ifs <;> simp
  · intro hne hnone
    rw [hcap hne]
    have hempty : (opts.filterMap fun o =>
        match o with | .WithCapacity c => some c | _ => none) = [] := by
      rw [List.filterMap_eq_nil_iff]
      intro o ho
      cases o with
      | WithCapacity c => exact absurd rfl (hnone _ ho c)
      | WithCoalescing _ => rfl
      | WithMaxSize _ => rfl
    simp [configuredCapacity, hempty, lastOr_nil]
  · intro hne hok
    unfold NewNodeRecorder
    unfold configuredCapacity at hok
    unfold configuredCapacity configuredMaxSize configuredCoalescing
    rw [if_neg hne]
    simp only [hc, hok, if_false]
    split_ifs with h2
    · exact ⟨_, rfl, by simp only [NodeRecorder.Cap, hc], by simp only [NodeRecorder.MaxSize, hm],
        by simp only [NodeRecorder.IsCoalescing, hb]⟩
    · exact ⟨_, rfl, by simp only [NodeRecorder.Cap, hc], by simp only [NodeRecorder.MaxSize, hm],
        by simp only [NodeRecorder.IsCoalescing, hb]⟩

/-- C14 at `TestNodeRecorderCreateInvalid` (no option at all, so the capacity is 0) and
at a list that gives the capacity twice. -/
theorem C14_NewNodeRecorder_outcome_witness :
    NewNodeRecorder "test-node" [] = .error .ErrInvalidCapacity ∧
    ∃ nr : NodeRecorder,
      NewNodeRecorder "test-node" [.WithCapacity 0, .WithMaxSize 10, .WithCapacity 16]
        = .ok nr ∧
      nr.Cap = 16 ∧ nr.MaxSize = 10 ∧ nr.IsCoalescing = false :=
  ⟨(C14_NewNodeRecorder_outcome "test-node" []).2.2.1 (by decide) (by simp),
    (C14_NewNodeRecorder_outcome "test-node"
      [.WithCapacity 0, .WithMaxSize 10, .WithCapacity 16]).2.2.2 (by decide) (by decide)⟩

/-- C15. `NewRecorder` fails with `ErrInvalidNodeCount` exactly when the node cap the
options ask for is below 1; otherwise it fails with `ErrInvalidCapacity` exactly when
the per-node capacity they ask for is below 1; otherwise it succeeds, `MaxNodes()` and
`Cap()` are the values asked for (1023 and 1 when not given), and `CountNodes()` and
`Len()` are 0. -/
theorem C15_NewRecorder_outcome (opts : List RecorderOption) :
    (NewRecorder opts = .error .ErrInvalidNodeCount ↔ configuredMaxNodes opts < 1) ∧
    (¬ configuredMaxNodes opts < 1 →
      (NewRecorder opts = .error .ErrInvalidCapacity ↔ configuredNodeCapacity opts < 1)) ∧
    (¬ configuredMaxNodes opts < 1 → ¬ configuredNodeCapacity opts < 1 →
      ∃ rr : Recorder, NewRecorder opts = .ok rr ∧ rr.MaxNodes = configuredMaxNodes opts ∧
        rr.Cap = configuredNodeCapacity opts ∧ rr.CountNodes = 0 ∧ rr.Len = 0) ∧
    ((∀ o ∈ opts, ∀ n : Int, o ≠ .WithMaxNodes n) → configuredMaxNodes opts = 1023) ∧
    ((∀ o ∈ opts, ∀ c : Int, o ≠ .WithNodeCapacity c) → configuredNodeCapacity opts = 1) := by
  obtain ⟨hn, hc⟩ := foldl_apply_recorder_configured opts
    { nodes := ∅, nodeCapacity := 1, maxNodes := DefaultMaxNodes, maxSize := 0,
      coalesceLast := false }
  have hnodes := foldl_apply_nodes opts
    { nodes := ∅, nodeCapacity := 1, maxNodes := DefaultMaxNodes, maxSize := 0,
      coalesceLast := false }
  simp only at hn hc hnodes
  refine ⟨?_, ?_, ?_, ?_, ?_⟩
  · unfold NewRecorder configuredMaxNodes
    simp only [hn]
    split_ifs with h1 h2 <;> simp [h1]
  · intro hok
    unfold configuredMaxNodes at hok
    unfold NewRecorder configuredNodeCapacity
    simp only [hn, hc, hok, if_false]
    split_ifs with h2 <;> simp [h2]
  · intro hok1 hok2
    unfold configuredMaxNodes at hok1
    unfold configuredNodeCapacity at hok2
    unfold NewRecorder configuredMaxNodes configuredNodeCapacity
    simp only [hn, hc, hok1, hok2, if_false]
    refine ⟨_, rfl, by simp only [Recorder.MaxNodes, hn], by simp only [Recorder.Cap, hc], ?_, ?_⟩
    · simp only [Recorder.CountNodes, hnodes, Finmap.keys_empty, Finset.card_empty]
      rfl
    · simp only [Recorder.Len, hnodes]
      rfl
  · intro hnone
    have hempty : (opts.filterMap fun o =>
        match o with | .WithMaxNodes n => some n | _ => none) = [] := by
      rw [List.filterMap_eq_nil_iff]
      intro o ho
      cases o with
      | WithMaxNodes n => exact absurd rfl (hnone _ ho n)
      | WithNodeCapacity _ => rfl
      | WithPFPCoalescing _ => rfl
      | WithMaxSizePerNode _ => rfl
    simp [configuredMaxNodes, hempty, lastOr_nil, DefaultMaxNodes]
  · intro hnone
    have hempty : (opts.filterMap fun o =>
        match o with | .WithNodeCapacity c => some c | _ => none) = [] := by
      rw [List.filterMap_eq_nil_iff]
      intro o ho
      cases o with
      | WithNodeCapacity c => exact absurd rfl (hnone _ ho c)
      | WithMaxNodes _ => rfl
      | WithPFPCoalescing _ => rfl
      | WithMaxSizePerNode _ => rfl
    simp [configuredNodeCapacity, hempty, lastOr_nil]

/-- C15 at `TestRecorderCreate` and at both cases of `TestRecorderCreateInvalid`. -/
theorem C15_NewRecorder_outcome_witness :
    (∃ rr : Recorder, NewRecorder [.WithMaxNodes 8, .WithNodeCapacity 16] = .ok rr ∧
      rr.MaxNodes = 8 ∧ rr.Cap = 16 ∧ rr.CountNodes = 0 ∧ rr.Len = 0) ∧
    NewRecorder [.WithMaxNodes 8, .WithNodeCapacity 0] = .error .ErrInvalidCapacity ∧
    NewRecorder [.WithMaxNodes 0, .WithNodeCapacity 32] = .error .ErrInvalidNodeCount :=
  ⟨(C15_NewRecorder_outcome [.WithMaxNodes 8, .WithNodeCapacity 16]).2.2.1 (by decide)
      (by decide),
    ((C15_NewRecorder_outcome [.WithMaxNodes 8, .WithNodeCapacity 0]).2.1 (by decide)).mpr
      (by decide),
    (C15_NewRecorder_outcome [.WithMaxNodes 0, .WithNodeCapacity 32]).1.mpr (by decide)⟩

/-! ## Sequences of pushes into a `Recorder` -/

/-- A returning `Push` on a well-formed `Recorder` either returns `nil`, having bound the
status's non-empty node name, or returns an error and the recorder as it was. -/
theorem Recorder_Push_cases (fmtLen : Formatter) (rr : Recorder) (st : Status) (ts : Time)
    (wf : rr.WellFormed fmtLen) :
    ∃ (rr1 : Recorder) (err : Option Error),
      rr.Push fmtLen st ts = .ret (rr1, err) ∧ rr1.WellFormed fmtLen ∧
      ((err = none ∧ st.NodeName ≠ "" ∧
          ∃ nr1 : NodeRecorder, rr1 = { rr with nodes := rr.nodes.insert st.NodeName nr1 }) ∨
        (err ≠ none ∧ rr1 = rr)) := by
  by_cases hne : st.NodeName = ""
  · refine ⟨rr, some .ErrMissingNode, ?_, wf, Or.inr ⟨by simp, rfl⟩⟩
    simp [Recorder.Push, hne]
  unfold Recorder.Push
  rw [if_neg hne]
  cases hlook : rr.nodes.lookup st.NodeName with
  | some nr =>
    have hmem : st.NodeName ∈ rr.nodes.keys := by
      rw [Finmap.mem_keys, ← Finmap.lookup_isSome, hlook]; rfl
    obtain ⟨hname, hnr⟩ := wf.nodes_wf _ _ hlook
    obtain ⟨nr1, hrun, wf1⟩ := pushInto_wellFormed fmtLen rr nr st ts wf hnr hname (Or.inl hmem)
    exact ⟨_, none, hrun, wf1, Or.inl ⟨rfl, hne, nr1, rfl⟩⟩
  | none =>
    simp only
    by_cases hfull : rr.CountNodes ≥ rr.maxNodes
    · have hreached : rr.maxCapacityReached = true := by
        simp [Recorder.maxCapacityReached, hfull]
      rw [if_pos hreached]
      exact ⟨rr, some .ErrTooManyNodes, rfl, wf, Or.inr ⟨by simp, rfl⟩⟩
    · have hreached : ¬ (rr.maxCapacityReached = true) := by
        simp [Recorder.maxCapacityReached, hfull]
      rw [if_neg hreached]
      have hlt : rr.CountNodes < rr.MaxNodes := by
        simp only [Recorder.MaxNodes]; omega
      obtain ⟨nr, hnew, hname, hnr⟩ := NewNodeRecorder_for_node fmtLen rr st.NodeName hne
        wf.cap_pos
      obtain ⟨nr1, hrun, wf1⟩ := pushInto_wellFormed fmtLen rr nr st ts wf hnr hname
        (Or.inr hlt)
      rw [hnew]
      exact ⟨_, none, hrun, wf1, Or.inl ⟨rfl, hne, nr1, rfl⟩⟩

theorem pushedOk_nil (name : String) (errs : List (Option Error)) :
    pushedOk name [] errs = false := by
  simp [pushedOk]

theorem pushedOk_cons (name : String) (st : Status) (ts : Time) (rest : List (Status × Time))
    (err : Option Error) (errs : List (Option Error)) :
    pushedOk name ((st, ts) :: rest) (err :: errs)
      = ((decide (st.NodeName = name) && err.isNone) || pushedOk name rest errs) := by
  simp [pushedOk]

/-- After a sequence of pushes into a well-formed `Recorder`, the known node names are
those known before and those that a push carried and that push returned `nil`. -/
theorem pushAll_known (fmtLen : Formatter) (pushes : List (Status × Time)) :
    ∀ (rr rr1 : Recorder) (errs : List (Option Error)), rr.WellFormed fmtLen →
      rr.pushAll fmtLen pushes = .ret (rr1, errs) →
      rr1.WellFormed fmtLen ∧
      ∀ name : String,
        name ∈ rr1.nodes.keys ↔ (name ∈ rr.nodes.keys ∨ pushedOk name pushes errs = true) := by
  induction pushes with
  | nil =>
    intro rr rr1 errs wf hrun
    simp only [Recorder.pushAll] at hrun
    injection hrun with hrun
    injection hrun with h1 h2
    subst h1
    exact ⟨wf, fun name => by simp [pushedOk_nil]⟩
  | cons p rest ih =>
    intro rr rr2 errs wf hrun
    obtain ⟨st, ts⟩ := p
    obtain ⟨rr1, err, hpush, wf1, hcase⟩ := Recorder_Push_cases fmtLen rr st ts wf
    simp only [Recorder.pushAll, hpush] at hrun
    cases hrest : rr1.pushAll fmtLen rest with
    | panics => rw [hrest] at hrun; cases hrun
    | diverges => rw [hrest] at hrun; cases hrun
    | ret res =>
      obtain ⟨rr3, errs3⟩ := res
      rw [hrest] at hrun
      injection hrun with hrun
      injection hrun with h1 h2
      subst h1 h2
      obtain ⟨wf3, hkeys⟩ := ih rr1 rr3 errs3 wf1 hrest
      refine ⟨wf3, fun name => ?_⟩
      rw [hkeys name, pushedOk_cons]
      rcases hcase with ⟨herr, _, nr1, hshape⟩ | ⟨herr, hsame⟩
      · subst herr hshape
        simp only [keys_insert, Finset.mem_insert, Option.isNone_none, Bool.and_true,
          Bool.or_eq_true, decide_eq_true_eq]
        constructor
        · rintro ((h | h) | h)
          · exact Or.inr (Or.inl h.symm)
          · exact Or.inl h
          · exact Or.inr (Or.inr h)
        · rintro (h | h | h)
          · exact Or.inl (Or.inr h)
          · exact Or.inl (Or.inl h.symm)
          · exact Or.inr h
      · subst hsame
        have hfalse : err.isNone = false := by
          cases err with
          | none => exact absurd rfl herr
          | some e => rfl
        simp [hfalse]

/-! ## C16: `ContentForNode` -/

/-- C16. In a state reached from a successful `NewRecorder` by a sequence of pushes,
`ContentForNode` of a node name returns the empty sequence and `false` if no push for
that name returned `nil`, and otherwise the `Content()` of the `NodeRecorder` bound to
the name and `true`. It is a total read of the `Recorder`: it returns no error and
yields no new state. -/
theorem C16_ContentForNode (fmtLen : Formatter) (opts : List RecorderOption)
    (rr0 rr : Recorder) (pushes : List (Status × Time)) (errs : List (Option Error))
    (hnew : NewRecorder opts = .ok rr0) (hrun : rr0.pushAll fmtLen pushes = .ret (rr, errs))
    (name : String) :
    (pushedOk name pushes errs = false →
      rr.ContentForNode name = ([], false) ∧ rr.nodes.lookup name = none) ∧
    (pushedOk name pushes errs = true →
      ∃ nr : NodeRecorder, rr.nodes.lookup name = some nr ∧ nr.nodeName = name ∧
        rr.ContentForNode name = (nr.Content, true)) := by
  have wf0 := NewRecorder_wellFormed fmtLen opts rr0 hnew
  obtain ⟨wf, hkeys⟩ := pushAll_known fmtLen pushes rr0 rr errs wf0 hrun
  have hempty : ∀ n : String, n ∉ rr0.nodes.keys := by
    intro n hn
    have hnodes : rr0.nodes = ∅ := by
      unfold NewRecorder at hnew
      simp only at hnew
      split_ifs at hnew
      injection hnew with hnew
      rw [← hnew, foldl_apply_nodes]
    rw [hnodes] at hn
    simp at hn
  constructor
  · intro hnot
    have hnk : name ∉ rr.nodes.keys := by
      rw [hkeys name]
      rintro (h | h)
      · exact hempty name h
      · rw [hnot] at h; cases h
    have hlook : rr.nodes.lookup name = none := by
      rw [Finmap.lookup_eq_none, ← Finmap.mem_keys]; exact hnk
    exact ⟨by simp only [Recorder.ContentForNode, hlook], hlook⟩
  · intro hok
    have hk : name ∈ rr.nodes.keys := (hkeys name).mpr (Or.inr hok)
    rw [Finmap.mem_keys, ← Finmap.lookup_isSome] at hk
    cases hlook : rr.nodes.lookup name with
    | none => rw [hlook] at hk; cases hk
    | some nr =>
      exact ⟨nr, rfl, (wf.nodes_wf name nr hlook).1, by simp only [Recorder.ContentForNode, hlook]⟩

/-- C16 at the one-node recorder after pushes for `node-0` (stored) and `node-1`
(rejected): `node-1` is reported as not found, `node-0` with its content. -/
theorem C16_ContentForNode_witness :
    oneNodeRecorder1.ContentForNode "node-1" = ([], false) ∧
    ∃ nr : NodeRecorder, oneNodeRecorder1.nodes.lookup "node-0" = some nr ∧
      nr.nodeName = "node-0" ∧ oneNodeRecorder1.ContentForNode "node-0" = (nr.Content, true) :=
  have hrun : oneNodeRecorder.pushAll sampleFmtLen
      [(statusOf "node-0" "", 1), (statusOf "node-1" "", 2)]
      = .ret (oneNodeRecorder1, [none, some .ErrTooManyNodes]) := by decide
  ⟨((C16_ContentForNode sampleFmtLen [.WithMaxNodes 1, .WithNodeCapacity 16] oneNodeRecorder
      oneNodeRecorder1 _ _ rfl hrun "node-1").1 (by decide)).1,
    (C16_ContentForNode sampleFmtLen [.WithMaxNodes 1, .WithNodeCapacity 16] oneNodeRecorder
      oneNodeRecorder1 _ _ rfl hrun "node-0").2 (by decide)⟩

/-! ## C18: a rejected node name stays rejected -/

theorem NodeRecorder_Push_not_tooMany (fmtLen : Formatter) (nr nr1 : NodeRecorder)
    (st : Status) (ts : Time) (err : Option Error)
    (h : nr.Push fmtLen st ts = .ret (nr1, err)) : err ≠ some .ErrTooManyNodes := by
  unfold NodeRecorder.Push at h
  split_ifs at h with h1 h2 h3 h4
  · injection h with h; injection h with _ h; rw [← h]; simp
  · injection h with h; injection h with _ h; rw [← h]; simp
  · injection h with h; injection h with _ h; rw [← h]; simp
  · simp only at h
    split at h
    · cases h
    · injection h with h; injection h with _ h; rw [← h]; simp
  · simp only at h
    split at h
    · injection h with h; injection h with _ h; rw [← h]; simp
    · cases h
    · cases h

theorem NewNodeRecorder_not_tooMany (nodeName : String) (opts : List NodeOption)
    (err : Error) (h : NewNodeRecorder nodeName opts = .error err) :
    err ≠ .ErrTooManyNodes := by
  unfold NewNodeRecorder at h
  simp only at h
  split_ifs at h <;> (injection h with h; rw [← h]; simp)

/-- The situation in which `Recorder.Push` answers `ErrTooManyNodes` for `name`. -/
theorem Recorder_Push_tooMany_iff (fmtLen : Formatter) (rr rr1 : Recorder) (st : Status)
    (ts : Time) :
    rr.Push fmtLen st ts = .ret (rr1, some .ErrTooManyNodes) ↔
      (rr1 = rr ∧ st.NodeName ≠ "" ∧ rr.nodes.lookup st.NodeName = none ∧
        rr.CountNodes ≥ rr.MaxNodes) := by
  unfold Recorder.Push
  by_cases hne : st.NodeName = ""
  · simp [hne]
  rw [if_neg hne]
  cases hlook : rr.nodes.lookup st.NodeName with
  | some nr =>
    simp only [Recorder.pushInto]
    constructor
    · intro h
      cases hp : nr.Push fmtLen st ts with
      | panics => rw [hp] at h; cases h
      | diverges => rw [hp] at h; cases h
      | ret res =>
        obtain ⟨nr1, err⟩ := res
        rw [hp] at h
        injection h with h
        injection h with _ h
        exact absurd h (NodeRecorder_Push_not_tooMany fmtLen nr nr1 st ts err hp)
    · rintro ⟨_, _, h, _⟩
      cases h
  | none =>
    simp only [Recorder.maxCapacityReached, Recorder.MaxNodes, decide_eq_true_eq]
    by_cases hfull : rr.CountNodes ≥ rr.maxNodes
    · rw [if_pos hfull]
      constructor
      · intro h
        injection h with h
        injection h with h _
        exact ⟨h.symm, hne, trivial, hfull⟩
      · rintro ⟨h, _⟩
        rw [h]
    · rw [if_neg hfull]
      constructor
      · intro h
        exfalso
        cases hnew : NewNodeRecorder st.NodeName
            [.WithCapacity rr.nodeCapacity, .WithMaxSize rr.maxSize,
              .WithCoalescing rr.coalesceLast] with
        | error e =>
          rw [hnew] at h
          injection h with h
          injection h with _ h
          injection h with h
          exact NewNodeRecorder_not_tooMany _ _ e hnew h
        | ok nr =>
          rw [hnew] at h
          simp only [Recorder.pushInto] at h
          cases hp : nr.Push fmtLen st ts with
          | panics => rw [hp] at h; cases h
          | diverges => rw [hp] at h; cases h
          | ret res =>
            obtain ⟨nr1, err⟩ := res
            rw [hp] at h
            injection h with h
            injection h with _ h
            exact NodeRecorder_Push_not_tooMany fmtLen nr nr1 st ts err hp h
      · rintro ⟨_, _, _, h⟩
        exact absurd h hfull

/-- At the node cap a returning `Push` leaves the set of known names and the cap as they
were, whatever the status is. -/
theorem Recorder_Push_at_cap (fmtLen : Formatter) (rr rr1 : Recorder) (st : Status) (ts : Time)
    (err : Option Error) (hfull : rr.CountNodes ≥ rr.MaxNodes)
    (h : rr.Push fmtLen st ts = .ret (rr1, err)) :
    rr1.nodes.keys = rr.nodes.keys ∧ rr1.maxNodes = rr.maxNodes := by
  unfold Recorder.Push at h
  by_cases hne : st.NodeName = ""
  · rw [if_pos hne] at h
    injection h with h
    injection h with h _
    rw [← h]
    exact ⟨rfl, rfl⟩
  rw [if_neg hne] at h
  cases hlook : rr.nodes.lookup st.NodeName with
  | some nr =>
    have hmem : st.NodeName ∈ rr.nodes.keys := by
      rw [Finmap.mem_keys, ← Finmap.lookup_isSome, hlook]; rfl
    rw [hlook] at h
    simp only [Recorder.pushInto] at h
    cases hp : nr.Push fmtLen st ts with
    | panics => rw [hp] at h; cases h
    | diverges => rw [hp] at h; cases h
    | ret res =>
      obtain ⟨nr1, e⟩ := res
      rw [hp] at h
      injection h with h
      injection h with h _
      rw [← h]
      exact ⟨by simp only [keys_insert, Finset.insert_eq_of_mem hmem], rfl⟩
  | none =>
    rw [hlook] at h
    have hreached : rr.maxCapacityReached = true := by
      simp only [Recorder.MaxNodes] at hfull
      simp [Recorder.maxCapacityReached, hfull]
    simp only [hreached, if_true] at h
    injection h with h
    injection h with h _
    rw [← h]
    exact ⟨rfl, rfl⟩

theorem Recorder_pushAll_at_cap (fmtLen : Formatter) (pushes : List (Status × Time)) :
    ∀ (rr rr1 : Recorder) (errs : List (Option Error)), rr.CountNodes ≥ rr.MaxNodes →
      rr.pushAll fmtLen pushes = .ret (rr1, errs) →
      rr1.nodes.keys = rr.nodes.keys ∧ rr1.maxNodes = rr.maxNodes := by
  induction pushes with
  | nil =>
    intro rr rr1 errs _ hrun
    simp only [Recorder.pushAll] at hrun
    injection hrun with hrun
    injection hrun with h1 _
    rw [← h1]
    exact ⟨rfl, rfl⟩
  | cons p rest ih =>
    intro rr rr2 errs hfull hrun
    obtain ⟨st, ts⟩ := p
    simp only [Recorder.pushAll] at hrun
    cases hp : rr.Push fmtLen st ts with
    | panics => rw [hp] at hrun; cases hrun
    | diverges => rw [hp] at hrun; cases hrun
    | ret res =>
      obtain ⟨rr1, err⟩ := res
      rw [hp] at hrun
      simp only at hrun
      obtain ⟨hk1, hm1⟩ := Recorder_Push_at_cap fmtLen rr rr1 st ts err hfull hp
      have hfull1 : rr1.CountNodes ≥ rr1.MaxNodes := by
        simp only [Recorder.CountNodes, Recorder.MaxNodes, hk1, hm1] at hfull ⊢
        exact hfull
      cases hrest : rr1.pushAll fmtLen rest with
      | panics => rw [hrest] at hrun; cases hrun
      | diverges => rw [hrest] at hrun; cases hrun
      | ret res2 =>
        obtain ⟨rr3, errs3⟩ := res2
        rw [hrest] at hrun
        injection hrun with hrun
        injection hrun with h1 _
        subst h1
        obtain ⟨hk3, hm3⟩ := ih rr1 rr3 errs3 hfull1 hrest
        exact ⟨hk3.trans hk1, hm3.trans hm1⟩

/-- C18. Once `Recorder.Push` for a node name has returned `ErrTooManyNodes`, every later
`Push` for that name on the same `Recorder` returns `ErrTooManyNodes` too, whatever
pushes are made in between: they leave the set of known names as it is, so the node
count stays at the cap. -/
theorem C18_tooManyNodes_is_permanent (fmtLen : Formatter) (rr rr1 rr2 : Recorder)
    (st st2 : Status) (ts ts2 : Time) (between : List (Status × Time))
    (errs : List (Option Error))
    (hfail : rr.Push fmtLen st ts = .ret (rr1, some .ErrTooManyNodes))
    (hrun : rr1.pushAll fmtLen between = .ret (rr2, errs))
    (hsame : st2.NodeName = st.NodeName) :
    rr2.Push fmtLen st2 ts2 = .ret (rr2, some .ErrTooManyNodes) ∧
      rr2.CountNodes ≥ rr2.MaxNodes ∧
      ∀ name : String, (rr2.ContentForNode name).2 = (rr.ContentForNode name).2 := by
  obtain ⟨h1, hne, hlook, hfull⟩ := (Recorder_Push_tooMany_iff fmtLen rr rr1 st ts).mp hfail
  subst h1
  obtain ⟨hk, hm⟩ := Recorder_pushAll_at_cap fmtLen between rr1 rr2 errs hfull hrun
  have hfull2 : rr2.CountNodes ≥ rr2.MaxNodes := by
    simp only [Recorder.CountNodes, Recorder.MaxNodes, hk, hm] at hfull ⊢
    exact hfull
  have hknown : ∀ name : String,
      (rr2.ContentForNode name).2 = (rr1.ContentForNode name).2 := by
    intro name
    have h2 := known_iff_mem_keys rr2 name
    have h1 := known_iff_mem_keys rr1 name
    rw [hk] at h2
    cases ha : (rr2.ContentForNode name).2 <;> cases hb : (rr1.ContentForNode name).2 <;>
      simp_all
  refine ⟨?_, hfull2, hknown⟩
  rw [Recorder_Push_tooMany_iff]
  refine ⟨rfl, hsame ▸ hne, ?_, hfull2⟩
  rw [Finmap.lookup_eq_none, ← Finmap.mem_keys, hk, Finmap.mem_keys, ← Finmap.lookup_eq_none,
    hsame]
  exact hlook

/-- C18 at the one-node recorder: `node-1` is rejected, `node-0` and `node-2` are pushed,
and `node-1` is rejected again. -/
theorem C18_tooManyNodes_is_permanent_witness :
    ∃ rr2 : Recorder,
      oneNodeRecorder1.pushAll sampleFmtLen
        [(statusOf "node-0" "v1", 3), (statusOf "node-2" "", 4)]
        = .ret (rr2, [none, some .ErrTooManyNodes]) ∧
      rr2.Push sampleFmtLen (statusOf "node-1" "later") 5
        = .ret (rr2, some .ErrTooManyNodes) ∧
      rr2.CountNodes ≥ rr2.MaxNodes :=
  have hrun : oneNodeRecorder1.pushAll sampleFmtLen
      [(statusOf "node-0" "v1", 3), (statusOf "node-2" "", 4)]
      = .ret ({ oneNodeRecorder with
          nodes := Finmap.singleton "node-0"
            { nodeName := "node-0", capacity := 16, maxSize := 0, size := 64,
              statuses := [newItem sampleFmtLen (statusOf "node-0" "") 1,
                newItem sampleFmtLen (statusOf "node-0" "v1") 3],
              coalesceLast := false } }, [none, some .ErrTooManyNodes]) := by decide
  have hall := C18_tooManyNodes_is_permanent sampleFmtLen oneNodeRecorder1 oneNodeRecorder1 _
    (statusOf "node-1" "") (statusOf "node-1" "later") 2 5 _ _ (by decide) hrun rfl
  ⟨_, hrun, hall.1, hall.2.1⟩

/-! ## C17: counting records per node -/

theorem foldl_add_eq_sum (l : List Int) (d : Int) :
    l.foldl (fun acc x => acc + x) d = d + l.sum := by
  induction l generalizing d with
  | nil => simp
  | cons x l ih => simp [ih, add_assoc]

/-- `Recorder.Len` is the sum of `CountRecords` over the known node names. -/
theorem Recorder_Len_eq_sum (rr : Recorder) :
    rr.Len = ∑ n in rr.nodes.keys, rr.CountRecords n := by
  obtain ⟨nodes, nodeCapacity, maxNodes, maxSize, coalesceLast⟩ := rr
  simp only [Recorder.Len, Recorder.CountRecords]
  induction nodes using Finmap.induction_on with
  | H s =>
    have hsum : ∑ n in Finmap.keys (AList.toFinmap s),
        (match Finmap.lookup n (AList.toFinmap s) with
          | none => (0 : Int)
          | some nr => nr.Len)
        = (s.entries.map fun e => e.2.Len).sum := by
      rw [Finset.sum_eq_multiset_sum, Finmap.keys_val, Multiset.map_coe, Multiset.sum_coe]
      simp only [Finmap.lookup_toFinmap, AList.keys, List.keys, List.map_map]
      congr 1
      apply List.map_congr_left
      intro e he
      have : s.lookup e.1 = some e.2 := by
        rw [← Option.mem_def, AList.mem_lookup_iff]
        exact he
      simp [this]
    rw [hsum]
    simp only [Finmap.foldl, AList.toFinmap_entries, Multiset.coe_foldl]
    have := foldl_add_eq_sum (s.entries.map fun e => e.2.Len) 0
    simp only [List.foldl_map, zero_add] at this
    exact this

theorem NewNodeRecorder_for_node_fields (nodeName : String) (cap maxSize : Int) (co : Bool)
    (nr : NodeRecorder)
    (h : NewNodeRecorder nodeName [.WithCapacity cap, .WithMaxSize maxSize, .WithCoalescing co]
      = .ok nr) :
    nr.capacity = cap ∧ nr.maxSize = maxSize ∧ nr.coalesceLast = co := by
  unfold NewNodeRecorder at h
  simp only [List.foldl, NodeOption.apply] at h
  split_ifs at h <;> (injection h with h; subst h; exact ⟨rfl, rfl, rfl⟩)

/-- The delegated push of `Recorder.Push` in a recorder without size limit and
coalescing: the node's entry count goes up by one, up to the capacity. -/
theorem pushInto_counted (fmtLen : Formatter) (rr : Recorder) (nr : NodeRecorder) (st : Status)
    (ts : Time) (c : Nat) (wf : rr.WellFormed fmtLen) (hnr : nr.WellFormed fmtLen)
    (hname : nr.nodeName = st.NodeName)
    (hroom : st.NodeName ∈ rr.nodes.keys ∨ rr.CountNodes < rr.MaxNodes)
    (hcap : nr.capacity = (c : Int)) (hmax : nr.maxSize = 0) (hco : nr.coalesceLast = false) :
    ∃ nr1 : NodeRecorder,
      rr.pushInto fmtLen nr st ts
        = .ret ({ rr with nodes := rr.nodes.insert st.NodeName nr1 }, none) ∧
      Recorder.WellFormed fmtLen { rr with nodes := rr.nodes.insert st.NodeName nr1 } ∧
      nr1.capacity = (c : Int) ∧ nr1.maxSize = 0 ∧ nr1.coalesceLast = false ∧
      nr1.statuses.length = min c (nr.statuses.length + 1) := by
  have hc : 1 ≤ c := by have := hnr.cap_pos; omega
  have hlen : nr.statuses.length ≤ c := by
    have := hnr.len_le
    simp only [NodeRecorder.Len, NodeRecorder.Cap] at this
    omega
  have hone : c = 1 → nr.statuses.length = 1 := fun h => hnr.slot (by omega)
  obtain ⟨sz, hpush⟩ := Push_unlimited fmtLen nr st ts c hname.symm (hname ▸ hnr.name_ne) hco
    hmax hcap hlen hone hc
  obtain ⟨nr1, hrun, wf1⟩ := pushInto_wellFormed fmtLen rr nr st ts wf hnr hname hroom
  obtain ⟨nr2, hnr2⟩ : ∃ x : NodeRecorder, x =
      { nr with statuses := keepLast c (nr.statuses ++ [newItem fmtLen st ts]), size := sz } :=
    ⟨_, rfl⟩
  rw [← hnr2] at hpush
  have hrun2 : rr.pushInto fmtLen nr st ts
      = .ret ({ rr with nodes := rr.nodes.insert st.NodeName nr2 }, none) := by
    simp only [Recorder.pushInto, hpush]
  rw [hrun2] at hrun
  injection hrun with hrun
  injection hrun with hrun _
  refine ⟨nr2, hrun2, hrun ▸ wf1, ?_, ?_, ?_, ?_⟩
  · rw [hnr2]; exact hcap
  · rw [hnr2]; exact hmax
  · rw [hnr2]; exact hco
  · rw [hnr2]
    simp only [keepLast_length, List.length_append, List.length_singleton]

/-- One push into a counted recorder that has room for the node name. -/
theorem Push_counted (fmtLen : Formatter) (rr : Recorder) (c : Nat) (hist : List String)
    (st : Status) (ts : Time) (hinv : rr.Counted fmtLen c hist) (hne : st.NodeName ≠ "")
    (hroom : (((insert st.NodeName hist.toFinset).card : Nat) : Int) ≤ rr.maxNodes) :
    ∃ rr1 : Recorder, rr.Push fmtLen st ts = .ret (rr1, none) ∧
      rr1.Counted fmtLen c (hist ++ [st.NodeName]) ∧ rr1.maxNodes = rr.maxNodes := by
  have hc : 1 ≤ c := by have := hinv.wf.cap_pos; have := hinv.cap; omega
  have hcounted : ∀ (nr nr1 : NodeRecorder),
      Recorder.WellFormed fmtLen { rr with nodes := rr.nodes.insert st.NodeName nr1 } →
      nr1.capacity = (c : Int) → nr1.maxSize = 0 → nr1.coalesceLast = false →
      nr1.statuses.length = min c (hist.count st.NodeName + 1) →
      Recorder.Counted fmtLen { rr with nodes := rr.nodes.insert st.NodeName nr1 } c
        (hist ++ [st.NodeName]) := by
    intro nr nr1 wf1 h1 h2 h3 h4
    refine ⟨wf1, hinv.cap, hinv.unlimited, hinv.plain, ?_, ?_⟩
    · simp only [keys_insert, hinv.keys]
      ext x
      simp only [Finset.mem_insert, List.mem_toFinset, List.mem_append, List.mem_singleton]
      tauto
    · intro n nr2 hlook
      simp only [lookup_insert_eq] at hlook
      split_ifs at hlook with hn
      · injection hlook with hlook
        subst hlook hn
        refine ⟨h1, h2, h3, ?_⟩
        rw [h4, List.count_append, List.count_singleton_self]
      · obtain ⟨g1, g2, g3, g4⟩ := hinv.nodes n nr2 hlook
        refine ⟨g1, g2, g3, ?_⟩
        have hnn : st.NodeName ≠ n := fun h => hn h.symm
        rw [g4, List.count_append, List.count_singleton, if_neg (by simpa using hnn)]
        simp
  unfold Recorder.Push
  rw [if_neg hne]
  cases hlook : rr.nodes.lookup st.NodeName with
  | some nr =>
    have hmem : st.NodeName ∈ rr.nodes.keys := by
      rw [Finmap.mem_keys, ← Finmap.lookup_isSome, hlook]; rfl
    obtain ⟨hname, hnr⟩ := hinv.wf.nodes_wf _ _ hlook
    obtain ⟨g1, g2, g3, g4⟩ := hinv.nodes _ _ hlook
    obtain ⟨nr1, hrun, wf1, k1, k2, k3, k4⟩ := pushInto_counted fmtLen rr nr st ts c hinv.wf hnr
      hname (Or.inl hmem) g1 g2 g3
    refine ⟨_, hrun, hcounted nr nr1 wf1 k1 k2 k3 ?_, rfl⟩
    have hpos : 0 < hist.count st.NodeName := by
      rw [List.count_pos_iff]
      rw [hinv.keys, List.mem_toFinset] at hmem
      exact hmem
    rw [k4, g4]
    omega
  | none =>
    have hnmem : st.NodeName ∉ rr.nodes.keys := by
      rw [Finmap.mem_keys, ← Finmap.lookup_eq_none]; exact hlook
    have hcard : (insert st.NodeName hist.toFinset).card = hist.toFinset.card + 1 := by
      rw [Finset.card_insert_of_not_mem]
      rw [← hinv.keys]; exact hnmem
    have hlt : rr.CountNodes < rr.MaxNodes := by
      simp only [Recorder.CountNodes, Recorder.MaxNodes, hinv.keys]
      rw [hcard] at hroom
      push_cast at hroom ⊢
      omega
    have hreached : ¬ (rr.maxCapacityReached = true) := by
      simp only [Recorder.MaxNodes] at hlt
      simp only [Recorder.maxCapacityReached, decide_eq_true_eq]
      omega
    simp only
    rw [if_neg hreached]
    obtain ⟨nr, hnew, hname, hnr⟩ := NewNodeRecorder_for_node fmtLen rr st.NodeName hne
      hinv.wf.cap_pos
    obtain ⟨f1, f2, f3⟩ := NewNodeRecorder_for_node_fields _ _ _ _ nr hnew
    obtain ⟨_, _, _, _, hst1, hst0⟩ := NewNodeRecorder_ok _ _ nr hnew
    rw [hnew]
    obtain ⟨nr1, hrun, wf1, k1, k2, k3, k4⟩ := pushInto_counted fmtLen rr nr st ts c hinv.wf hnr
      hname (Or.inr hlt) (f1.trans hinv.cap) (f2.trans hinv.unlimited) (f3.trans hinv.plain)
    refine ⟨_, hrun, hcounted nr nr1 wf1 k1 k2 k3 ?_, rfl⟩
    have hzero : hist.count st.NodeName = 0 := by
      rw [List.count_eq_zero]
      rw [hinv.keys, List.mem_toFinset] at hnmem
      exact hnmem
    rw [k4, hzero]
    by_cases h1 : nr.capacity = 1
    · rw [hst1 h1]
      have : c = 1 := by have := hinv.cap; omega
      subst this
      simp
    · rw [hst0 h1]
      simp

theorem NewRecorder_nodes_empty (opts : List RecorderOption) (rr : Recorder)
    (h : NewRecorder opts = .ok rr) : rr.nodes = ∅ := by
  unfold NewRecorder at h
  simp only at h
  split_ifs at h
  injection h with h
  rw [← h, foldl_apply_nodes]

/-- A sequence of pushes with non-empty node names into a counted recorder that has room
for all the names: every push returns `nil` and the recorder stays counted. -/
theorem pushAll_counted (fmtLen : Formatter) (c : Nat) (pushes : List (Status × Time)) :
    ∀ (hist : List String) (rr : Recorder), rr.Counted fmtLen c hist →
      (∀ p ∈ pushes, p.1.NodeName ≠ "") →
      ((((hist ++ pushes.map fun p => p.1.NodeName).toFinset.card : Nat) : Int)
        ≤ rr.maxNodes) →
      ∃ (rr1 : Recorder) (errs : List (Option Error)),
        rr.pushAll fmtLen pushes = .ret (rr1, errs) ∧ errs.length = pushes.length ∧
        (∀ e ∈ errs, e = none) ∧
        rr1.Counted fmtLen c (hist ++ pushes.map fun p => p.1.NodeName) := by
  induction pushes with
  | nil =>
    intro hist rr hinv _ _
    refine ⟨rr, [], rfl, rfl, by simp, ?_⟩
    simpa using hinv
  | cons p rest ih =>
    intro hist rr hinv hne hroom
    obtain ⟨st, ts⟩ := p
    have hsub : insert st.NodeName hist.toFinset
        ⊆ (hist ++ ((st, ts) :: rest).map fun p => p.1.NodeName).toFinset := by
      intro x hx
      simp only [Finset.mem_insert, List.mem_toFinset] at hx
      simp only [List.map_cons, List.mem_toFinset, List.mem_append, List.mem_cons]
      tauto
    have hroom1 : (((insert st.NodeName hist.toFinset).card : Nat) : Int) ≤ rr.maxNodes := by
      have := Finset.card_le_card hsub
      omega
    obtain ⟨rr1, hpush, hinv1, hm1⟩ := Push_counted fmtLen rr c hist st ts hinv
      (hne (st, ts) (List.mem_cons_self _ _)) hroom1
    have heq : hist ++ [st.NodeName] ++ rest.map (fun p => p.1.NodeName)
        = hist ++ ((st, ts) :: rest).map fun p => p.1.NodeName := by
      simp
    obtain ⟨rr2, errs, hrun, hlen, hall, hinv2⟩ := ih (hist ++ [st.NodeName]) rr1 hinv1
      (fun q hq => hne q (List.mem_cons_of_mem _ hq)) (by rw [heq, hm1]; exact hroom)
    refine ⟨rr2, none :: errs, ?_, by simp [hlen], ?_, heq ▸ hinv2⟩
    · simp only [Recorder.pushAll, hpush, hrun]
    · intro e he
      rcases List.mem_cons.mp he with h | h
      · exact h
      · exact hall e h

/-- C17. For a `Recorder` created with per-node capacity `C ≥ 1`, no size limit and
coalescing disabled, and a sequence of pushes with non-empty node names of which at most
`MaxNodes()` are distinct: every push returns `nil`, `CountNodes()` is the number of
distinct names pushed, `CountRecords(n)` is the smaller of `C` and the number of pushes
that carry `n` (0 for a name never pushed), and `Len()` is the sum of `CountRecords`
over the known names. -/
theorem C17_counts (fmtLen : Formatter) (opts : List RecorderOption) (rr0 : Recorder)
    (pushes : List (Status × Time)) (hnew : NewRecorder opts = .ok rr0)
    (hmax : rr0.MaxSize = 0) (hco : rr0.IsCoalescing = false)
    (hne : ∀ p ∈ pushes, p.1.NodeName ≠ "")
    (hdistinct : ((((pushes.map fun p => p.1.NodeName).toFinset.card : Nat) : Int)
      ≤ rr0.MaxNodes)) :
    ∃ (rr : Recorder) (errs : List (Option Error)),
      rr0.pushAll fmtLen pushes = .ret (rr, errs) ∧ errs.length = pushes.length ∧
      (∀ e ∈ errs, e = none) ∧
      rr.CountNodes = ((pushes.map fun p => p.1.NodeName).toFinset.card : Nat) ∧
      (∀ n : String, rr.CountRecords n
        = min rr0.Cap (((pushes.map fun p => p.1.NodeName).count n : Nat) : Int)) ∧
      (∀ n : String, n ∉ pushes.map (fun p => p.1.NodeName) → rr.CountRecords n = 0) ∧
      rr.Len = ∑ n in rr.nodes.keys, rr.CountRecords n := by
  have wf0 := NewRecorder_wellFormed fmtLen opts rr0 hnew
  have hnodes := NewRecorder_nodes_empty opts rr0 hnew
  obtain ⟨c, hc⟩ : ∃ c : Nat, rr0.nodeCapacity = (c : Int) :=
    ⟨rr0.nodeCapacity.toNat, by have := wf0.cap_pos; omega⟩
  have hc1 : 1 ≤ c := by have := wf0.cap_pos; omega
  have hinv0 : rr0.Counted fmtLen c [] := by
    refine ⟨wf0, hc, hmax, hco, ?_, ?_⟩
    · rw [hnodes]; rfl
    · intro n nr hlook
      rw [hnodes, Finmap.lookup_empty] at hlook
      cases hlook
  obtain ⟨rr, errs, hrun, hlen, hall, hinv⟩ := pushAll_counted fmtLen c pushes [] rr0 hinv0 hne
    (by simpa using hdistinct)
  simp only [List.nil_append] at hinv
  have hrec : ∀ n : String, rr.CountRecords n
      = min rr0.Cap (((pushes.map fun p => p.1.NodeName).count n : Nat) : Int) := by
    intro n
    simp only [Recorder.CountRecords, Recorder.Cap, hc]
    cases hlook : rr.nodes.lookup n with
    | none =>
      have hnk : n ∉ rr.nodes.keys := by
        rw [Finmap.mem_keys, ← Finmap.lookup_eq_none]; exact hlook
      rw [hinv.keys, List.mem_toFinset] at hnk
      rw [List.count_eq_zero.mpr hnk]
      simp
    | some nr =>
      obtain ⟨_, _, _, g4⟩ := hinv.nodes n nr hlook
      simp only [NodeRecorder.Len, g4]
      push_cast
      rfl
  refine ⟨rr, errs, hrun, hlen, hall, ?_, hrec, ?_, Recorder_Len_eq_sum rr⟩
  · simp only [Recorder.CountNodes, hinv.keys]
  · intro n hn
    rw [hrec n, List.count_eq_zero.mpr hn]
    simp only [Recorder.Cap, hc]
    simp

/-- C17 at `TestRecorderPushMultipleNodes`: three distinct names in four pushes. -/
theorem C17_counts_witness :
    ∃ (rr : Recorder) (errs : List (Option Error)),
      eightNodeRecorder.pushAll sampleFmtLen multiNodePushes = .ret (rr, errs) ∧
      errs.length = 4 ∧ (∀ e ∈ errs, e = none) ∧ rr.CountNodes = 3 ∧
      rr.CountRecords "node-0" = 2 ∧ rr.CountRecords "node-3" = 1 ∧
      rr.CountRecords "node-2" = 0 ∧
      rr.Len = ∑ n in rr.nodes.keys, rr.CountRecords n := by
  obtain ⟨rr, errs, h1, h2, h3, h4, h5, _, h7⟩ := C17_counts sampleFmtLen
    [.WithMaxNodes 8, .WithNodeCapacity 16] eightNodeRecorder multiNodePushes rfl rfl rfl
    (by decide) (by decide)
  refine ⟨rr, errs, h1, h2, h3, ?_, ?_, ?_, ?_, h7⟩
  · rw [h4]; decide
  · rw [h5]; decide
  · rw [h5]; decide
  · rw [h5]; decide

/-! ## C19: what `Content()` hands out -/

/-- C19, the failing input. On a capacity-1 recorder, the slice that `Content()` returns
after the push of `v0` shows the entry of `v0`; after the later push of `v1` the same
slice value shows the entry of `v1`: `Content()` returns the live slot, which `Push`
overwrites in place, and not a copy. -/
theorem C19_content_is_live_slot :
    Mem.NewNodeRecorder [] "test-node" [.WithCapacity 1] = .ok (slotHeap0, slotRecorder0) ∧
    slotRecorder0.Push sampleFmtLen sampleGrow slotHeap0 (statusOf "test-node" "v0") 1
      = .ret (slotHeap1, slotRecorder1, none) ∧
    slotHeap1.view slotRecorder1.Content
      = [newItem sampleFmtLen (statusOf "test-node" "v0") 1] ∧
    slotRecorder1.Push sampleFmtLen sampleGrow slotHeap1 (statusOf "test-node" "v1") 2
      = .ret (slotHeap2, slotRecorder1, none) ∧
    slotHeap2.view slotRecorder1.Content
      = [newItem sampleFmtLen (statusOf "test-node" "v1") 2] ∧
    slotHeap2.view slotRecorder1.Content ≠ slotHeap1.view slotRecorder1.Content := by
  refine ⟨rfl, by decide, by decide, by decide, by decide, by decide⟩

/-! ## The slice-level model stands for the list model -/

theorem view_length (h : Heap) (s : Slice) (hv : s.Valid h) : (h.view s).length = s.len := by
  obtain ⟨h1, h2⟩ := hv
  simp only [Heap.view, List.length_take, List.length_drop]
  omega

theorem view_tail (h : Heap) (s : Slice) : h.view s.tail = (h.view s).tail := by
  simp only [Heap.view, Slice.tail]
  rw [← List.drop_one, List.drop_take, List.drop_drop]

theorem valid_tail (h : Heap) (s : Slice) (hv : s.Valid h) (hlen : 1 ≤ s.len) :
    s.tail.Valid h := by
  obtain ⟨h1, h2⟩ := hv
  simp only [Slice.Valid, Slice.tail]
  omega

theorem valid_empty (h : Heap) : Slice.empty.Valid h := by
  simp [Slice.Valid, Slice.empty]

theorem view_empty (h : Heap) : h.view Slice.empty = [] := by
  simp [Heap.view, Slice.empty]

theorem arr_lt_of_valid (h : Heap) (s : Slice) (hv : s.Valid h) (hcap : 1 ≤ s.cap) :
    s.arr < h.length := by
  obtain ⟨_, h2⟩ := hv
  by_contra hge
  rw [List.getD_eq_default _ _ (by omega)] at h2
  simp at h2
  omega

theorem getD_set_self (h : Heap) (i : Nat) (a : List RecordedStatus) (hi : i < h.length) :
    (h.set i a).getD i [] = a := by
  simp [List.getD_eq_getElem?_getD, List.getElem?_set, hi]

/-- Writing inside the window of a slice: the entry seen at that index changes, the
others stay. -/
theorem view_store (h : Heap) (s : Slice) (i : Nat) (v : RecordedStatus) (hv : s.Valid h)
    (hi : i < s.len) : (h.store s i v).view s = (h.view s).set i v := by
  have harr := arr_lt_of_valid h s hv (by have := hv.1; omega)
  simp only [Heap.view, Heap.store, getD_set_self h s.arr _ harr]
  rw [List.drop_set, if_neg (by omega), List.set_take]
  congr 2
  omega

/-- Writing right after the window of a slice, within its capacity, and widening the
window by one: the entry is appended to what is seen. -/
theorem view_store_end (h : Heap) (s : Slice) (v : RecordedStatus) (hv : s.Valid h)
    (hroom : s.len < s.cap) :
    (h.store s s.len v).view { s with len := s.len + 1 } = h.view s ++ [v] := by
  have harr := arr_lt_of_valid h s hv (by omega)
  obtain ⟨_, h2⟩ := hv
  simp only [Heap.view, Heap.store, getD_set_self h s.arr _ harr]
  rw [List.drop_set, if_neg (by omega)]
  have e : s.off + s.len - s.off = s.len := by omega
  have hlen : s.len < ((h.getD s.arr []).drop s.off).length := by
    simp only [List.length_drop]; omega
  rw [e, List.take_succ, List.set_take,
    List.set_eq_of_length_le (by simp only [List.length_take]; omega)]
  have hlen2 : s.len < (h[s.arr]?.getD []).length - s.off := by
    simpa [List.getD_eq_getElem?_getD] using hlen
  simp [List.getElem?_set, hlen2]

theorem store_getD_length (h : Heap) (s : Slice) (i : Nat) (v : RecordedStatus) (a : Nat) :
    ((h.store s i v).getD a []).length = (h.getD a []).length := by
  simp only [Heap.store, List.getD_eq_getElem?_getD, List.getElem?_set]
  by_cases ha : s.arr = a
  · subst ha
    by_cases hlt : s.arr < h.length
    · simp [hlt]
    · have hnone : h[s.arr]? = none := List.getElem?_eq_none (by omega)
      simp [hlt, hnone]
  · simp [ha]

theorem valid_store (h : Heap) (s t : Slice) (i : Nat) (v : RecordedStatus) (hv : t.Valid h) :
    t.Valid (h.store s i v) := by
  simp only [Slice.Valid, store_getD_length]
  exact hv

/-- Go `append` adds the entry to what is seen through the slice, and the new slice
lies within its backing array. -/
theorem append_view (grow : Nat → Nat) (h : Heap) (s : Slice) (v : RecordedStatus)
    (hv : s.Valid h) :
    (h.append grow s v).1.view (h.append grow s v).2 = h.view s ++ [v] ∧
      (h.append grow s v).2.Valid (h.append grow s v).1 := by
  unfold Heap.append
  by_cases hroom : s.len < s.cap
  · simp only [hroom, if_true]
    refine ⟨view_store_end h s v hv hroom, ?_⟩
    have := valid_store h s s s.len v hv
    simp only [Slice.Valid] at this ⊢
    omega
  · simp only [hroom, if_false]
    have hget : ∀ b : List RecordedStatus, (h ++ [b]).getD h.length [] = b := by
      intro b
      simp [List.getD_eq_getElem?_getD]
    have hlen := view_length h s hv
    constructor
    · simp only [Heap.view, hget, List.drop_zero]
      rw [List.take_append_of_le_length (by simp [Heap.view] at hlen ⊢; omega)]
      exact List.take_of_length_le (by simp [Heap.view] at hlen ⊢)
    · simp only [Slice.Valid, hget, List.length_append, List.length_singleton,
        List.length_replicate, hlen]
      omega

theorem getLast?_eq_getD {α : Type} (l : List α) (d : α) (hl : l ≠ []) :
    l.getLast? = some (l.getD (l.length - 1) d) := by
  rw [List.getLast?_eq_getElem?, List.getD_eq_getElem?_getD]
  have : l.length - 1 < l.length := by
    have := List.length_pos.mpr hl
    omega
  simp [this]

/-- `dropOldest` on slices is `dropOldest` on the entries seen. -/
theorem Mem_dropOldest_toList (fmtLen : Formatter) (h : Heap) (nr : Mem.NodeRecorder)
    (hv : nr.statuses.Valid h) :
    (nr.dropOldest fmtLen h).toList h = (nr.toList h).dropOldest fmtLen ∧
      (nr.dropOldest fmtLen h).statuses.Valid h := by
  have hlen := view_length h nr.statuses hv
  unfold Mem.NodeRecorder.dropOldest NodeRecorder.dropOldest
  simp only [Mem.NodeRecorder.Len, Mem.NodeRecorder.toList]
  by_cases h0 : nr.statuses.len = 0
  · have hnil : h.view nr.statuses = [] := List.length_eq_zero.mp (by omega)
    have hlt : ((nr.statuses.len : Nat) : Int) < 1 := by omega
    simp only [hlt, if_true, hnil]
    exact ⟨trivial, hv⟩
  · have hlt : ¬ ((nr.statuses.len : Nat) : Int) < 1 := by omega
    simp only [hlt, if_false]
    cases hview : h.view nr.statuses with
    | nil => rw [hview] at hlen; simp at hlen; omega
    | cons x rest =>
      refine ⟨?_, valid_tail h nr.statuses hv (by omega)⟩
      simp only [Heap.read, view_tail, hview, List.tail_cons, List.getD_cons_zero]

theorem Mem_makeRoomLoop_toList (fmtLen : Formatter) (h : Heap) (size : Int) (fuel : Nat) :
    ∀ nr : Mem.NodeRecorder, nr.statuses.Valid h →
      NodeRecorder.makeRoomLoop fmtLen size fuel (nr.toList h)
        = (Mem.NodeRecorder.makeRoomLoop fmtLen h size fuel nr).map (fun x => x.toList h) ∧
      ∀ nr1 : Mem.NodeRecorder,
        Mem.NodeRecorder.makeRoomLoop fmtLen h size fuel nr = .ret nr1 →
        nr1.statuses.Valid h := by
  induction fuel with
  | zero =>
    intro nr _
    exact ⟨rfl, fun nr1 h1 => by cases h1⟩
  | succ f ih =>
    intro nr hv
    obtain ⟨hdrop, hvdrop⟩ := Mem_dropOldest_toList fmtLen h nr hv
    simp only [NodeRecorder.makeRoomLoop, Mem.NodeRecorder.makeRoomLoop]
    have hsize : (nr.toList h).size = nr.size := rfl
    have hmax : (nr.toList h).maxSize = nr.maxSize := rfl
    rw [hsize, hmax]
    by_cases hcond : nr.size + size > nr.maxSize
    · simp only [hcond, if_true]
      rw [← hdrop]
      exact ih _ hvdrop
    · simp only [hcond, if_false]
      exact ⟨rfl, fun nr1 h1 => by injection h1 with h1; exact h1 ▸ hv⟩

/-- `makeRoom` on slices is `makeRoom` on the entries seen. -/
theorem Mem_makeRoom_toList (fmtLen : Formatter) (h : Heap) (nr : Mem.NodeRecorder) (size : Int)
    (hv : nr.statuses.Valid h) :
    NodeRecorder.makeRoom fmtLen (nr.toList h) size
        = (nr.makeRoom fmtLen h size).map (fun x => x.toList h) ∧
      ∀ nr1 : Mem.NodeRecorder, nr.makeRoom fmtLen h size = .ret nr1 →
        nr1.statuses.Valid h := by
  obtain ⟨hdrop, hvdrop⟩ := Mem_dropOldest_toList fmtLen h nr hv
  have hlen := view_length h nr.statuses hv
  obtain ⟨nr0, hnr0⟩ : ∃ x : Mem.NodeRecorder,
      x = if nr.capacity > 1 ∧ nr.Len = nr.Cap then nr.dropOldest fmtLen h else nr := ⟨_, rfl⟩
  have hfirst : (if (nr.toList h).capacity > 1 ∧ (nr.toList h).Len = (nr.toList h).Cap
      then (nr.toList h).dropOldest fmtLen else nr.toList h) = nr0.toList h := by
    have hL : (nr.toList h).Len = nr.Len := by
      simp only [NodeRecorder.Len, Mem.NodeRecorder.Len, Mem.NodeRecorder.toList, hlen]
    have hC : (nr.toList h).Cap = nr.Cap := rfl
    have hc : (nr.toList h).capacity = nr.capacity := rfl
    rw [hL, hC, hc, hnr0]
    split_ifs
    · exact hdrop.symm
    · rfl
  have hv0 : nr0.statuses.Valid h := by
    rw [hnr0]
    split_ifs
    · exact hvdrop
    · exact hv
  have hlen0 := view_length h nr0.statuses hv0
  unfold NodeRecorder.makeRoom Mem.NodeRecorder.makeRoom
  simp only [hfirst, ← hnr0]
  have hm : (nr0.toList h).maxSize = nr0.maxSize := rfl
  rw [hm]
  by_cases hzero : nr0.maxSize = 0
  · simp only [hzero, if_true]
    exact ⟨rfl, fun nr1 h1 => by injection h1 with h1; exact h1 ▸ hv0⟩
  · simp only [hzero, if_false]
    by_cases hbig : size ≥ nr0.maxSize
    · simp only [hbig, if_true]
      refine ⟨?_, fun nr1 h1 => by injection h1 with h1; rw [← h1]; exact valid_empty h⟩
      simp only [Run.map, Mem.NodeRecorder.toList, view_empty]
    · simp only [hbig, if_false]
      have hst : (nr0.toList h).statuses.length = nr0.statuses.len := hlen0
      rw [hst]
      exact Mem_makeRoomLoop_toList fmtLen h size _ nr0 hv0

theorem Mem_coalesces_toList (h : Heap) (nr : Mem.NodeRecorder) (st : Status)
    (hv : nr.statuses.Valid h) : (nr.toList h).coalesces st = nr.coalesces h st := by
  have hlen := view_length h nr.statuses hv
  unfold NodeRecorder.coalesces Mem.NodeRecorder.coalesces
  simp only [NodeRecorder.IsCoalescing, NodeRecorder.Len, Mem.NodeRecorder.Len,
    Mem.NodeRecorder.toList, hlen]
  by_cases h0 : nr.statuses.len = 0
  · simp [h0]
  · have hne : h.view nr.statuses ≠ [] := by
      intro hnil
      rw [hnil] at hlen
      simp at hlen
      omega
    rw [getLast?_eq_getD _ RecordedStatus.zero hne, hlen]
    rfl

/-- The slice-level `Push` does to the entries seen through the recorder's slice what
`Push` of the list model does to its list, with the same outcome; and the recorder's
slice stays within its backing array. -/
theorem Mem_Push_toList (fmtLen : Formatter) (grow : Nat → Nat) (h : Heap)
    (nr : Mem.NodeRecorder) (st : Status) (ts : Time) (hv : nr.statuses.Valid h) :
    NodeRecorder.Push fmtLen (nr.toList h) st ts
        = (nr.Push fmtLen grow h st ts).map (fun r => (r.2.1.toList r.1, r.2.2)) ∧
      ∀ (h1 : Heap) (nr1 : Mem.NodeRecorder) (err : Option Error),
        nr.Push fmtLen grow h st ts = .ret (h1, nr1, err) → nr1.statuses.Valid h1 := by
  have hlen := view_length h nr.statuses hv
  unfold NodeRecorder.Push Mem.NodeRecorder.Push
  have hn : (nr.toList h).nodeName = nr.nodeName := rfl
  have hc : (nr.toList h).capacity = nr.capacity := rfl
  rw [hn, hc, Mem_coalesces_toList h nr st hv]
  by_cases h1 : st.NodeName = ""
  · simp only [if_pos h1]
    exact ⟨rfl, fun _ _ _ hr => by
      injection hr with hr; injection hr with hh hr; injection hr with hr _
      rw [← hh, ← hr]; exact hv⟩
  simp only [if_neg h1]
  by_cases h2 : st.NodeName ≠ nr.nodeName
  · simp only [if_pos h2]
    exact ⟨rfl, fun _ _ _ hr => by
      injection hr with hr; injection hr with hh hr; injection hr with hr _
      rw [← hh, ← hr]; exact hv⟩
  simp only [if_neg h2]
  by_cases h3 : nr.coalesces h st = true
  · simp only [if_pos h3]
    exact ⟨rfl, fun _ _ _ hr => by
      injection hr with hr; injection hr with hh hr; injection hr with hr _
      rw [← hh, ← hr]; exact hv⟩
  simp only [if_neg h3]
  by_cases h4 : nr.capacity = 1
  · simp only [if_pos h4]
    by_cases h0 : nr.statuses.len = 0
    · have hnil : h.view nr.statuses = [] := List.length_eq_zero.mp (by omega)
      simp only [if_pos h0, Mem.NodeRecorder.toList, hnil]
      exact ⟨rfl, fun _ _ _ hr => by cases hr⟩
    · simp only [if_neg h0]
      cases hview : h.view nr.statuses with
      | nil => rw [hview] at hlen; simp at hlen; omega
      | cons x rest =>
        constructor
        · simp only [Mem.NodeRecorder.toList, hview, Run.map,
            view_store h nr.statuses 0 _ hv (by omega), List.set_cons_zero, h4]
        · intro h1 nr1 err hr
          injection hr with hr
          injection hr with hh hr
          injection hr with hr _
          rw [← hh, ← hr]
          exact valid_store h nr.statuses nr.statuses 0 _ hv
  · simp only [if_neg h4]
    obtain ⟨hroom, hvroom⟩ := Mem_makeRoom_toList fmtLen h nr
      (newItem fmtLen st ts).statusSize hv
    rw [hroom]
    cases hm : nr.makeRoom fmtLen h (newItem fmtLen st ts).statusSize with
    | panics => exact ⟨rfl, fun _ _ _ hr => by cases hr⟩
    | diverges => exact ⟨rfl, fun _ _ _ hr => by cases hr⟩
    | ret nr1 =>
      obtain ⟨happ, hvapp⟩ := append_view grow h nr1.statuses (newItem fmtLen st ts)
        (hvroom nr1 hm)
      constructor
      · simp only [Run.map, Mem.NodeRecorder.toList, happ]
      · intro h2 nr2 err hr
        injection hr with hr
        injection hr with hh hr
        injection hr with hr _
        rw [← hh, ← hr]
        exact hvapp

/-- `NewNodeRecorder` on slices is `NewNodeRecorder` on the entries seen. -/
theorem Mem_NewNodeRecorder_toList (h : Heap) (nodeName : String) (opts : List NodeOption) :
    NewNodeRecorder nodeName opts
        = (Mem.NewNodeRecorder h nodeName opts).map (fun r => r.2.toList r.1) ∧
      ∀ (h1 : Heap) (nr1 : Mem.NodeRecorder),
        Mem.NewNodeRecorder h nodeName opts = .ok (h1, nr1) → nr1.statuses.Valid h1 := by
  have hfold : ∀ (l : List NodeOption) (nr : Mem.NodeRecorder),
      l.foldl NodeOption.apply (nr.toList h) = (l.foldl Mem.applyOption nr).toList h ∧
        (l.foldl Mem.applyOption nr).statuses = nr.statuses := by
    intro l
    induction l with
    | nil => intro nr; exact ⟨rfl, rfl⟩
    | cons o rest ih =>
      intro nr
      have hstep : NodeOption.apply (nr.toList h) o = (Mem.applyOption nr o).toList h := by
        cases o <;> rfl
      have hst : (Mem.applyOption nr o).statuses = nr.statuses := by
        cases o <;> rfl
      simp only [List.foldl_cons, hstep]
      exact ⟨(ih _).1, (ih _).2.trans hst⟩
  unfold NewNodeRecorder Mem.NewNodeRecorder
  by_cases hne : nodeName = ""
  · simp only [hne, if_true]
    exact ⟨rfl, fun _ _ hr => by cases hr⟩
  simp only [hne, if_false]
  obtain ⟨hf, hs⟩ := hfold opts
    { nodeName := nodeName, capacity := 0, maxSize := 0, size := 0, statuses := Slice.empty,
      coalesceLast := false }
  obtain ⟨nr0, hnr0⟩ : ∃ x : Mem.NodeRecorder, x =
      { nodeName := nodeName, capacity := 0, maxSize := 0, size := 0, statuses := Slice.empty,
        coalesceLast := false } := ⟨_, rfl⟩
  have hinit : NodeRecorder.mk nodeName 0 0 0 [] false = nr0.toList h := by
    rw [hnr0]
    simp only [Mem.NodeRecorder.toList, view_empty]
  rw [← hnr0] at hf hs ⊢
  rw [hinit, hf]
  have hc : ((opts.foldl Mem.applyOption nr0).toList h).capacity
      = (opts.foldl Mem.applyOption nr0).capacity := rfl
  rw [hc]
  split_ifs with hlt h1
  · exact ⟨rfl, fun _ _ hr => by cases hr⟩
  · constructor
    · simp [Except.map, Mem.NodeRecorder.toList, Heap.make, Heap.view,
        List.getD_eq_getElem?_getD]
    · intro h1 nr1 hr
      injection hr with hr
      injection hr with hh hr
      rw [← hh, ← hr]
      simp [Slice.Valid, Heap.make, List.getD_eq_getElem?_getD]
  · constructor
    · rfl
    · intro h1 nr1 hr
      injection hr with hr
      injection hr with hh hr
      rw [← hh, ← hr, hs, hnr0]
      exact valid_empty h

/-! ## C30: a push touches one node only -/

/-- What `pushInto` returns is the recorder with the node of the status bound anew. -/
theorem pushInto_shape (fmtLen : Formatter) (rr rr1 : Recorder) (nr : NodeRecorder)
    (st : Status) (ts : Time) (err : Option Error)
    (h : rr.pushInto fmtLen nr st ts = .ret (rr1, err)) :
    ∃ nr1 : NodeRecorder, nr.Push fmtLen st ts = .ret (nr1, err) ∧
      rr1 = { rr with nodes := rr.nodes.insert st.NodeName nr1 } := by
  unfold Recorder.pushInto at h
  cases hp : nr.Push fmtLen st ts with
  | ret res =>
    obtain ⟨nr1, err1⟩ := res
    rw [hp] at h
    injection h with h
    injection h with h1 h2
    exact ⟨nr1, by rw [h2], h1.symm⟩
  | panics => rw [hp] at h; cases h
  | diverges => rw [hp] at h; cases h

/-- What `Recorder.Push` returns is the recorder as it was, or the recorder with the
node of the status bound anew. -/
theorem Recorder_Push_shape (fmtLen : Formatter) (rr rr1 : Recorder) (st : Status) (ts : Time)
    (err : Option Error) (h : rr.Push fmtLen st ts = .ret (rr1, err)) :
    rr1 = rr ∨ ∃ nr1 : NodeRecorder, rr1 = { rr with nodes := rr.nodes.insert st.NodeName nr1 } := by
  unfold Recorder.Push at h
  by_cases hne : st.NodeName = ""
  · rw [if_pos hne] at h
    injection h with h
    injection h with h _
    exact Or.inl h.symm
  rw [if_neg hne] at h
  cases hlook : rr.nodes.lookup st.NodeName with
  | some nr =>
    rw [hlook] at h
    obtain ⟨nr1, _, h1⟩ := pushInto_shape fmtLen rr rr1 nr st ts err h
    exact Or.inr ⟨nr1, h1⟩
  | none =>
    rw [hlook] at h
    simp only at h
    by_cases hfull : rr.maxCapacityReached = true
    · rw [if_pos hfull] at h
      injection h with h
      injection h with h _
      exact Or.inl h.symm
    · rw [if_neg hfull] at h
      cases hnew : NewNodeRecorder st.NodeName
          [.WithCapacity rr.nodeCapacity, .WithMaxSize rr.maxSize,
            .WithCoalescing rr.coalesceLast] with
      | error e =>
        rw [hnew] at h
        injection h with h
        injection h with h _
        exact Or.inl h.symm
      | ok nr =>
        rw [hnew] at h
        obtain ⟨nr1, _, h1⟩ := pushInto_shape fmtLen rr rr1 nr st ts err h
        exact Or.inr ⟨nr1, h1⟩

/-- C30. Whatever the state of a `Recorder` and the status, a `Push` that returns, with
or without error, leaves `ContentForNode(m)` and `CountRecords(m)` as they were for
every node name `m` other than that of the status, and leaves `MaxNodes()`, `Cap()`,
`MaxSize()` and `IsCoalescing()` as they were. In every state reachable from a
successful `NewRecorder`, `Push` does return. -/
theorem C30_push_touches_one_node (fmtLen : Formatter) (rr : Recorder) (st : Status)
    (ts : Time) :
    (∀ (rr1 : Recorder) (err : Option Error), rr.Push fmtLen st ts = .ret (rr1, err) →
      (∀ m : String, m ≠ st.NodeName →
        rr1.ContentForNode m = rr.ContentForNode m ∧
        rr1.CountRecords m = rr.CountRecords m) ∧
      rr1.MaxNodes = rr.MaxNodes ∧ rr1.Cap = rr.Cap ∧ rr1.MaxSize = rr.MaxSize ∧
      rr1.IsCoalescing = rr.IsCoalescing) ∧
    (rr.Reachable fmtLen →
      ∃ (rr1 : Recorder) (err : Option Error), rr.Push fmtLen st ts = .ret (rr1, err)) := by
  constructor
  · intro rr1 err h
    rcases Recorder_Push_shape fmtLen rr rr1 st ts err h with h1 | ⟨nr1, h1⟩
    · rw [h1]
      exact ⟨fun _ _ => ⟨rfl, rfl⟩, rfl, rfl, rfl, rfl⟩
    · rw [h1]
      refine ⟨fun m hm => ?_, rfl, rfl, rfl, rfl⟩
      constructor <;>
        simp only [Recorder.ContentForNode, Recorder.CountRecords, lookup_insert_eq, if_neg hm]
  · intro hr
    obtain ⟨rr1, err, hp, _⟩ := Recorder_Push_cases fmtLen rr st ts
      (Recorder_Reachable_wellFormed fmtLen rr hr)
    exact ⟨rr1, err, hp⟩

/-- C30 at a recorder for one node that holds `node-0`: a rejected push for `node-1`
leaves the content of `node-0`, and a stored push for `node-0` leaves `node-1` unknown
and the node cap at 1. -/
theorem C30_push_touches_one_node_witness :
    oneNodeRecorder1.Push sampleFmtLen (statusOf "node-1" "") 2
      = .ret (oneNodeRecorder1, some .ErrTooManyNodes) ∧
    oneNodeRecorder1.ContentForNode "node-0"
      = ([newItem sampleFmtLen (statusOf "node-0" "") 1], true) ∧
    oneNodeRecorder1.Push sampleFmtLen (statusOf "node-0" "v1") 2
      = .ret (oneNodeRecorder2, none) ∧
    oneNodeRecorder2.ContentForNode "node-1" = ([], false) ∧
    oneNodeRecorder2.MaxNodes = 1 :=
  ⟨by decide,
    (((C30_push_touches_one_node sampleFmtLen oneNodeRecorder1 (statusOf "node-1" "") 2).1
      oneNodeRecorder1 (some .ErrTooManyNodes) (by decide)).1 "node-0" (by decide)).1.symm.trans
      (by decide),
    by decide,
    (((C30_push_touches_one_node sampleFmtLen oneNodeRecorder1 (statusOf "node-0" "v1") 2).1
      oneNodeRecorder2 none (by decide)).1 "node-1" (by decide)).1.trans (by decide),
    ((C30_push_touches_one_node sampleFmtLen oneNodeRecorder1 (statusOf "node-0" "v1") 2).1
      oneNodeRecorder2 none (by decide)).2.1.trans (by decide)⟩

/-! ## C29: the size accumulator -/

/-- In every reachable state the accumulator is the sum of the sizes of the stored
entries, except in a capacity-1 recorder that still holds the zero entry of its
creation, where it is 0. -/
theorem Reachable_size_exact (fmtLen : Formatter) (nr : NodeRecorder)
    (h : nr.Reachable fmtLen) :
    nr.size = sumSizes fmtLen nr.statuses ∨
      (nr.capacity = 1 ∧ nr.statuses = [RecordedStatus.zero] ∧ nr.size = 0) := by
  induction h with
  | init nodeName opts nr hnew =>
    obtain ⟨_, _, _, hsize, hst1, hst0⟩ := NewNodeRecorder_ok nodeName opts nr hnew
    by_cases h1 : nr.capacity = 1
    · exact Or.inr ⟨h1, hst1 h1, hsize⟩
    · left
      rw [hst0 h1, hsize, sumSizes_nil]
  | push nr nr1 st ts err hreach hpush ih =>
    have wf := Reachable_wellFormed fmtLen nr hreach
    have hsame : ∀ e : Option Error, nr.Push fmtLen st ts = .ret (nr, e) →
        nr1.size = sumSizes fmtLen nr1.statuses ∨
          (nr1.capacity = 1 ∧ nr1.statuses = [RecordedStatus.zero] ∧ nr1.size = 0) := by
      intro e he
      rw [he] at hpush
      injection hpush with hpush
      injection hpush with h1 _
      rw [← h1]
      exact ih
    by_cases hne : st.NodeName = ""
    · exact hsame (some .ErrMissingNode) (by simp [NodeRecorder.Push, hne])
    by_cases hname : st.NodeName = nr.nodeName
    swap
    · exact hsame (some .ErrMismatchingNode) (by simp [NodeRecorder.Push, hne, hname])
    by_cases hco : nr.coalesces st = true
    · exact hsame none (by simp [NodeRecorder.Push, hne, hname, hco, wf.name_ne])
    obtain ⟨l1, sz, hp, _, _, hone, hmulti⟩ := Push_accepted fmtLen nr st ts wf hne hname
      (by simpa using hco)
    rw [hp] at hpush
    injection hpush with hpush
    injection hpush with h1 _
    rw [← h1]
    left
    by_cases hc : nr.capacity = 1
    · obtain ⟨hl, hsz⟩ := hone hc
      simp only [hl, hsz, List.nil_append, sumSizes_cons, sumSizes_nil]
      omega
    · have hcap : 1 < nr.capacity := by have := wf.cap_pos; omega
      exact (hmulti hcap).1

/-- In every reachable state the accumulator is not negative and not above the sum of
the sizes of the stored entries. -/
theorem Reachable_size_bounds (fmtLen : Formatter) (nr : NodeRecorder)
    (h : nr.Reachable fmtLen) :
    0 ≤ nr.size ∧ nr.size ≤ sumSizes fmtLen nr.statuses := by
  have hsum := sumSizes_nonneg fmtLen nr.statuses
  rcases Reachable_size_exact fmtLen nr h with h1 | ⟨_, _, h1⟩
  · rw [h1]
    exact ⟨hsum, le_refl _⟩
  · rw [h1]
    exact ⟨le_refl _, hsum⟩

/-- C29 fails right after `NewNodeRecorder("test-node", WithCapacity(1))`: the
recorder holds one entry, the zero entry, whose `Size()` is 32 bytes under the sample
formatter, while the accumulator is 0. -/
theorem C29_accumulator_of_fresh_single_slot :
    NewNodeRecorder "test-node" [.WithCapacity 1] = .ok freshSingleSlot ∧
    freshSingleSlot.Reachable sampleFmtLen ∧
    freshSingleSlot.Len = 1 ∧
    freshSingleSlot.size = 0 ∧
    sumSizes sampleFmtLen freshSingleSlot.Content = 32 :=
  ⟨rfl, .init "test-node" [.WithCapacity 1] freshSingleSlot rfl, by decide, by decide,
    by decide⟩

/-! ## C28: the eviction loop terminates -/

/-- The counted loop is the loop of `makeRoom`: it returns the same recorder. -/
theorem makeRoomLoopCount_fst (fmtLen : Formatter) (size : Int) :
    ∀ (fuel : Nat) (nr : NodeRecorder),
      (NodeRecorder.makeRoomLoopCount fmtLen size fuel nr).map Prod.fst
        = NodeRecorder.makeRoomLoop fmtLen size fuel nr := by
  intro fuel
  induction fuel with
  | zero => intro nr; rfl
  | succ f ih =>
    intro nr
    unfold NodeRecorder.makeRoomLoopCount NodeRecorder.makeRoomLoop
    by_cases hcond : nr.size + size > nr.maxSize
    · rw [if_pos hcond, if_pos hcond, ← ih]
      cases NodeRecorder.makeRoomLoopCount fmtLen size f (nr.dropOldest fmtLen) <;> rfl
    · rw [if_neg hcond, if_neg hcond]
      rfl

/-- On an empty store `dropOldest` changes nothing. -/
theorem dropOldest_empty (fmtLen : Formatter) (nr : NodeRecorder) (h : nr.statuses = []) :
    nr.dropOldest fmtLen = nr := by
  simp [NodeRecorder.dropOldest, h]

/-- When the accumulator is at most the sum of the stored sizes and the new entry alone
fits, the loop exits after at most as many iterations as there are entries, whatever
the bound given to it beyond that. -/
theorem makeRoomLoopCount_terminates (fmtLen : Formatter) (size : Int)
    (l : List RecordedStatus) :
    ∀ nr : NodeRecorder, nr.statuses = l → nr.size ≤ sumSizes fmtLen l →
      size ≤ nr.maxSize →
      ∃ (nr2 : NodeRecorder) (n : Nat), n ≤ l.length ∧
        ¬ (nr2.size + size > nr2.maxSize) ∧
        ∀ fuel : Nat, n + 1 ≤ fuel →
          NodeRecorder.makeRoomLoopCount fmtLen size fuel nr = .ret (nr2, n) := by
  induction l with
  | nil =>
    intro nr hl hacc hsz
    rw [sumSizes_nil] at hacc
    have hcond : ¬ (nr.size + size > nr.maxSize) := by omega
    refine ⟨nr, 0, le_refl _, hcond, fun fuel hfuel => ?_⟩
    obtain ⟨f, rfl⟩ : ∃ f, fuel = f + 1 := ⟨fuel - 1, by omega⟩
    rw [NodeRecorder.makeRoomLoopCount, if_neg hcond]
  | cons x rest ih =>
    intro nr hl hacc hsz
    by_cases hcond : nr.size + size > nr.maxSize
    · have hdrop : nr.dropOldest fmtLen
          = { nr with size := nr.size - x.Size fmtLen, statuses := rest } := by
        simp [NodeRecorder.dropOldest, hl]
      obtain ⟨nr2, n, hn, hexit, hrun⟩ := ih
        { nr with size := nr.size - x.Size fmtLen, statuses := rest } rfl
        (by simp only; rw [sumSizes_cons] at hacc; omega) hsz
      refine ⟨nr2, n + 1, by simp only [List.length_cons]; omega, hexit, fun fuel hfuel => ?_⟩
      obtain ⟨f, rfl⟩ : ∃ f, fuel = f + 1 := ⟨fuel - 1, by omega⟩
      rw [NodeRecorder.makeRoomLoopCount, if_pos hcond, hdrop, hrun f (by omega)]
      rfl
    · refine ⟨nr, 0, Nat.zero_le _, hcond, fun fuel hfuel => ?_⟩
      obtain ⟨f, rfl⟩ : ∃ f, fuel = f + 1 := ⟨fuel - 1, by omega⟩
      rw [NodeRecorder.makeRoomLoopCount, if_neg hcond]

/-- The capacity check of `makeRoom` keeps the limits, removes at most the oldest
entry, and keeps the accumulator at or below the sum of the stored sizes. -/
theorem afterCapacityCheck_facts (fmtLen : Formatter) (nr : NodeRecorder)
    (hacc : nr.size ≤ sumSizes fmtLen nr.statuses) :
    (nr.afterCapacityCheck fmtLen).maxSize = nr.maxSize ∧
    (nr.afterCapacityCheck fmtLen).statuses.length ≤ nr.statuses.length ∧
    (nr.afterCapacityCheck fmtLen).size
      ≤ sumSizes fmtLen (nr.afterCapacityCheck fmtLen).statuses := by
  unfold NodeRecorder.afterCapacityCheck
  by_cases hfull : nr.capacity > 1 ∧ nr.Len = nr.Cap
  · rw [if_pos hfull]
    cases hs : nr.statuses with
    | nil =>
      rw [dropOldest_empty fmtLen nr hs, hs]
      exact ⟨rfl, le_refl _, hs ▸ hacc⟩
    | cons x rest =>
      have hdrop : nr.dropOldest fmtLen
          = { nr with size := nr.size - x.Size fmtLen, statuses := rest } := by
        simp [NodeRecorder.dropOldest, hs]
      rw [hdrop]
      rw [hs, sumSizes_cons] at hacc
      refine ⟨rfl, by simp, ?_⟩
      simp only
      omega
  · rw [if_neg hfull]
    exact ⟨rfl, le_refl _, hacc⟩

/-- Go `makeRoom`, read with the capacity check as a step of its own. -/
theorem makeRoom_eq (fmtLen : Formatter) (nr : NodeRecorder) (size : Int) :
    nr.makeRoom fmtLen size =
      if (nr.afterCapacityCheck fmtLen).maxSize = 0 then .ret (nr.afterCapacityCheck fmtLen)
      else if size ≥ (nr.afterCapacityCheck fmtLen).maxSize then
        .ret { nr.afterCapacityCheck fmtLen with size := 0, statuses := [] }
      else NodeRecorder.makeRoomLoop fmtLen size
        ((nr.afterCapacityCheck fmtLen).statuses.length + 1) (nr.afterCapacityCheck fmtLen) :=
  rfl

/-- C28. In every state reachable by `Push` calls and for every entry size `≥ 0`,
`makeRoom` returns. When it reaches its eviction loop (`maxSize` is not 0 and the entry
is smaller than `maxSize`), the loop exits after at most `Len()` iterations, with its
condition false. On an empty store `dropOldest` changes nothing, and the loop condition
is false there, so the loop does not spin. -/
theorem C28_eviction_loop_terminates (fmtLen : Formatter) (nr : NodeRecorder)
    (h : nr.Reachable fmtLen) (size : Int) (_hsize : 0 ≤ size) :
    (∃ nr2 : NodeRecorder, nr.makeRoom fmtLen size = .ret nr2) ∧
    (nr.maxSize ≠ 0 → size < nr.maxSize →
      ∃ (nr2 : NodeRecorder) (n : Nat),
        (n : Int) ≤ nr.Len ∧
        (∀ fuel : Nat, n + 1 ≤ fuel →
          NodeRecorder.makeRoomLoopCount fmtLen size fuel (nr.afterCapacityCheck fmtLen)
            = .ret (nr2, n)) ∧
        ¬ (nr2.size + size > nr2.maxSize) ∧
        nr.makeRoom fmtLen size = .ret nr2) ∧
    (nr.statuses = [] →
      nr.dropOldest fmtLen = nr ∧
      (nr.maxSize ≠ 0 → size < nr.maxSize → ¬ (nr.size + size > nr.maxSize))) := by
  obtain ⟨hpos, hle⟩ := Reachable_size_bounds fmtLen nr h
  obtain ⟨hmax, hlen, hacc⟩ := afterCapacityCheck_facts fmtLen nr hle
  have hloop : nr.maxSize ≠ 0 → size < nr.maxSize →
      ∃ (nr2 : NodeRecorder) (n : Nat),
        (n : Int) ≤ nr.Len ∧
        (∀ fuel : Nat, n + 1 ≤ fuel →
          NodeRecorder.makeRoomLoopCount fmtLen size fuel (nr.afterCapacityCheck fmtLen)
            = .ret (nr2, n)) ∧
        ¬ (nr2.size + size > nr2.maxSize) ∧
        nr.makeRoom fmtLen size = .ret nr2 := by
    intro hne hlt
    obtain ⟨nr2, n, hn, hexit, hrun⟩ := makeRoomLoopCount_terminates fmtLen size
      (nr.afterCapacityCheck fmtLen).statuses (nr.afterCapacityCheck fmtLen) rfl hacc
      (by rw [hmax]; omega)
    refine ⟨nr2, n, ?_, hrun, hexit, ?_⟩
    · simp only [NodeRecorder.Len]
      omega
    · rw [makeRoom_eq, hmax, if_neg hne, if_neg (by omega), ← makeRoomLoopCount_fst,
        hrun _ (by omega)]
      rfl
  refine ⟨?_, hloop, fun hempty => ⟨dropOldest_empty fmtLen nr hempty, fun _ hlt => ?_⟩⟩
  · by_cases hne : nr.maxSize = 0
    · exact ⟨_, by rw [makeRoom_eq, hmax, if_pos hne]⟩
    · by_cases hlt : size < nr.maxSize
      · obtain ⟨nr2, _, _, _, _, hrun⟩ := hloop hne hlt
        exact ⟨nr2, hrun⟩
      · exact ⟨_, by rw [makeRoom_eq, hmax, if_neg hne, if_pos (by omega)]⟩
  · rw [hempty, sumSizes_nil] at hle
    omega

theorem limitedRecorder2_reachable : limitedRecorder2.Reachable sampleFmtLen :=
  .push { limitedRecorder2 with
      statuses := [newItem sampleFmtLen (statusOf "test-node" "v0") 1], size := 32 }
    limitedRecorder2 (statusOf "test-node" "v1") 2 none
    (.push { limitedRecorder2 with statuses := [], size := 0 } _
      (statusOf "test-node" "v0") 1 none
      (.init "test-node" [.WithCapacity 3, .WithMaxSize 70] _ rfl) (by decide))
    (by decide)

/-- C28 at a recorder of capacity 3 with a limit of 70 bytes that holds two entries of
32 bytes: for a new entry of 32 bytes the loop exits after one iteration. -/
theorem C28_eviction_loop_terminates_witness :
    limitedRecorder2.Reachable sampleFmtLen ∧
    ∃ (nr2 : NodeRecorder) (n : Nat),
      (n : Int) ≤ limitedRecorder2.Len ∧
      (∀ fuel : Nat, n + 1 ≤ fuel →
        NodeRecorder.makeRoomLoopCount sampleFmtLen 32 fuel
          (limitedRecorder2.afterCapacityCheck sampleFmtLen) = .ret (nr2, n)) ∧
      ¬ (nr2.size + 32 > nr2.maxSize) ∧
      limitedRecorder2.makeRoom sampleFmtLen 32 = .ret nr2 :=
  ⟨limitedRecorder2_reachable,
    (C28_eviction_loop_terminates sampleFmtLen limitedRecorder2 limitedRecorder2_reachable 32
      (by decide)).2.1 (by decide) (by decide)⟩

/-! ## C27: how many entries a stored push evicts -/

/-- The capacity check of `makeRoom` on a multi-entry store whose accumulator is
exact: the oldest entry goes exactly when the store is full. -/
theorem afterCapacityCheck_drop (fmtLen : Formatter) (nr : NodeRecorder)
    (hcap : 1 < nr.capacity) (hlen : nr.Len ≤ nr.Cap)
    (hacc : nr.size = sumSizes fmtLen nr.statuses) :
    ∃ k0 : Nat, k0 ≤ nr.statuses.length ∧ (k0 = 1 ∨ k0 = 0) ∧ (k0 = 1 ↔ nr.Len = nr.Cap) ∧
      nr.afterCapacityCheck fmtLen
        = { nr with statuses := nr.statuses.drop k0,
                    size := sumSizes fmtLen (nr.statuses.drop k0) } := by
  obtain ⟨nodeName, capacity, maxSize, size, statuses, coalesceLast⟩ := nr
  simp only [NodeRecorder.Len, NodeRecorder.Cap, NodeRecorder.afterCapacityCheck] at hcap hlen hacc ⊢
  by_cases hfull : ((statuses.length : Nat) : Int) = capacity
  · rw [if_pos ⟨hcap, hfull⟩]
    match statuses, hfull, hacc with
    | [], hfull, _ => simp at hfull; omega
    | x :: rest, hfull, hacc =>
      refine ⟨1, by simp, Or.inl rfl, ⟨fun _ => hfull, fun _ => rfl⟩, ?_⟩
      simp only [NodeRecorder.dropOldest, hacc, sumSizes_cons, List.drop_one, List.tail_cons]
      congr 1
      omega
  · rw [if_neg (fun h => hfull h.2)]
    refine ⟨0, Nat.zero_le _, Or.inr rfl, ⟨fun h => by omega, fun h => absurd h hfull⟩, ?_⟩
    simp only [List.drop_zero]
    rw [hacc]

/-- When the accumulator is the sum of the stored sizes and the new entry alone fits,
the loop removes the least number of oldest entries after which the new entry fits. -/
theorem makeRoomLoop_least (fmtLen : Formatter) (size : Int) (l : List RecordedStatus) :
    ∀ (nr : NodeRecorder), nr.statuses = l → nr.size = sumSizes fmtLen l →
      size ≤ nr.maxSize →
      ∃ j : Nat, j ≤ l.length ∧ sumSizes fmtLen (l.drop j) + size ≤ nr.maxSize ∧
        (∀ i : Nat, i < j → sumSizes fmtLen (l.drop i) + size > nr.maxSize) ∧
        NodeRecorder.makeRoomLoop fmtLen size (l.length + 1) nr
          = .ret { nr with statuses := l.drop j, size := sumSizes fmtLen (l.drop j) } := by
  induction l with
  | nil =>
    intro nr hl hacc hsz
    rw [sumSizes_nil] at hacc
    have hcond : ¬ (nr.size + size > nr.maxSize) := by omega
    refine ⟨0, le_refl _, by simp only [List.drop_nil, sumSizes_nil]; omega,
      fun i hi => absurd hi (Nat.not_lt_zero i), ?_⟩
    simp only [List.length_nil, List.drop_nil, sumSizes_nil]
    rw [NodeRecorder.makeRoomLoop, if_neg hcond, ← hl, ← hacc]
  | cons x rest ih =>
    intro nr hl hacc hsz
    by_cases hcond : nr.size + size > nr.maxSize
    · have hdrop : nr.dropOldest fmtLen
          = { nr with size := nr.size - x.Size fmtLen, statuses := rest } := by
        simp [NodeRecorder.dropOldest, hl]
      obtain ⟨j, hj, hfit, hleast, hrun⟩ := ih
        { nr with size := nr.size - x.Size fmtLen, statuses := rest } rfl
        (by simp only [hacc, sumSizes_cons]; omega) hsz
      refine ⟨j + 1, by simp only [List.length_cons]; omega, hfit, fun i hi => ?_, ?_⟩
      · cases i with
        | zero =>
          simp only [List.drop_zero]
          rw [← hacc]
          exact hcond
        | succ i =>
          simp only [List.drop_succ_cons]
          exact hleast i (by omega)
      · simp only [List.length_cons, List.drop_succ_cons]
        rw [NodeRecorder.makeRoomLoop, if_pos hcond, hdrop, hrun]
    · refine ⟨0, Nat.zero_le _, by simp only [List.drop_zero]; rw [← hacc]; omega,
        fun i hi => absurd hi (Nat.not_lt_zero i), ?_⟩
      simp only [List.drop_zero]
      rw [NodeRecorder.makeRoomLoop, if_neg hcond, ← hacc, ← hl]

/-- Go `makeRoom` on a multi-entry store whose accumulator is exact: it removes the `k`
oldest entries, where `k` is the number of entries when a `maxSize` other than 0 is
reached by the new entry alone, and otherwise the least number that leaves room. -/
theorem makeRoom_exact (fmtLen : Formatter) (nr : NodeRecorder) (size : Int)
    (hcap : 1 < nr.capacity) (hlen : nr.Len ≤ nr.Cap)
    (hacc : nr.size = sumSizes fmtLen nr.statuses) :
    ∃ k : Nat, k ≤ nr.statuses.length ∧
      nr.makeRoom fmtLen size
        = .ret { nr with statuses := nr.statuses.drop k,
                         size := sumSizes fmtLen (nr.statuses.drop k) } ∧
      (nr.maxSize ≠ 0 ∧ nr.maxSize ≤ size → k = nr.statuses.length) ∧
      (¬ (nr.maxSize ≠ 0 ∧ nr.maxSize ≤ size) → nr.leastRoom fmtLen size k) := by
  obtain ⟨k0, hk0, hk01, hfull, hstep⟩ := afterCapacityCheck_drop fmtLen nr hcap hlen hacc
  simp only [NodeRecorder.Len, NodeRecorder.Cap] at hlen hfull
  have hroom0 : (nr.statuses.length : Int) - (k0 : Int) < nr.capacity := by
    rcases hk01 with h1 | h0
    · rw [h1]; omega
    · have : ¬ ((nr.statuses.length : Int) = nr.capacity) := fun h => by
        have := hfull.mpr h
        omega
      rw [h0]; omega
  have hbelow : ∀ i : Nat, i < k0 → ¬ ((nr.statuses.length : Int) - (i : Int) < nr.capacity) := by
    intro i hi
    have h1 : k0 = 1 := by omega
    have := hfull.mp h1
    omega
  rw [makeRoom_eq, hstep]
  simp only
  by_cases hmax : nr.maxSize = 0
  · rw [if_pos hmax]
    refine ⟨k0, hk0, rfl, fun h => absurd hmax h.1, fun _ => ⟨⟨hroom0, Or.inl hmax⟩, ?_⟩⟩
    intro i hi hroom
    exact hbelow i hi hroom.1
  · rw [if_neg hmax]
    by_cases hbig : size ≥ nr.maxSize
    · rw [if_pos hbig]
      refine ⟨nr.statuses.length, le_refl _, ?_, fun _ => rfl, fun h => absurd ⟨hmax, hbig⟩ h⟩
      rw [List.drop_length, sumSizes_nil]
    · rw [if_neg hbig]
      obtain ⟨j, hj, hfit, hleast, hrun⟩ := makeRoomLoop_least fmtLen size (nr.statuses.drop k0)
        { nr with statuses := nr.statuses.drop k0,
                  size := sumSizes fmtLen (nr.statuses.drop k0) } rfl rfl
        (by simp only; omega)
      have hdd : ∀ i : Nat, (nr.statuses.drop k0).drop i = nr.statuses.drop (k0 + i) := by
        intro i
        rw [List.drop_drop, Nat.add_comm]
      rw [List.length_drop] at hj
      rw [hdd] at hfit hrun
      refine ⟨k0 + j, by omega, hrun, fun h => absurd h.2 hbig, fun _ => ⟨⟨?_, Or.inr hfit⟩, ?_⟩⟩
      · push_cast
        omega
      · intro i hi hroom
        by_cases hik : i < k0
        · exact hbelow i hik hroom.1
        · obtain ⟨i2, rfl⟩ : ∃ i2, i = k0 + i2 := ⟨i - k0, by omega⟩
          have := hleast i2 (by omega)
          rw [hdd] at this
          rcases hroom.2 with h0 | hle
          · exact hmax h0
          · simp only at this
            omega

/-- C27 as stated fails for a negative `maxSize`: a recorder of capacity 2 with
`maxSize` -1 that holds one entry stores a 32-byte entry in place of the old one, so one
entry is evicted; but `maxSize > 0` does not hold, and no number of evictions leaves the
room the claim asks for, since `32 ≤ -1` is false. -/
theorem C27_evicted_count_counterexample :
    NewNodeRecorder "test-node" [.WithCapacity 2, .WithMaxSize (-1)] = .ok negativeLimitRecorder ∧
    negativeLimitRecorder.Push sampleFmtLen (statusOf "test-node" "v0") 1
      = .ret (negativeLimitRecorder1, none) ∧
    negativeLimitRecorder1.Push sampleFmtLen (statusOf "test-node" "v1") 2
      = .ret (negativeLimitRecorder2, none) ∧
    negativeLimitRecorder2.Content
      = negativeLimitRecorder1.Content.drop 1
        ++ [newItem sampleFmtLen (statusOf "test-node" "v1") 2] ∧
    (newItem sampleFmtLen (statusOf "test-node" "v1") 2).Size sampleFmtLen = 32 ∧
    ¬ (0 < negativeLimitRecorder1.maxSize) ∧
    ¬ ∃ k : Nat, negativeLimitRecorder1.leastRoom sampleFmtLen 32 k := by
  refine ⟨rfl, by decide, by decide, by decide, by decide, by decide, ?_⟩
  rintro ⟨k, ⟨_, hroom⟩, _⟩
  rcases hroom with h0 | hle
  · exact absurd h0 (by decide)
  · have hsum := sumSizes_nonneg sampleFmtLen (negativeLimitRecorder1.statuses.drop k)
    have hm : negativeLimitRecorder1.maxSize = -1 := rfl
    rw [hm] at hle
    omega

/-- C27, amended. For a `NodeRecorder` with capacity above 1 in a reachable state with
content `S`, a stored push (valid node name, not coalesced) of an entry of size `z`
leaves `S` without its `k` oldest entries, followed by the new entry, where `k` is
`len(S)` if `maxSize` is not 0 and `z ≥ maxSize`, and otherwise the least number such
that `len(S) - k < capacity` and (`maxSize = 0` or the sizes of the remaining entries
plus `z` sum to at most `maxSize`). -/
theorem C27_evicted_count (fmtLen : Formatter) (nr : NodeRecorder) (h : nr.Reachable fmtLen)
    (hcap : 1 < nr.capacity) (st : Status) (ts : Time) (hne : st.NodeName ≠ "")
    (hname : st.NodeName = nr.nodeName) (hco : nr.coalesces st = false) :
    ∃ k : Nat, k ≤ nr.Content.length ∧
      nr.Push fmtLen st ts
        = .ret ({ nr with
            statuses := nr.Content.drop k ++ [newItem fmtLen st ts],
            size := sumSizes fmtLen (nr.Content.drop k ++ [newItem fmtLen st ts]) }, none) ∧
      (nr.maxSize ≠ 0 ∧ nr.maxSize ≤ (newItem fmtLen st ts).Size fmtLen →
        k = nr.Content.length) ∧
      (¬ (nr.maxSize ≠ 0 ∧ nr.maxSize ≤ (newItem fmtLen st ts).Size fmtLen) →
        nr.leastRoom fmtLen ((newItem fmtLen st ts).Size fmtLen) k) := by
  have wf := Reachable_wellFormed fmtLen nr h
  obtain ⟨k, hk, hrun, hall, hleast⟩ := makeRoom_exact fmtLen nr
    ((newItem fmtLen st ts).Size fmtLen) hcap wf.len_le (wf.acc hcap)
  refine ⟨k, hk, ?_, hall, hleast⟩
  unfold NodeRecorder.Push
  rw [if_neg hne, if_neg (by simpa using hname), hco]
  simp only [Bool.false_eq_true, if_false]
  rw [if_neg (by omega), newItem_statusSize, hrun]
  simp only [NodeRecorder.Content, sumSizes_append, sumSizes_cons, sumSizes_nil]
  congr 3

/-- C27, amended, at a recorder of capacity 3 with a limit of 70 bytes that holds two
entries of 32 bytes: a third entry of 32 bytes evicts the oldest one, and 1 is the least
number of evictions that leaves room. -/
theorem C27_evicted_count_witness :
    limitedRecorder2.Reachable sampleFmtLen ∧
    (∃ k : Nat, k ≤ limitedRecorder2.Content.length ∧
      limitedRecorder2.Push sampleFmtLen (statusOf "test-node" "v2") 3
        = .ret ({ limitedRecorder2 with
            statuses := limitedRecorder2.Content.drop k
              ++ [newItem sampleFmtLen (statusOf "test-node" "v2") 3],
            size := sumSizes sampleFmtLen (limitedRecorder2.Content.drop k
              ++ [newItem sampleFmtLen (statusOf "test-node" "v2") 3]) }, none) ∧
      (limitedRecorder2.maxSize ≠ 0 ∧
          limitedRecorder2.maxSize
            ≤ (newItem sampleFmtLen (statusOf "test-node" "v2") 3).Size sampleFmtLen →
        k = limitedRecorder2.Content.length) ∧
      (¬ (limitedRecorder2.maxSize ≠ 0 ∧
          limitedRecorder2.maxSize
            ≤ (newItem sampleFmtLen (statusOf "test-node" "v2") 3).Size sampleFmtLen) →
        limitedRecorder2.leastRoom sampleFmtLen
          ((newItem sampleFmtLen (statusOf "test-node" "v2") 3).Size sampleFmtLen) k)) ∧
    limitedRecorder2.Push sampleFmtLen (statusOf "test-node" "v2") 3
      = .ret ({ limitedRecorder2 with
          statuses := [newItem sampleFmtLen (statusOf "test-node" "v1") 2,
            newItem sampleFmtLen (statusOf "test-node" "v2") 3],
          size := 64 }, none) :=
  ⟨limitedRecorder2_reachable,
    C27_evicted_count sampleFmtLen limitedRecorder2 limitedRecorder2_reachable (by decide)
      (statusOf "test-node" "v2") 3 (by decide) (by decide) (by decide),
    by decide⟩

/-! ## The model with callback and the model without -/

/-- Running the options with callback and forgetting the callback is running the options
they stand for. -/
theorem Timed_foldl_untimed (opts : List Timed.NodeOption) :
    ∀ nr : Timed.NodeRecorder,
      (opts.foldl Timed.NodeOption.apply nr).toNodeRecorder
        = (opts.filterMap Timed.NodeOption.untimed).foldl NodeOption.apply nr.toNodeRecorder := by
  induction opts with
  | nil => intro nr; rfl
  | cons o rest ih =>
    intro nr
    rw [List.foldl_cons, ih]
    cases o <;> rfl

/-- A successful `NewNodeRecorder`, without the callback. -/
theorem Timed_NewNodeRecorder_untimed (nodeName : String) (opts : List Timed.NodeOption)
    (nr : Timed.NodeRecorder) (h : Timed.NewNodeRecorder nodeName opts = .ok nr) :
    NewNodeRecorder nodeName (opts.filterMap Timed.NodeOption.untimed)
      = .ok nr.toNodeRecorder := by
  unfold Timed.NewNodeRecorder at h
  unfold NewNodeRecorder
  by_cases hn : nodeName = ""
  · rw [if_pos hn] at h
    cases h
  · rw [if_neg hn] at h
    rw [if_neg hn]
    simp only at h ⊢
    have hfold := Timed_foldl_untimed opts
      { timestamper := .func, nodeName := nodeName, capacity := 0, maxSize := 0, size := 0,
        statuses := [], coalesceLast := false }
    simp only at hfold
    rw [← hfold]
    split_ifs at h ⊢ with h1 h2
    · injection h with h
      rw [← h]
    · injection h with h
      rw [← h]

/-- With a callback that returns `ts`, `Push` is the `Push` of the model without
callback at time `ts`. -/
theorem Timed_Push_func (fmtLen : Formatter) (nr : Timed.NodeRecorder) (st : Status)
    (ts : Time) (hfunc : nr.timestamper = .func) :
    nr.Push fmtLen st (.ret ts)
      = (nr.toNodeRecorder.Push fmtLen st ts).map
          fun res => ({ nr with toNodeRecorder := res.1 }, res.2) := by
  obtain ⟨base, tsr⟩ := nr
  simp only at hfunc
  subst hfunc
  unfold Timed.NodeRecorder.Push NodeRecorder.Push
  by_cases hne : st.NodeName = ""
  · rw [if_pos hne, if_pos hne]
    rfl
  rw [if_neg hne, if_neg hne]
  by_cases hname : st.NodeName ≠ base.nodeName
  · rw [if_pos hname, if_pos hname]
    rfl
  rw [if_neg hname, if_neg hname]
  simp only
  by_cases hco : base.coalesces st = true
  · rw [if_pos hco, if_pos hco]
    rfl
  rw [if_neg hco, if_neg hco]
  by_cases h1 : base.capacity = 1
  · rw [if_pos h1, if_pos h1]
    cases base.statuses <;> rfl
  · rw [if_neg h1, if_neg h1]
    cases base.makeRoom fmtLen (newItem fmtLen st ts).statusSize <;> rfl

/-- A `Push` that returns keeps the callback, and the model without callback makes the
same step at some time. -/
theorem Timed_Push_ret (fmtLen : Formatter) (nr nr1 : Timed.NodeRecorder) (st : Status)
    (now : Run Time) (err : Option Error) (h : nr.Push fmtLen st now = .ret (nr1, err)) :
    nr1.timestamper = nr.timestamper ∧
      ∃ ts : Time, nr.toNodeRecorder.Push fmtLen st ts = .ret (nr1.toNodeRecorder, err) := by
  by_cases hne : st.NodeName = ""
  · simp only [Timed.NodeRecorder.Push, if_pos hne] at h
    injection h with h
    injection h with h1 h2
    rw [← h1, ← h2]
    exact ⟨rfl, 0, by simp [NodeRecorder.Push, hne]⟩
  by_cases hname : st.NodeName ≠ nr.nodeName
  · simp only [Timed.NodeRecorder.Push, if_neg hne, if_pos hname] at h
    injection h with h
    injection h with h1 h2
    rw [← h1, ← h2]
    exact ⟨rfl, 0, by simp [NodeRecorder.Push, hne, hname]⟩
  cases htsr : nr.timestamper with
  | nil =>
    simp only [Timed.NodeRecorder.Push, if_neg hne, if_neg hname, htsr] at h
    cases h
  | func =>
    cases now with
    | panics =>
      simp only [Timed.NodeRecorder.Push, if_neg hne, if_neg hname, htsr] at h
      cases h
    | diverges =>
      simp only [Timed.NodeRecorder.Push, if_neg hne, if_neg hname, htsr] at h
      cases h
    | ret ts =>
      rw [Timed_Push_func fmtLen nr st ts htsr] at h
      cases hb : nr.toNodeRecorder.Push fmtLen st ts with
      | panics => rw [hb] at h; cases h
      | diverges => rw [hb] at h; cases h
      | ret res =>
        obtain ⟨b1, e1⟩ := res
        rw [hb] at h
        simp only [Run.map] at h
        injection h with h
        injection h with h1 h2
        rw [← h1, ← h2]
        exact ⟨htsr, ts, hb⟩

/-- Every reachable state with callback is, without it, a reachable state of the model
without callback. -/
theorem Timed_Reachable_untimed (fmtLen : Formatter) (nr : Timed.NodeRecorder)
    (h : nr.Reachable fmtLen) : nr.toNodeRecorder.Reachable fmtLen := by
  induction h with
  | init nodeName opts nr hnew =>
    exact .init nodeName _ _ (Timed_NewNodeRecorder_untimed nodeName opts nr hnew)
  | push nr nr1 st now err _ hpush ih =>
    obtain ⟨_, ts, hb⟩ := Timed_Push_ret fmtLen nr nr1 st now err hpush
    exact .push _ _ st ts err ih hb

/-- On a well-formed store whose callback is not `nil` and returns, `Push` returns and
the store stays well formed. -/
theorem Timed_Push_returns (fmtLen : Formatter) (nr : Timed.NodeRecorder) (st : Status)
    (ts : Time) (wf : nr.toNodeRecorder.WellFormed fmtLen) (hfunc : nr.timestamper ≠ .nil) :
    ∃ (nr1 : Timed.NodeRecorder) (err : Option Error),
      nr.Push fmtLen st (.ret ts) = .ret (nr1, err) ∧
      nr1.toNodeRecorder.WellFormed fmtLen ∧ nr1.timestamper = nr.timestamper ∧
      nr1.nodeName = nr.nodeName := by
  have htsr : nr.timestamper = .func := by
    cases h : nr.timestamper with
    | nil => exact absurd h hfunc
    | func => rfl
  obtain ⟨b1, err, hp, wf1, hn1, _⟩ := Push_wellFormed fmtLen nr.toNodeRecorder st ts wf
  refine ⟨{ nr with toNodeRecorder := b1 }, err, ?_, wf1, rfl, hn1⟩
  rw [Timed_Push_func fmtLen nr st ts htsr, hp]
  rfl

theorem Timed_foldl_nodes (opts : List Timed.RecorderOption) :
    ∀ rr : Timed.Recorder, (opts.foldl Timed.RecorderOption.apply rr).nodes = rr.nodes := by
  induction opts with
  | nil => intro rr; rfl
  | cons o rest ih =>
    intro rr
    rw [List.foldl_cons, ih]
    cases o <;> rfl

/-- What `NewRecorder` returns is well formed: it has no per-node store yet. -/
theorem Timed_NewRecorder_wellFormed (fmtLen : Formatter) (opts : List Timed.RecorderOption)
    (rr : Timed.Recorder) (h : Timed.NewRecorder opts = .ok rr) : rr.WellFormed fmtLen := by
  unfold Timed.NewRecorder at h
  have hnodes := Timed_foldl_nodes opts
    { nodes := ∅, timestamper := .func, maxNodes := DefaultMaxNodes, nodeCapacity := 1,
      maxSize := 0, coalesceLast := false }
  simp only at h hnodes
  split_ifs at h with h1 h2
  injection h with h
  rw [← h]
  constructor
  · omega
  · intro name nr hlook
    rw [hnodes] at hlook
    simp at hlook

/-- The per-node store that `Recorder.Push` creates for a new node name has the callback
of the `Recorder`. -/
theorem Timed_NewNodeRecorder_for_node (fmtLen : Formatter) (rr : Timed.Recorder)
    (name : String) (hne : name ≠ "") (hcap : 1 ≤ rr.nodeCapacity) :
    ∃ nr : Timed.NodeRecorder,
      Timed.NewNodeRecorder name
        [.WithTimestamper rr.timestamper, .WithCapacity rr.nodeCapacity,
          .WithMaxSize rr.maxSize, .WithCoalescing rr.coalesceLast] = .ok nr ∧
      nr.nodeName = name ∧ nr.toNodeRecorder.WellFormed fmtLen ∧
      nr.timestamper = rr.timestamper := by
  have hnot : ¬ rr.nodeCapacity < 1 := by omega
  have hex : ∃ nr : Timed.NodeRecorder,
      Timed.NewNodeRecorder name
        [.WithTimestamper rr.timestamper, .WithCapacity rr.nodeCapacity,
          .WithMaxSize rr.maxSize, .WithCoalescing rr.coalesceLast] = .ok nr ∧
      nr.timestamper = rr.timestamper := by
    simp only [Timed.NewNodeRecorder, hne, List.foldl, Timed.NodeOption.apply, if_false, hnot]
    split_ifs <;> exact ⟨_, rfl, rfl⟩
  obtain ⟨nr, hnr, htsr⟩ := hex
  have hb := Timed_NewNodeRecorder_untimed _ _ _ hnr
  exact ⟨nr, hnr, (NewNodeRecorder_ok _ _ _ hb).2.1,
    NewNodeRecorder_wellFormed fmtLen _ _ _ hb, htsr⟩

/-- Binding the node of the status to a store that is well formed and has the callback
of the `Recorder` keeps the `Recorder` well formed. -/
theorem Timed_insert_wellFormed (fmtLen : Formatter) (rr : Timed.Recorder)
    (nr1 : Timed.NodeRecorder) (name : String) (wf : rr.WellFormed fmtLen)
    (hname : nr1.nodeName = name) (hwf : nr1.toNodeRecorder.WellFormed fmtLen)
    (htsr : nr1.timestamper = rr.timestamper) :
    Timed.Recorder.WellFormed fmtLen { rr with nodes := rr.nodes.insert name nr1 } := by
  constructor
  · exact wf.cap_pos
  · intro n nr2 hlook
    simp only at hlook
    by_cases hn : n = name
    · subst hn
      rw [Finmap.lookup_insert] at hlook
      injection hlook with hlook
      rw [← hlook]
      exact ⟨hname, hwf, htsr⟩
    · rw [Finmap.lookup_insert_of_ne _ hn] at hlook
      exact wf.nodes_wf n nr2 hlook

/-- A `pushInto` that returns keeps the `Recorder` well formed and its callback. -/
theorem Timed_pushInto_ret (fmtLen : Formatter) (rr rr1 : Timed.Recorder)
    (nr : Timed.NodeRecorder) (st : Status) (now : Run Time) (err : Option Error)
    (wf : rr.WellFormed fmtLen) (hname : nr.nodeName = st.NodeName)
    (hwf : nr.toNodeRecorder.WellFormed fmtLen) (htsr : nr.timestamper = rr.timestamper)
    (h : rr.pushInto fmtLen nr st now = .ret (rr1, err)) :
    rr1.WellFormed fmtLen ∧ rr1.timestamper = rr.timestamper := by
  unfold Timed.Recorder.pushInto at h
  cases hp : nr.Push fmtLen st now with
  | panics => rw [hp] at h; cases h
  | diverges => rw [hp] at h; cases h
  | ret res =>
    obtain ⟨nr1, e1⟩ := res
    rw [hp] at h
    injection h with h
    injection h with h1 _
    obtain ⟨htsr1, ts, hb⟩ := Timed_Push_ret fmtLen nr nr1 st now e1 hp
    obtain ⟨b2, e2, hb2, wf2, hn2, _⟩ := Push_wellFormed fmtLen nr.toNodeRecorder st ts hwf
    rw [hb] at hb2
    injection hb2 with hb2
    injection hb2 with hb3 _
    rw [← h1]
    refine ⟨Timed_insert_wellFormed fmtLen rr nr1 st.NodeName wf ?_ ?_ (htsr1.trans htsr), rfl⟩
    · have : nr1.nodeName = b2.nodeName := by rw [← hb3]
      rw [this, hn2]
      exact hname
    · rw [hb3]
      exact wf2

/-- A `Recorder.Push` that returns keeps the `Recorder` well formed and its callback. -/
theorem Timed_Recorder_Push_ret (fmtLen : Formatter) (rr rr1 : Timed.Recorder) (st : Status)
    (now : Run Time) (err : Option Error) (wf : rr.WellFormed fmtLen)
    (h : rr.Push fmtLen st now = .ret (rr1, err)) :
    rr1.WellFormed fmtLen ∧ rr1.timestamper = rr.timestamper := by
  unfold Timed.Recorder.Push at h
  by_cases hne : st.NodeName = ""
  · rw [if_pos hne] at h
    injection h with h
    injection h with h _
    rw [← h]
    exact ⟨wf, rfl⟩
  rw [if_neg hne] at h
  cases hlook : rr.nodes.lookup st.NodeName with
  | some nr =>
    rw [hlook] at h
    obtain ⟨hname, hwf, htsr⟩ := wf.nodes_wf _ _ hlook
    exact Timed_pushInto_ret fmtLen rr rr1 nr st now err wf hname hwf htsr h
  | none =>
    rw [hlook] at h
    simp only at h
    by_cases hfull : rr.maxCapacityReached = true
    · rw [if_pos hfull] at h
      injection h with h
      injection h with h _
      rw [← h]
      exact ⟨wf, rfl⟩
    · rw [if_neg hfull] at h
      obtain ⟨nr, hnew, hname, hwf, htsr⟩ :=
        Timed_NewNodeRecorder_for_node fmtLen rr st.NodeName hne wf.cap_pos
      rw [hnew] at h
      exact Timed_pushInto_ret fmtLen rr rr1 nr st now err wf hname hwf htsr h

/-- Every reachable `Recorder` state is well formed. -/
theorem Timed_Recorder_Reachable_wellFormed (fmtLen : Formatter) (rr : Timed.Recorder)
    (h : rr.Reachable fmtLen) : rr.WellFormed fmtLen := by
  induction h with
  | init opts rr hnew => exact Timed_NewRecorder_wellFormed fmtLen opts rr hnew
  | push rr rr1 st now err _ hpush ih =>
    exact (Timed_Recorder_Push_ret fmtLen rr rr1 st now err ih hpush).1

/-- On a well-formed `Recorder` whose callback is not `nil` and returns, `Push`
returns. -/
theorem Timed_Recorder_Push_returns (fmtLen : Formatter) (rr : Timed.Recorder) (st : Status)
    (ts : Time) (wf : rr.WellFormed fmtLen) (hfunc : rr.timestamper ≠ .nil) :
    ∃ (rr1 : Timed.Recorder) (err : Option Error),
      rr.Push fmtLen st (.ret ts) = .ret (rr1, err) := by
  unfold Timed.Recorder.Push
  by_cases hne : st.NodeName = ""
  · rw [if_pos hne]
    exact ⟨_, _, rfl⟩
  rw [if_neg hne]
  cases hlook : rr.nodes.lookup st.NodeName with
  | some nr =>
    obtain ⟨_, hwf, htsr⟩ := wf.nodes_wf _ _ hlook
    obtain ⟨nr1, err, hp, _⟩ := Timed_Push_returns fmtLen nr st ts hwf (htsr ▸ hfunc)
    simp only [Timed.Recorder.pushInto, hp]
    exact ⟨_, _, rfl⟩
  | none =>
    simp only
    by_cases hfull : rr.maxCapacityReached = true
    · rw [if_pos hfull]
      exact ⟨_, _, rfl⟩
    · rw [if_neg hfull]
      obtain ⟨nr, hnew, _, hwf, htsr⟩ :=
        Timed_NewNodeRecorder_for_node fmtLen rr st.NodeName hne wf.cap_pos
      obtain ⟨nr1, err, hp, _⟩ := Timed_Push_returns fmtLen nr st ts hwf (htsr ▸ hfunc)
      rw [hnew]
      simp only [Timed.Recorder.pushInto, hp]
      exact ⟨_, _, rfl⟩

/-! ## C26: `Push` never panics -/

/-- C26 as stated fails: `WithTimestamper(nil)` and `WithNodeTimestamper(nil)` are
accepted, the constructors succeed, and the first accepted `Push` panics on the call of
the callback. -/
theorem C26_push_never_panics_counterexample :
    Timed.NewNodeRecorder "test-node" [.WithCapacity 3, .WithTimestamper .nil]
      = .ok nilTimestamperRecorder ∧
    nilTimestamperRecorder.Push sampleFmtLen (statusOf "test-node" "v0") (.ret 1) = .panics ∧
    Timed.NewRecorder [.WithNodeTimestamper .nil] = .ok nilTimestamperNodes ∧
    nilTimestamperNodes.Push sampleFmtLen (statusOf "node-0" "v0") (.ret 1) = .panics :=
  ⟨rfl, by decide, rfl, by decide⟩

/-- C26, amended. In every state reachable from a successful `NewNodeRecorder` by `Push`
calls, the indices `Push` uses are within the stored sequence: a capacity-1 recorder
holds an entry at slot 0, a non-empty recorder has its newest entry at `Len()-1`, and a
recorder with `Len() ≥ 1` has an entry 0 to remove. If moreover the timestamper is not
`nil` and its call returns, `Push` returns, whatever the status: it neither panics nor
loops. In every state reachable from a successful `NewRecorder` each per-node store is
bound to its own name and has the timestamper of the `Recorder`, and with a timestamper
that is not `nil` and returns, `Push` returns: the per-node store it pushes into
exists. -/
theorem C26_push_never_panics_with_timestamper (fmtLen : Formatter) :
    (∀ nr : Timed.NodeRecorder, nr.Reachable fmtLen →
      (nr.capacity = 1 → 0 < nr.statuses.length) ∧
      (nr.toNodeRecorder.Len ≠ 0 → ∃ lastItem : RecordedStatus,
        nr.statuses[nr.statuses.length - 1]? = some lastItem ∧
        nr.statuses.getLast? = some lastItem) ∧
      (1 ≤ nr.toNodeRecorder.Len →
        ∃ (oldest : RecordedStatus) (rest : List RecordedStatus),
          nr.statuses = oldest :: rest ∧
          nr.toNodeRecorder.dropOldest fmtLen
            = { nr.toNodeRecorder with
                size := nr.size - oldest.Size fmtLen, statuses := rest }) ∧
      (nr.timestamper ≠ .nil →
        ∀ (st : Status) (ts : Time), ∃ (nr1 : Timed.NodeRecorder) (err : Option Error),
          nr.Push fmtLen st (.ret ts) = .ret (nr1, err))) ∧
    (∀ rr : Timed.Recorder, rr.Reachable fmtLen →
      (∀ (name : String) (nr : Timed.NodeRecorder), rr.nodes.lookup name = some nr →
        nr.nodeName = name ∧ nr.timestamper = rr.timestamper ∧
        (nr.capacity = 1 → 0 < nr.statuses.length)) ∧
      (rr.timestamper ≠ .nil →
        ∀ (st : Status) (ts : Time), ∃ (rr1 : Timed.Recorder) (err : Option Error),
          rr.Push fmtLen st (.ret ts) = .ret (rr1, err))) := by
  constructor
  · intro nr hr
    have wf := Reachable_wellFormed fmtLen nr.toNodeRecorder
      (Timed_Reachable_untimed fmtLen nr hr)
    refine ⟨fun h1 => ?_, fun hlen => ?_, fun hlen => ?_, fun hfunc st ts => ?_⟩
    · rw [wf.slot h1]
      exact Nat.one_pos
    · have hne : nr.statuses ≠ [] := by
        intro h
        apply hlen
        simp [NodeRecorder.Len, h]
      refine ⟨nr.statuses.getLast hne, ?_, List.getLast?_eq_getLast _ hne⟩
      rw [← List.getLast?_eq_getElem?, List.getLast?_eq_getLast _ hne]
    · cases hs : nr.statuses with
      | nil =>
        simp [NodeRecorder.Len, hs] at hlen
      | cons oldest rest =>
        refine ⟨oldest, rest, rfl, ?_⟩
        simp [NodeRecorder.dropOldest, hs]
    · obtain ⟨nr1, err, hp, _⟩ := Timed_Push_returns fmtLen nr st ts wf hfunc
      exact ⟨nr1, err, hp⟩
  · intro rr hr
    have wf := Timed_Recorder_Reachable_wellFormed fmtLen rr hr
    refine ⟨fun name nr hlook => ?_, fun hfunc st ts => ?_⟩
    · obtain ⟨hname, hwf, htsr⟩ := wf.nodes_wf name nr hlook
      refine ⟨hname, htsr, fun h1 => ?_⟩
      rw [hwf.slot h1]
      exact Nat.one_pos
    · exact Timed_Recorder_Push_returns fmtLen rr st ts wf hfunc

theorem timedPair2_reachable : timedPair2.Reachable sampleFmtLen :=
  .push { timedPair with
      statuses := [newItem sampleFmtLen (statusOf "test-node" "v0") 1], size := 32 }
    timedPair2 (statusOf "test-node" "v1") (.ret 2) none
    (.push timedPair _ (statusOf "test-node" "v0") (.ret 1) none
      (.init "test-node" [.WithCapacity 2, .WithCoalescing true] timedPair rfl) (by decide))
    (by decide)

/-- C26, amended, at stored pushes. A fresh capacity-1 recorder overwrites slot 0. A
full coalescing recorder of capacity 2 reads its newest entry, removes entry 0 and
appends. A fresh `Recorder` creates the store of `node-0` and pushes into it. -/
theorem C26_push_never_panics_with_timestamper_witness :
    (∃ (nr1 : Timed.NodeRecorder) (err : Option Error),
      timedSingleSlot.Push sampleFmtLen (statusOf "test-node" "v0") (.ret 1)
        = .ret (nr1, err)) ∧
    timedSingleSlot.Push sampleFmtLen (statusOf "test-node" "v0") (.ret 1)
      = .ret ({ timedSingleSlot with
          statuses := [newItem sampleFmtLen (statusOf "test-node" "v0") 1], size := 32 },
        none) ∧
    (∃ (nr1 : Timed.NodeRecorder) (err : Option Error),
      timedPair2.Push sampleFmtLen (statusOf "test-node" "v2") (.ret 3) = .ret (nr1, err)) ∧
    timedPair2.Push sampleFmtLen (statusOf "test-node" "v2") (.ret 3)
      = .ret ({ timedPair2 with
          statuses := [newItem sampleFmtLen (statusOf "test-node" "v1") 2,
            newItem sampleFmtLen (statusOf "test-node" "v2") 3],
          size := 64 }, none) ∧
    (∃ (rr1 : Timed.Recorder) (err : Option Error),
      timedDefaultRecorder.Push sampleFmtLen (statusOf "node-0" "v0") (.ret 1)
        = .ret (rr1, err)) ∧
    timedDefaultRecorder.Push sampleFmtLen (statusOf "node-0" "v0") (.ret 1)
      = .ret ({ timedDefaultRecorder with
          nodes := Finmap.singleton "node-0"
            { timestamper := .func, nodeName := "node-0", capacity := 1, maxSize := 0,
              size := 32, statuses := [newItem sampleFmtLen (statusOf "node-0" "v0") 1],
              coalesceLast := false } }, none) :=
  ⟨((C26_push_never_panics_with_timestamper sampleFmtLen).1 timedSingleSlot
      (.init "test-node" [.WithCapacity 1] timedSingleSlot rfl)).2.2.2 (by decide)
      (statusOf "test-node" "v0") 1,
    by decide,
    ((C26_push_never_panics_with_timestamper sampleFmtLen).1 timedPair2
      timedPair2_reachable).2.2.2 (by decide) (statusOf "test-node" "v2") 3,
    by decide,
    ((C26_push_never_panics_with_timestamper sampleFmtLen).2 timedDefaultRecorder
      (.init [] timedDefaultRecorder rfl)).2 (by decide) (statusOf "node-0" "v0") 1,
    by decide⟩

end record

namespace pfpstatus

/-! ## C20: the decision of the bearer-token check -/

theorem empty_has_no_bearer : HasPrefix "" "Bearer " = false := by decide

/-- The header test of `canTokenBearerDebugPFPs` is the test for the `Bearer ` lead:
the empty header fails it as well. -/
theorem header_test (authHeader : String) :
    (authHeader = "" ∨ ¬ HasPrefix authHeader "Bearer " = true) ↔
      HasPrefix authHeader "Bearer " = false := by
  constructor
  · rintro (h | h)
    · rw [h]; exact empty_has_no_bearer
    · simpa using h
  · intro h
    exact Or.inr (by simp [h])

/-- C20. `canTokenBearerDebugPFPs` returns no error exactly when the `Authorization`
header starts with `Bearer `, the token review call succeeds and reports
`Authenticated`, and the access review call succeeds and reports `Allowed`. Otherwise
the code is 401 for a missing or malformed header, 500 if the token review call fails,
401 if the token is not authenticated, 500 if the access review call fails and 403 if
access is denied; the access review is only asked after a successful authentication.
For a request that is not from loopback, `ServeHTTP` runs the wrapped handler exactly
when no error is returned, and otherwise answers with the error under that code. -/
theorem C20_bearer_decision (cs : Clientset) (authHeader : String) :
    ((canTokenBearerDebugPFPs cs authHeader).err = none ↔
      (HasPrefix authHeader "Bearer " = true ∧
        ∃ tr : TokenReviewStatus,
          cs.CreateTokenReview (TrimPrefix authHeader "Bearer ") = .ok tr ∧
          tr.Authenticated = true ∧
          ∃ sarResult : SubjectAccessReviewStatus,
            cs.CreateSubjectAccessReview (debugAccessReview tr.User) = .ok sarResult ∧
            sarResult.Allowed = true)) ∧
    (HasPrefix authHeader "Bearer " = false →
      (canTokenBearerDebugPFPs cs authHeader).err ≠ none ∧
      (canTokenBearerDebugPFPs cs authHeader).code = 401 ∧
      (canTokenBearerDebugPFPs cs authHeader).calls = []) ∧
    (HasPrefix authHeader "Bearer " = true →
      ∀ e : String, cs.CreateTokenReview (TrimPrefix authHeader "Bearer ") = .error e →
      (canTokenBearerDebugPFPs cs authHeader).err ≠ none ∧
      (canTokenBearerDebugPFPs cs authHeader).code = 500 ∧
      (canTokenBearerDebugPFPs cs authHeader).calls
        = [.TokenReview (TrimPrefix authHeader "Bearer ")]) ∧
    (HasPrefix authHeader "Bearer " = true →
      ∀ tr : TokenReviewStatus,
      cs.CreateTokenReview (TrimPrefix authHeader "Bearer ") = .ok tr →
      (tr.Authenticated = false →
        (canTokenBearerDebugPFPs cs authHeader).err ≠ none ∧
        (canTokenBearerDebugPFPs cs authHeader).code = 401 ∧
        (canTokenBearerDebugPFPs cs authHeader).calls
          = [.TokenReview (TrimPrefix authHeader "Bearer ")]) ∧
      (tr.Authenticated = true →
        (∀ e : String, cs.CreateSubjectAccessReview (debugAccessReview tr.User) = .error e →
          (canTokenBearerDebugPFPs cs authHeader).err ≠ none ∧
          (canTokenBearerDebugPFPs cs authHeader).code = 500) ∧
        (∀ sarResult : SubjectAccessReviewStatus,
          cs.CreateSubjectAccessReview (debugAccessReview tr.User) = .ok sarResult →
          sarResult.Allowed = false →
          (canTokenBearerDebugPFPs cs authHeader).err ≠ none ∧
          (canTokenBearerDebugPFPs cs authHeader).code = 403))) ∧
    (∀ spec : SubjectAccessReviewSpec,
      .SubjectAccessReview spec ∈ (canTokenBearerDebugPFPs cs authHeader).calls →
      ∃ tr : TokenReviewStatus,
        cs.CreateTokenReview (TrimPrefix authHeader "Bearer ") = .ok tr ∧
        tr.Authenticated = true ∧ spec = debugAccessReview tr.User) ∧
    (∀ (net : NetLib) (next : Request → Response) (r : Request),
      r.Authorization = authHeader → isRequestFromLoopback net r.RemoteAddr = false →
      ((TokenBearerAuthenticator.ServeHTTP net { cs := cs, next := next } r).nextRan = true ↔
        (canTokenBearerDebugPFPs cs authHeader).err = none) ∧
      ((canTokenBearerDebugPFPs cs authHeader).err = none →
        (TokenBearerAuthenticator.ServeHTTP net { cs := cs, next := next } r).response
          = next r) ∧
      (∀ msg : String, (canTokenBearerDebugPFPs cs authHeader).err = some msg →
        (TokenBearerAuthenticator.ServeHTTP net { cs := cs, next := next } r).response
          = httpError msg (canTokenBearerDebugPFPs cs authHeader).code)) := by
  have hserve : ∀ (net : NetLib) (next : Request → Response) (r : Request),
      r.Authorization = authHeader → isRequestFromLoopback net r.RemoteAddr = false →
      ((TokenBearerAuthenticator.ServeHTTP net { cs := cs, next := next } r).nextRan = true ↔
        (canTokenBearerDebugPFPs cs authHeader).err = none) ∧
      ((canTokenBearerDebugPFPs cs authHeader).err = none →
        (TokenBearerAuthenticator.ServeHTTP net { cs := cs, next := next } r).response
          = next r) ∧
      (∀ msg : String, (canTokenBearerDebugPFPs cs authHeader).err = some msg →
        (TokenBearerAuthenticator.ServeHTTP net { cs := cs, next := next } r).response
          = httpError msg (canTokenBearerDebugPFPs cs authHeader).code) := by
    intro net next r hr hloop
    unfold TokenBearerAuthenticator.ServeHTTP
    simp only [hloop, Bool.false_eq_true, if_false, hr]
    cases herr : (canTokenBearerDebugPFPs cs authHeader).err with
    | none => simp
    | some msg => simp
  by_cases hp : HasPrefix authHeader "Bearer " = true
  swap
  · have hp2 : HasPrefix authHeader "Bearer " = false := by simpa using hp
    have hres : canTokenBearerDebugPFPs cs authHeader
        = { err := some "Unauthorized: Missing Authorization Header",
            code := StatusUnauthorized, calls := [] } := by
      unfold canTokenBearerDebugPFPs
      rw [if_pos ((header_test authHeader).mpr hp2)]
    refine ⟨?_, ?_, ?_, ?_, ?_, hserve⟩
    · rw [hres]; simp [hp2]
    · intro _; rw [hres]; exact ⟨by simp, rfl, rfl⟩
    · intro h; rw [hp2] at h; cases h
    · intro h; rw [hp2] at h; cases h
    · intro spec hmem; rw [hres] at hmem; simp at hmem
  have hnot : ¬ (authHeader = "" ∨ ¬ HasPrefix authHeader "Bearer " = true) := by
    rw [header_test, hp]; simp
  cases htr : cs.CreateTokenReview (TrimPrefix authHeader "Bearer ") with
  | error e =>
    have hres : canTokenBearerDebugPFPs cs authHeader
        = { err := some ("Internal Server Error: " ++ e), code := StatusInternalServerError,
            calls := [.TokenReview (TrimPrefix authHeader "Bearer ")] } := by
      unfold canTokenBearerDebugPFPs
      rw [if_neg hnot]
      simp only [htr]
    refine ⟨?_, ?_, ?_, ?_, ?_, hserve⟩
    · rw [hres]; simp
    · intro h; rw [hp] at h; cases h
    · intro _ e2 _; rw [hres]; exact ⟨by simp, rfl, rfl⟩
    · intro _ tr h; cases h
    · intro spec hmem; rw [hres] at hmem; simp at hmem
  | ok tr =>
    by_cases hauth : tr.Authenticated = true
    swap
    · have hauth2 : tr.Authenticated = false := by simpa using hauth
      have hres : canTokenBearerDebugPFPs cs authHeader
          = { err := some "Unauthorized: Invalid token", code := StatusUnauthorized,
              calls := [.TokenReview (TrimPrefix authHeader "Bearer ")] } := by
        unfold canTokenBearerDebugPFPs
        rw [if_neg hnot]
        simp only [htr, hauth2, Bool.false_eq_true, not_false_eq_true, if_true]
      refine ⟨?_, ?_, ?_, ?_, ?_, hserve⟩
      · rw [hres]
        constructor
        · intro h; cases h
        · rintro ⟨_, tr2, h2, ha, _⟩
          injection h2 with h2
          rw [← h2, hauth2] at ha
          cases ha
      · intro h; rw [hp] at h; cases h
      · intro _ e h; cases h
      · intro _ tr2 h2
        injection h2 with h2
        subst h2
        refine ⟨fun _ => ?_, fun h => ?_⟩
        · rw [hres]; exact ⟨by simp, rfl, rfl⟩
        · rw [hauth2] at h; cases h
      · intro spec hmem; rw [hres] at hmem; simp at hmem
    · cases hsar : cs.CreateSubjectAccessReview (debugAccessReview tr.User) with
      | error e =>
        have hres : canTokenBearerDebugPFPs cs authHeader
            = { err := some ("Internal Server Error: " ++ e),
                code := StatusInternalServerError,
                calls := [.TokenReview (TrimPrefix authHeader "Bearer "),
                  .SubjectAccessReview (debugAccessReview tr.User)] } := by
          unfold canTokenBearerDebugPFPs
          rw [if_neg hnot]
          simp only [htr, hauth, not_true_eq_false, if_false, hsar]
        refine ⟨?_, ?_, ?_, ?_, ?_, hserve⟩
        · rw [hres]
          constructor
          · intro h; cases h
          · rintro ⟨_, tr2, h2, _, res2, h3, _⟩
            injection h2 with h2
            rw [← h2, hsar] at h3
            cases h3
        · intro h; rw [hp] at h; cases h
        · intro _ e2 h; cases h
        · intro _ tr2 h2
          injection h2 with h2
          subst h2
          refine ⟨fun h => ?_, fun _ => ⟨fun e2 _ => ?_, fun res2 h3 => ?_⟩⟩
          · rw [hauth] at h; cases h
          · rw [hres]; exact ⟨by simp, rfl⟩
          · rw [hsar] at h3; cases h3
        · intro spec hmem
          rw [hres] at hmem
          simp only [List.mem_cons, List.mem_singleton, List.not_mem_nil, or_false] at hmem
          rcases hmem with h | h
          · cases h
          · injection h with h
            exact ⟨tr, rfl, hauth, h⟩
      | ok sarResult =>
        by_cases hallow : sarResult.Allowed = true
        · have hres : canTokenBearerDebugPFPs cs authHeader
              = { err := none, code := StatusOK,
                  calls := [.TokenReview (TrimPrefix authHeader "Bearer "),
                    .SubjectAccessReview (debugAccessReview tr.User)] } := by
            unfold canTokenBearerDebugPFPs
            rw [if_neg hnot]
            simp only [htr, hauth, not_true_eq_false, if_false, hsar, hallow]
          refine ⟨?_, ?_, ?_, ?_, ?_, hserve⟩
          · rw [hres]
            simp only [true_iff]
            exact ⟨hp, tr, rfl, hauth, sarResult, hsar, hallow⟩
          · intro h; rw [hp] at h; cases h
          · intro _ e2 h; cases h
          · intro _ tr2 h2
            injection h2 with h2
            subst h2
            refine ⟨fun h => ?_, fun _ => ⟨fun e2 h3 => ?_, fun res2 h3 h4 => ?_⟩⟩
            · rw [hauth] at h; cases h
            · rw [hsar] at h3; cases h3
            · rw [hsar] at h3
              injection h3 with h3
              rw [← h3, hallow] at h4
              cases h4
          · intro spec hmem
            rw [hres] at hmem
            simp only [List.mem_cons, List.mem_singleton, List.not_mem_nil, or_false] at hmem
            rcases hmem with h | h
            · cases h
            · injection h with h
              exact ⟨tr, rfl, hauth, h⟩
        · have hallow2 : sarResult.Allowed = false := by simpa using hallow
          have hres : canTokenBearerDebugPFPs cs authHeader
              = { err := some ("Forbidden: " ++ sarResult.Reason), code := StatusForbidden,
                  calls := [.TokenReview (TrimPrefix authHeader "Bearer "),
                    .SubjectAccessReview (debugAccessReview tr.User)] } := by
            unfold canTokenBearerDebugPFPs
            rw [if_neg hnot]
            simp only [htr, hauth, not_true_eq_false, if_false, hsar, hallow2,
              Bool.false_eq_true, not_false_eq_true, if_true]
          refine ⟨?_, ?_, ?_, ?_, ?_, hserve⟩
          · rw [hres]
            constructor
            · intro h; cases h
            · rintro ⟨_, tr2, h2, _, res2, h3, h4⟩
              injection h2 with h2
              rw [← h2, hsar] at h3
              injection h3 with h3
              rw [← h3, hallow2] at h4
              cases h4
          · intro h; rw [hp] at h; cases h
          · intro _ e2 h; cases h
          · intro _ tr2 h2
            injection h2 with h2
            subst h2
            refine ⟨fun h => ?_, fun _ => ⟨fun e2 h3 => ?_, fun res2 h3 _ => ?_⟩⟩
            · rw [hauth] at h; cases h
            · rw [hsar] at h3; cases h3
            · rw [hres]; exact ⟨by simp, rfl⟩
          · intro spec hmem
            rw [hres] at hmem
            simp only [List.mem_cons, List.mem_singleton, List.not_mem_nil, or_false] at hmem
            rcases hmem with h | h
            · cases h
            · injection h with h
              exact ⟨tr, rfl, hauth, h⟩

/-- C20 at the sample cluster: `Bearer good` passes, `Bearer guest` is denied with 403,
and a header without the `Bearer ` lead is rejected with 401 before any call. -/
theorem C20_bearer_decision_witness :
    (canTokenBearerDebugPFPs sampleClientset "Bearer good").err = none ∧
    ((canTokenBearerDebugPFPs sampleClientset "Bearer guest").err ≠ none ∧
      (canTokenBearerDebugPFPs sampleClientset "Bearer guest").code = 403) ∧
    ((canTokenBearerDebugPFPs sampleClientset "Basic good").err ≠ none ∧
      (canTokenBearerDebugPFPs sampleClientset "Basic good").code = 401 ∧
      (canTokenBearerDebugPFPs sampleClientset "Basic good").calls = []) :=
  ⟨(C20_bearer_decision sampleClientset "Bearer good").1.mpr
      ⟨by decide, _, rfl, rfl, _, rfl, rfl⟩,
    (((C20_bearer_decision sampleClientset "Bearer guest").2.2.2.1 (by decide) _ rfl).2
      rfl).2 _ rfl rfl,
    (C20_bearer_decision sampleClientset "Basic good").2.1 (by decide)⟩

/-! ## The five ways through `canTokenBearerDebugPFPs` -/

/-- The result of `canTokenBearerDebugPFPs`, by the way taken through it. -/
theorem canTokenBearerDebugPFPs_cases (cs : Clientset) (authHeader : String) :
    (HasPrefix authHeader "Bearer " = false ∧
      canTokenBearerDebugPFPs cs authHeader
        = { err := some "Unauthorized: Missing Authorization Header",
            code := StatusUnauthorized, calls := [] }) ∨
    (HasPrefix authHeader "Bearer " = true ∧
      ((∃ e : String, cs.CreateTokenReview (TrimPrefix authHeader "Bearer ") = .error e ∧
        canTokenBearerDebugPFPs cs authHeader
          = { err := some ("Internal Server Error: " ++ e),
              code := StatusInternalServerError,
              calls := [.TokenReview (TrimPrefix authHeader "Bearer ")] }) ∨
      (∃ tr : TokenReviewStatus,
        cs.CreateTokenReview (TrimPrefix authHeader "Bearer ") = .ok tr ∧
        ((tr.Authenticated = false ∧
          canTokenBearerDebugPFPs cs authHeader
            = { err := some "Unauthorized: Invalid token", code := StatusUnauthorized,
                calls := [.TokenReview (TrimPrefix authHeader "Bearer ")] }) ∨
        (tr.Authenticated = true ∧
          ((∃ e : String,
            cs.CreateSubjectAccessReview (debugAccessReview tr.User) = .error e ∧
            canTokenBearerDebugPFPs cs authHeader
              = { err := some ("Internal Server Error: " ++ e),
                  code := StatusInternalServerError,
                  calls := [.TokenReview (TrimPrefix authHeader "Bearer "),
                    .SubjectAccessReview (debugAccessReview tr.User)] }) ∨
          (∃ sarResult : SubjectAccessReviewStatus,
            cs.CreateSubjectAccessReview (debugAccessReview tr.User) = .ok sarResult ∧
            ((sarResult.Allowed = false ∧
              canTokenBearerDebugPFPs cs authHeader
                = { err := some ("Forbidden: " ++ sarResult.Reason), code := StatusForbidden,
                    calls := [.TokenReview (TrimPrefix authHeader "Bearer "),
                      .SubjectAccessReview (debugAccessReview tr.User)] }) ∨
            (sarResult.Allowed = true ∧
              canTokenBearerDebugPFPs cs authHeader
                = { err := none, code := StatusOK,
                    calls := [.TokenReview (TrimPrefix authHeader "Bearer "),
                      .SubjectAccessReview (debugAccessReview tr.User)] }))))))))) := by
  by_cases hp : HasPrefix authHeader "Bearer " = true
  swap
  · have hp2 : HasPrefix authHeader "Bearer " = false := by simpa using hp
    refine Or.inl ⟨hp2, ?_⟩
    unfold canTokenBearerDebugPFPs
    rw [if_pos ((header_test authHeader).mpr hp2)]
  · have hnot : ¬ (authHeader = "" ∨ ¬ HasPrefix authHeader "Bearer " = true) := by
      intro h
      rw [(header_test authHeader).mp h] at hp
      cases hp
    refine Or.inr ⟨hp, ?_⟩
    unfold canTokenBearerDebugPFPs
    rw [if_neg hnot]
    simp only
    cases htr : cs.CreateTokenReview (TrimPrefix authHeader "Bearer ") with
    | error e => exact Or.inl ⟨e, rfl, rfl⟩
    | ok tr =>
      refine Or.inr ⟨tr, rfl, ?_⟩
      simp only
      cases hau : tr.Authenticated with
      | false => exact Or.inl ⟨rfl, by simp⟩
      | true =>
        refine Or.inr ⟨rfl, ?_⟩
        simp only [not_true_eq_false, if_false]
        cases hsar : cs.CreateSubjectAccessReview (debugAccessReview tr.User) with
        | error e => exact Or.inl ⟨e, rfl, rfl⟩
        | ok sarResult =>
          refine Or.inr ⟨sarResult, rfl, ?_⟩
          simp only
          cases hal : sarResult.Allowed with
          | false => exact Or.inl ⟨rfl, by simp⟩
          | true => exact Or.inr ⟨rfl, by simp⟩

/-! ## C21: the loopback bypass -/

/-- A check that lets the request pass has asked both authorities. -/
theorem calls_of_no_error (cs : Clientset) (authHeader : String)
    (h : (canTokenBearerDebugPFPs cs authHeader).err = none) :
    (canTokenBearerDebugPFPs cs authHeader).calls ≠ [] := by
  rcases canTokenBearerDebugPFPs_cases cs authHeader with
    ⟨_, hr⟩ | ⟨_, ⟨e, _, hr⟩ | ⟨tr, _, ⟨_, hr⟩ | ⟨_, ⟨e, _, hr⟩ | ⟨sr, _, ⟨_, hr⟩ | ⟨_, hr⟩⟩⟩⟩⟩
  all_goals rw [hr] at h ⊢
  all_goals first
    | exact List.cons_ne_nil _ _
    | cases h

theorem isRequestFromLoopback_iff (net : NetLib) (remoteAddr : String) :
    isRequestFromLoopback net remoteAddr = true ↔
      ∃ (host port : String) (ip : List Nat),
        net.SplitHostPort remoteAddr = some (host, port) ∧ net.ParseIP host = some ip ∧
        net.IsLoopback ip = true := by
  unfold isRequestFromLoopback
  cases hs : net.SplitHostPort remoteAddr with
  | none =>
    constructor
    · intro h; cases h
    · rintro ⟨_, _, _, h, _⟩; cases h
  | some hp =>
    obtain ⟨host, port⟩ := hp
    simp only
    cases hip : net.ParseIP host with
    | none =>
      constructor
      · intro h; cases h
      · rintro ⟨host2, port2, ip2, h2, h3, _⟩
        injection h2 with h2
        injection h2 with h2 _
        rw [← h2, hip] at h3
        cases h3
    | some ip =>
      simp only
      constructor
      · intro hl
        exact ⟨host, port, ip, rfl, hip, hl⟩
      · rintro ⟨host2, port2, ip2, h2, h3, h4⟩
        injection h2 with h2
        injection h2 with h2 _
        rw [← h2, hip] at h3
        injection h3 with h3
        rw [h3]
        exact h4

/-- C21. `ServeHTTP` runs the wrapped handler without any call to the authorities
exactly when `RemoteAddr` splits into host and port and the host parses as a loopback
address. Then it does not look at the `Authorization` header: it answers what the
wrapped handler answers, so two requests from that address that the wrapped handler
answers alike, whatever their headers, get the same outcome. For every other
`RemoteAddr`, unparsable ones included, the outcome is that of the token check, and a
request without the header gets 401. -/
theorem C21_loopback_bypass (net : NetLib) (tba : TokenBearerAuthenticator) (r : Request) :
    (isRequestFromLoopback net r.RemoteAddr = true ↔
      ∃ (host port : String) (ip : List Nat),
        net.SplitHostPort r.RemoteAddr = some (host, port) ∧ net.ParseIP host = some ip ∧
        net.IsLoopback ip = true) ∧
    (((tba.ServeHTTP net r).nextRan = true ∧ (tba.ServeHTTP net r).calls = []) ↔
      isRequestFromLoopback net r.RemoteAddr = true) ∧
    (isRequestFromLoopback net r.RemoteAddr = true →
      tba.ServeHTTP net r = { response := tba.next r, nextRan := true, calls := [] } ∧
      ∀ r2 : Request, r2.RemoteAddr = r.RemoteAddr →
        (tba.ServeHTTP net r2).nextRan = (tba.ServeHTTP net r).nextRan ∧
        (tba.ServeHTTP net r2).calls = (tba.ServeHTTP net r).calls ∧
        (tba.next r2 = tba.next r → tba.ServeHTTP net r2 = tba.ServeHTTP net r)) ∧
    (isRequestFromLoopback net r.RemoteAddr = false →
      (tba.ServeHTTP net r).calls = (canTokenBearerDebugPFPs tba.cs r.Authorization).calls ∧
      ((tba.ServeHTTP net r).nextRan = true ↔
        (canTokenBearerDebugPFPs tba.cs r.Authorization).err = none) ∧
      (r.Authorization = "" →
        tba.ServeHTTP net r =
          { response := httpError "Unauthorized: Missing Authorization Header" 401,
            nextRan := false, calls := [] })) := by
  have hloop : ∀ q : Request, isRequestFromLoopback net q.RemoteAddr = true →
      tba.ServeHTTP net q = { response := tba.next q, nextRan := true, calls := [] } := by
    intro q hq
    unfold TokenBearerAuthenticator.ServeHTTP
    rw [if_pos hq]
  have hother : isRequestFromLoopback net r.RemoteAddr = false →
      (tba.ServeHTTP net r).calls = (canTokenBearerDebugPFPs tba.cs r.Authorization).calls ∧
      ((tba.ServeHTTP net r).nextRan = true ↔
        (canTokenBearerDebugPFPs tba.cs r.Authorization).err = none) := by
    intro hq
    unfold TokenBearerAuthenticator.ServeHTTP
    simp only [hq, Bool.false_eq_true, if_false]
    cases herr : (canTokenBearerDebugPFPs tba.cs r.Authorization).err with
    | none => simp
    | some msg => simp
  refine ⟨isRequestFromLoopback_iff net r.RemoteAddr, ?_, ?_, ?_⟩
  · constructor
    · rintro ⟨hran, hcalls⟩
      by_contra hnot
      have hq : isRequestFromLoopback net r.RemoteAddr = false := by simpa using hnot
      obtain ⟨h1, h2⟩ := hother hq
      exact calls_of_no_error tba.cs r.Authorization (h2.mp hran) (h1 ▸ hcalls)
    · intro hq
      rw [hloop r hq]
      exact ⟨rfl, rfl⟩
  · intro hq
    refine ⟨hloop r hq, fun r2 h2 => ?_⟩
    rw [hloop r hq, hloop r2 (h2 ▸ hq)]
    refine ⟨rfl, rfl, fun hsame => ?_⟩
    rw [hsame]
  · intro hq
    obtain ⟨h1, h2⟩ := hother hq
    refine ⟨h1, h2, fun hempty => ?_⟩
    unfold TokenBearerAuthenticator.ServeHTTP
    simp only [hq, Bool.false_eq_true, if_false, hempty]
    rfl

/-- C21 at the sample network: without a header, a request from `127.0.0.1:4000`
reaches the wrapped handler with no call made, one from `10.0.0.7:4000` gets 401, and so
does one whose address does not parse. -/
theorem C21_loopback_bypass_witness :
    TokenBearerAuthenticator.ServeHTTP sampleNet { cs := sampleClientset, next := okHandler }
        { RemoteAddr := "127.0.0.1:4000", Authorization := "" }
      = { response := { code := 200, body := "ok" }, nextRan := true, calls := [] } ∧
    TokenBearerAuthenticator.ServeHTTP sampleNet { cs := sampleClientset, next := okHandler }
        { RemoteAddr := "10.0.0.7:4000", Authorization := "" }
      = { response := httpError "Unauthorized: Missing Authorization Header" 401,
          nextRan := false, calls := [] } ∧
    TokenBearerAuthenticator.ServeHTTP sampleNet { cs := sampleClientset, next := okHandler }
        { RemoteAddr := "localhost", Authorization := "" }
      = { response := httpError "Unauthorized: Missing Authorization Header" 401,
          nextRan := false, calls := [] } :=
  ⟨((C21_loopback_bypass sampleNet { cs := sampleClientset, next := okHandler }
      { RemoteAddr := "127.0.0.1:4000", Authorization := "" }).2.2.1 (by decide)).1,
    (C21_loopback_bypass sampleNet { cs := sampleClientset, next := okHandler }
      { RemoteAddr := "10.0.0.7:4000", Authorization := "" }).2.2.2 (by decide) |>.2.2 rfl,
    (C21_loopback_bypass sampleNet { cs := sampleClientset, next := okHandler }
      { RemoteAddr := "localhost", Authorization := "" }).2.2.2 (by decide) |>.2.2 rfl⟩

/-! ## C22: the bodies of rejections -/

/-- What `ServeHTTP` answers to a request that is not from loopback. -/
theorem ServeHTTP_not_loopback (net : NetLib) (tba : TokenBearerAuthenticator) (r : Request)
    (hq : isRequestFromLoopback net r.RemoteAddr = false) :
    tba.ServeHTTP net r =
      match (canTokenBearerDebugPFPs tba.cs r.Authorization).err with
      | some msg =>
        { response := httpError msg (canTokenBearerDebugPFPs tba.cs r.Authorization).code,
          nextRan := false,
          calls := (canTokenBearerDebugPFPs tba.cs r.Authorization).calls }
      | none =>
        { response := tba.next r, nextRan := true,
          calls := (canTokenBearerDebugPFPs tba.cs r.Authorization).calls } := by
  unfold TokenBearerAuthenticator.ServeHTTP
  simp only [hq, Bool.false_eq_true, if_false]

/-- C22 as stated fails: two transport errors with different texts give different 500
bodies, and two denial reasons give different 403 bodies. -/
theorem C22_generic_bodies_counterexample :
    (TokenBearerAuthenticator.ServeHTTP sampleNet
        { cs := brokenClientset "etcd timeout", next := okHandler }
        (remoteRequest "Bearer good")).response
      = { code := 500, body := "Internal Server Error: etcd timeout\n" } ∧
    (TokenBearerAuthenticator.ServeHTTP sampleNet
        { cs := brokenClientset "connection refused", next := okHandler }
        (remoteRequest "Bearer good")).response
      = { code := 500, body := "Internal Server Error: connection refused\n" } ∧
    (TokenBearerAuthenticator.ServeHTTP sampleNet
        { cs := brokenClientset "etcd timeout", next := okHandler }
        (remoteRequest "Bearer good")).response.body
      ≠ (TokenBearerAuthenticator.ServeHTTP sampleNet
        { cs := brokenClientset "connection refused", next := okHandler }
        (remoteRequest "Bearer good")).response.body ∧
    (TokenBearerAuthenticator.ServeHTTP sampleNet
        { cs := denyingClientset "no RBAC rule", next := okHandler }
        (remoteRequest "Bearer good")).response
      = { code := 403, body := "Forbidden: no RBAC rule\n" } ∧
    (TokenBearerAuthenticator.ServeHTTP sampleNet
        { cs := denyingClientset "user is suspended", next := okHandler }
        (remoteRequest "Bearer good")).response
      = { code := 403, body := "Forbidden: user is suspended\n" } ∧
    (TokenBearerAuthenticator.ServeHTTP sampleNet
        { cs := denyingClientset "no RBAC rule", next := okHandler }
        (remoteRequest "Bearer good")).response.body
      ≠ (TokenBearerAuthenticator.ServeHTTP sampleNet
        { cs := denyingClientset "user is suspended", next := okHandler }
        (remoteRequest "Bearer good")).response.body := by
  decide

/-- C22, amended. The body of a rejection is the error text and a newline. For 401 the
text is one of two fixed messages. For 500 it is `Internal Server Error: ` followed by
the text of the transport error of the call that failed, and for 403 it is `Forbidden: `
followed by the denial reason the access review returned. -/
theorem C22_rejection_bodies (net : NetLib) (tba : TokenBearerAuthenticator) (r : Request)
    (hrej : (tba.ServeHTTP net r).nextRan = false) :
    (HasPrefix r.Authorization "Bearer " = false ∧
      (tba.ServeHTTP net r).response
        = { code := 401, body := "Unauthorized: Missing Authorization Header" ++ "\n" }) ∨
    (∃ e : String, tba.cs.CreateTokenReview (TrimPrefix r.Authorization "Bearer ") = .error e ∧
      (tba.ServeHTTP net r).response
        = { code := 500, body := "Internal Server Error: " ++ e ++ "\n" }) ∨
    (∃ tr : TokenReviewStatus,
      tba.cs.CreateTokenReview (TrimPrefix r.Authorization "Bearer ") = .ok tr ∧
      tr.Authenticated = false ∧
      (tba.ServeHTTP net r).response
        = { code := 401, body := "Unauthorized: Invalid token" ++ "\n" }) ∨
    (∃ (tr : TokenReviewStatus) (e : String),
      tba.cs.CreateTokenReview (TrimPrefix r.Authorization "Bearer ") = .ok tr ∧
      tba.cs.CreateSubjectAccessReview (debugAccessReview tr.User) = .error e ∧
      (tba.ServeHTTP net r).response
        = { code := 500, body := "Internal Server Error: " ++ e ++ "\n" }) ∨
    (∃ (tr : TokenReviewStatus) (sarResult : SubjectAccessReviewStatus),
      tba.cs.CreateTokenReview (TrimPrefix r.Authorization "Bearer ") = .ok tr ∧
      tba.cs.CreateSubjectAccessReview (debugAccessReview tr.User) = .ok sarResult ∧
      sarResult.Allowed = false ∧
      (tba.ServeHTTP net r).response
        = { code := 403, body := "Forbidden: " ++ sarResult.Reason ++ "\n" }) := by
  have hq : isRequestFromLoopback net r.RemoteAddr = false := by
    cases hl : isRequestFromLoopback net r.RemoteAddr with
    | false => rfl
    | true =>
      unfold TokenBearerAuthenticator.ServeHTTP at hrej
      rw [if_pos hl] at hrej
      cases hrej
  rw [ServeHTTP_not_loopback net tba r hq] at hrej ⊢
  rcases canTokenBearerDebugPFPs_cases tba.cs r.Authorization with
    ⟨hp, hr⟩ | ⟨_, ⟨e, h1, hr⟩ | ⟨tr, h1, ⟨h2, hr⟩ | ⟨_, ⟨e, h3, hr⟩ | ⟨sr, h3, ⟨h4, hr⟩ | ⟨_, hr⟩⟩⟩⟩⟩
  · rw [hr]
    exact Or.inl ⟨hp, rfl⟩
  · rw [hr]
    exact Or.inr (Or.inl ⟨e, h1, rfl⟩)
  · rw [hr]
    exact Or.inr (Or.inr (Or.inl ⟨tr, h1, h2, rfl⟩))
  · rw [hr]
    exact Or.inr (Or.inr (Or.inr (Or.inl ⟨tr, e, h1, h3, rfl⟩)))
  · rw [hr]
    exact Or.inr (Or.inr (Or.inr (Or.inr ⟨tr, sr, h1, h3, h4, rfl⟩)))
  · rw [hr] at hrej
    cases hrej

/-- C22, amended, at a client whose token review call fails with `etcd timeout`. -/
theorem C22_rejection_bodies_witness :
    (TokenBearerAuthenticator.ServeHTTP sampleNet
        { cs := brokenClientset "etcd timeout", next := okHandler }
        (remoteRequest "Bearer good")).nextRan = false ∧
    ((HasPrefix "Bearer good" "Bearer " = false ∧
      (TokenBearerAuthenticator.ServeHTTP sampleNet
          { cs := brokenClientset "etcd timeout", next := okHandler }
          (remoteRequest "Bearer good")).response
        = { code := 401, body := "Unauthorized: Missing Authorization Header" ++ "\n" }) ∨
    (∃ e : String,
      (brokenClientset "etcd timeout").CreateTokenReview (TrimPrefix "Bearer good" "Bearer ")
        = .error e ∧
      (TokenBearerAuthenticator.ServeHTTP sampleNet
          { cs := brokenClientset "etcd timeout", next := okHandler }
          (remoteRequest "Bearer good")).response
        = { code := 500, body := "Internal Server Error: " ++ e ++ "\n" }) ∨
    (∃ tr : TokenReviewStatus,
      (brokenClientset "etcd timeout").CreateTokenReview (TrimPrefix "Bearer good" "Bearer ")
        = .ok tr ∧
      tr.Authenticated = false ∧
      (TokenBearerAuthenticator.ServeHTTP sampleNet
          { cs := brokenClientset "etcd timeout", next := okHandler }
          (remoteRequest "Bearer good")).response
        = { code := 401, body := "Unauthorized: Invalid token" ++ "\n" }) ∨
    (∃ (tr : TokenReviewStatus) (e : String),
      (brokenClientset "etcd timeout").CreateTokenReview (TrimPrefix "Bearer good" "Bearer ")
        = .ok tr ∧
      (brokenClientset "etcd timeout").CreateSubjectAccessReview (debugAccessReview tr.User)
        = .error e ∧
      (TokenBearerAuthenticator.ServeHTTP sampleNet
          { cs := brokenClientset "etcd timeout", next := okHandler }
          (remoteRequest "Bearer good")).response
        = { code := 500, body := "Internal Server Error: " ++ e ++ "\n" }) ∨
    (∃ (tr : TokenReviewStatus) (sarResult : SubjectAccessReviewStatus),
      (brokenClientset "etcd timeout").CreateTokenReview (TrimPrefix "Bearer good" "Bearer ")
        = .ok tr ∧
      (brokenClientset "etcd timeout").CreateSubjectAccessReview (debugAccessReview tr.User)
        = .ok sarResult ∧
      sarResult.Allowed = false ∧
      (TokenBearerAuthenticator.ServeHTTP sampleNet
          { cs := brokenClientset "etcd timeout", next := okHandler }
          (remoteRequest "Bearer good")).response
        = { code := 403, body := "Forbidden: " ++ sarResult.Reason ++ "\n" })) :=
  ⟨by decide,
    C22_rejection_bodies sampleNet { cs := brokenClientset "etcd timeout", next := okHandler }
      (remoteRequest "Bearer good") (by decide)⟩

/-! ## C23: the per-node handler -/

/-- C23. `pfpstatusNodeHandler` answers 422 exactly when the node name is empty or
`ContentForNode` reports the node as not found. Otherwise it answers 200, and the body
is what the encoder writes for exactly the sequence `ContentForNode` returned. -/
theorem C23_node_handler (encode : List record.RecordedStatus → Except String String)
    (rr : record.Recorder) (nodeName : String) :
    ((pfpstatusNodeHandler encode rr nodeName).code = 422 ↔
      (nodeName = "" ∨ (rr.ContentForNode nodeName).2 = false)) ∧
    (nodeName = "" →
      pfpstatusNodeHandler encode rr nodeName = httpError "missing node name" 422) ∧
    (nodeName ≠ "" → (rr.ContentForNode nodeName).2 = false →
      pfpstatusNodeHandler encode rr nodeName = httpError "unknown node name" 422) ∧
    (nodeName ≠ "" → (rr.ContentForNode nodeName).2 = true →
      (pfpstatusNodeHandler encode rr nodeName).code = 200 ∧
      ∀ text : String, encode (rr.ContentForNode nodeName).1 = .ok text →
        pfpstatusNodeHandler encode rr nodeName = { code := 200, body := text }) := by
  by_cases hn : nodeName = ""
  · have hres : pfpstatusNodeHandler encode rr nodeName
        = httpError "missing node name" 422 := by
      unfold pfpstatusNodeHandler
      rw [if_pos hn]
      rfl
    refine ⟨?_, fun _ => hres, fun h => absurd hn h, fun h => absurd hn h⟩
    rw [hres]
    exact ⟨fun _ => Or.inl hn, fun _ => rfl⟩
  · cases hf : (rr.ContentForNode nodeName).2 with
    | false =>
      have hres : pfpstatusNodeHandler encode rr nodeName
          = httpError "unknown node name" 422 := by
        unfold pfpstatusNodeHandler
        rw [if_neg hn]
        simp only [hf]
        rfl
      refine ⟨?_, fun h => absurd h hn, fun _ _ => hres, fun _ h => (by cases h)⟩
      rw [hres]
      exact ⟨fun _ => Or.inr rfl, fun _ => rfl⟩
    | true =>
      have hres : pfpstatusNodeHandler encode rr nodeName
          = sendContent encode (rr.ContentForNode nodeName).1 := by
        unfold pfpstatusNodeHandler
        rw [if_neg hn]
        simp only [hf]
        rfl
      refine ⟨?_, fun h => absurd h hn, fun _ h => (by cases h), fun _ _ => ⟨?_, ?_⟩⟩
      · rw [hres]
        constructor
        · intro h
          cases h
        · rintro (h | h)
          · exact absurd h hn
          · cases h
      · rw [hres]
        rfl
      · intro text ht
        rw [hres]
        unfold sendContent
        rw [ht]
        rfl

/-- C23 at a recorder that knows `node-0` only: the empty name and `node-9` get 422,
`node-0` gets 200 with its one entry encoded. -/
theorem C23_node_handler_witness :
    pfpstatusNodeHandler sampleEncode record.oneNodeRecorder1 ""
      = { code := 422, body := "missing node name\n" } ∧
    pfpstatusNodeHandler sampleEncode record.oneNodeRecorder1 "node-9"
      = { code := 422, body := "unknown node name\n" } ∧
    pfpstatusNodeHandler sampleEncode record.oneNodeRecorder1 "node-0"
      = { code := 200, body := "[node-0:]\n" } :=
  ⟨(C23_node_handler sampleEncode record.oneNodeRecorder1 "").2.1 rfl,
    (C23_node_handler sampleEncode record.oneNodeRecorder1 "node-9").2.2.1 (by decide)
      (by decide),
    ((C23_node_handler sampleEncode record.oneNodeRecorder1 "node-0").2.2.2 (by decide)
      (by decide)).2 _ (congrArg Except.ok (by decide))⟩

/-! ## C24: the order of the middlewares -/

/-- One more registered middleware wraps the handler built so far. -/
theorem serveLoopHandler_append (mux : Handler) (mws : List Middleware) (m : Middleware) :
    serveLoopHandler mux (mws ++ [m]) = m.Link (serveLoopHandler mux mws) := by
  unfold serveLoopHandler
  rw [List.foldl_append]
  rfl

/-- C24. The handler `serveLoop` serves is the mux wrapped by the middlewares in
registration order: with no middleware it is the bare mux, each further middleware
wraps what the earlier ones built, so for `m1..mk` it is
`mk.Link(...(m2.Link(m1.Link(mux)))...)`. The last-registered middleware is outermost:
when it answers by itself, that is the answer, whatever the others and the mux do. -/
theorem C24_middleware_order (mux : Handler) (mws : List Middleware) :
    serveLoopHandler mux [] = mux ∧
    (∀ m : Middleware,
      serveLoopHandler mux (mws ++ [m]) = m.Link (serveLoopHandler mux mws)) ∧
    serveLoopHandler mux mws = nestedLinks mux mws.reverse ∧
    (∀ m1 m2 m3 : Middleware,
      serveLoopHandler mux [m1, m2, m3] = m3.Link (m2.Link (m1.Link mux))) ∧
    (∀ (m : Middleware) (own : Handler), (∀ next : Handler, m.Link next = own) →
      serveLoopHandler mux (mws ++ [m]) = own) := by
  refine ⟨rfl, serveLoopHandler_append mux mws, ?_, fun _ _ _ => rfl, fun m own h => ?_⟩
  · induction mws using List.reverseRecOn with
    | nil => rfl
    | append_singleton l m ih =>
      rw [serveLoopHandler_append, List.reverse_append, ih]
      rfl
  · rw [serveLoopHandler_append]
    exact h _

/-- C24 at two marking middlewares: `b`, registered last, wraps `a`; and a denying
middleware registered last answers alone. -/
theorem C24_middleware_order_witness :
    serveLoopHandler okHandler [tagMiddleware "a", tagMiddleware "b"] (remoteRequest "")
      = { code := 200, body := "b(a(ok))" } ∧
    serveLoopHandler okHandler ([tagMiddleware "a", tagMiddleware "b"] ++ [denyMiddleware])
      = fun _ => { code := 403, body := "denied" } :=
  ⟨(congrFun ((C24_middleware_order okHandler [tagMiddleware "a"]).2.1 (tagMiddleware "b"))
      (remoteRequest "")).trans (by decide),
    (C24_middleware_order okHandler [tagMiddleware "a", tagMiddleware "b"]).2.2.2.2
      denyMiddleware _ (fun _ => rfl)⟩

/-! ## C25: the HTTP settings read from the environment -/

/-- The HTTP part of what `ParamsFromEnv` leaves, by the port and host options. -/
theorem ParamsFromEnv_HTTP (sys : Sys) (params : Params) :
    (ParamsFromEnv sys params).HTTP =
      match sys.LookupEnv PFPStatusPortEnvVar, sys.LookupEnv PFPStatusHostEnvVar with
      | none, _ => { params.HTTP with Enabled := false }
      | some text, host =>
        if text = "" then { params.HTTP with Enabled := false }
        else
          match sys.Atoi text, host with
          | none, _ => { params.HTTP with Enabled := false }
          | some port, none => { params.HTTP with Enabled := true, Port := port }
          | some port, some dumpHost =>
            { params.HTTP with Enabled := true, Port := port, Host := dumpHost } := by
  unfold ParamsFromEnv
  cases hport : sys.LookupEnv PFPStatusPortEnvVar with
  | none =>
    simp only [Option.isNone_none, true_or, if_true]
    cases hhost : sys.LookupEnv PFPStatusHostEnvVar <;> simp only [] <;> split_ifs <;>
        first | rfl | simp_all
  | some text =>
    by_cases htext : text = ""
    · simp only [Option.getD_some, htext, or_true, if_true]
      cases hhost : sys.LookupEnv PFPStatusHostEnvVar <;> simp only [] <;> split_ifs <;>
        first | rfl | simp_all
    · simp only [Option.getD_some, htext, Option.isNone_some, Bool.false_eq_true, or_self,
        if_false]
      cases hatoi : sys.Atoi text <;>
      cases hhost : sys.LookupEnv PFPStatusHostEnvVar <;>
      simp only [] <;> split_ifs <;> first | rfl | simp_all

/-- C25 as stated fails: with `PFP_STATUS_PORT=http` the port option is present and not
empty, yet `ParamsFromEnv` leaves HTTP disabled, since `http` is not an integer. -/
theorem C25_enabled_iff_port_present_counterexample :
    (sysWithPort "http").LookupEnv PFPStatusPortEnvVar = some "http" ∧ "http" ≠ "" ∧
    DefaultParams.HTTP.Enabled = true ∧
    (ParamsFromEnv (sysWithPort "http") DefaultParams).HTTP.Enabled = false := by
  decide

/-- C25, amended. `ParamsFromEnv` sets `HTTP.Enabled` to true exactly when
`PFP_STATUS_PORT` is set to a non-empty value that `strconv.Atoi` parses, in which case
`HTTP.Port` is the parsed integer; otherwise it sets it to false and leaves `HTTP.Port`
as it was. It replaces `HTTP.Host` by `PFP_STATUS_HOST` only when that option is set
and `HTTP.Enabled` ended up true, and otherwise leaves `HTTP.Host` as it was. -/
theorem C25_http_params_from_env (sys : Sys) (params : Params) :
    ((ParamsFromEnv sys params).HTTP.Enabled = true ↔
      ∃ (text : String) (port : Int),
        sys.LookupEnv PFPStatusPortEnvVar = some text ∧ text ≠ "" ∧
        sys.Atoi text = some port) ∧
    (∀ (text : String) (port : Int),
      sys.LookupEnv PFPStatusPortEnvVar = some text → text ≠ "" →
      sys.Atoi text = some port → (ParamsFromEnv sys params).HTTP.Port = port) ∧
    ((ParamsFromEnv sys params).HTTP.Enabled = false →
      (ParamsFromEnv sys params).HTTP.Port = params.HTTP.Port) ∧
    (∀ dumpHost : String, sys.LookupEnv PFPStatusHostEnvVar = some dumpHost →
      (ParamsFromEnv sys params).HTTP.Enabled = true →
      (ParamsFromEnv sys params).HTTP.Host = dumpHost) ∧
    ((sys.LookupEnv PFPStatusHostEnvVar = none ∨
        (ParamsFromEnv sys params).HTTP.Enabled = false) →
      (ParamsFromEnv sys params).HTTP.Host = params.HTTP.Host) := by
  rw [ParamsFromEnv_HTTP]
  cases hport : sys.LookupEnv PFPStatusPortEnvVar with
  | none =>
    refine ⟨⟨fun h => (by cases h), ?_⟩, fun _ _ h => (by cases h), fun _ => rfl,
      fun _ _ h => (by cases h), fun _ => rfl⟩
    rintro ⟨_, _, h, _⟩
    cases h
  | some text =>
    by_cases htext : text = ""
    · simp only [if_pos htext]
      refine ⟨⟨fun h => (by cases h), ?_⟩, ?_, ?_, fun _ _ h => (by cases h), ?_⟩
      · rintro ⟨_, _, h, hne, _⟩
        injection h with h
        exact absurd (h ▸ htext) hne
      · intro _ _ h hne
        injection h with h
        exact absurd (h ▸ htext) hne
      · intro _
        trivial
      · intro _
        trivial
    · simp only [if_neg htext]
      cases hatoi : sys.Atoi text with
      | none =>
        refine ⟨⟨fun h => (by cases h), ?_⟩, ?_, fun _ => rfl, fun _ _ h => (by cases h),
          fun _ => rfl⟩
        · rintro ⟨_, _, h, _, ha⟩
          injection h with h
          rw [← h, hatoi] at ha
          cases ha
        · intro _ _ h _ ha
          injection h with h
          rw [← h, hatoi] at ha
          cases ha
      | some port =>
        have hp : ∀ (text2 : String) (port2 : Int), some text = some text2 →
            sys.Atoi text2 = some port2 → port = port2 := by
          intro text2 port2 h ha
          injection h with h
          rw [← h, hatoi] at ha
          injection ha
        cases hhost : sys.LookupEnv PFPStatusHostEnvVar with
        | none =>
          refine ⟨⟨fun _ => ⟨text, port, rfl, htext, hatoi⟩, fun _ => rfl⟩,
            fun t p h _ ha => hp t p h ha, fun h => (by cases h), fun _ h => (by cases h),
            fun _ => rfl⟩
        | some dumpHost =>
          refine ⟨⟨fun _ => ⟨text, port, rfl, htext, hatoi⟩, fun _ => rfl⟩,
            fun t p h _ ha => hp t p h ha, fun h => (by cases h), ?_, ?_⟩
          · intro d hd _
            injection hd
          · rintro (h | h)
            · cases h
            · cases h

/-- C25, amended, at three environments: `PFP_STATUS_PORT=33445` enables HTTP on port
33445, `PFP_STATUS_PORT=http` and the empty value disable it and leave the port. -/
theorem C25_http_params_from_env_witness :
    ((ParamsFromEnv (sysWithPort "33445") DefaultParams).HTTP.Enabled = true ∧
      (ParamsFromEnv (sysWithPort "33445") DefaultParams).HTTP.Port = 33445) ∧
    (ParamsFromEnv (sysWithPort "http") DefaultParams).HTTP.Port = 33445 ∧
    (ParamsFromEnv (sysWithPort "") DefaultParams).HTTP.Host = "" :=
  ⟨⟨(C25_http_params_from_env (sysWithPort "33445") DefaultParams).1.mpr
        ⟨"33445", 33445, by decide, by decide, by decide⟩,
      (C25_http_params_from_env (sysWithPort "33445") DefaultParams).2.1 "33445" 33445
        (by decide) (by decide) (by decide)⟩,
    (C25_http_params_from_env (sysWithPort "http") DefaultParams).2.2.1 (by decide),
    (C25_http_params_from_env (sysWithPort "") DefaultParams).2.2.2.2 (Or.inl (by decide))⟩

end pfpstatus
